import Mathlib

/-!
# Verification of the slick-orderbook L2/L3 book engines

Shallow embedding of the per-instrument Level-2 and Level-3 order book
engines of the repository, translated from
`include/slick/orderbook/detail/impl/orderbook_l2_impl.hpp`,
`include/slick/orderbook/detail/impl/orderbook_l3_impl.hpp`,
`include_private/slick/orderbook/detail/level_container.hpp` and
`include_private/slick/orderbook/detail/price_level.hpp`.

Machine integers: `Price` and `Quantity` are signed 64-bit in the source and
are modelled as `Int` (no operation in the modelled code can overflow them
from in-range inputs, and no claim depends on wraparound); `Timestamp`,
`OrderId`, `SeqNum` and `priority` are unsigned 64-bit and are modelled as
`Nat`.  The one place a narrowing cast is semantically visible is the
`static_cast<uint16_t>` applied to level indices; it is modelled explicitly
as `% 65536`.

Observer dispatch is modelled by returning the list of emitted events from
each mutating operation; the seqlock around the L2 top-of-book cache is a
concurrency device invisible to the single-writer functional semantics
(readers always see the completed cached value), so readers return the
cached fields directly, and the `tob_seq_` counter is carried in the state
and bumped by 2 per publication exactly as the writer does.
-/

namespace Slick

/-- `Side` enum from `types.hpp` (`Buy = 0`, `Sell = 1`). -/
inductive Side where
  | Buy : Side
  | Sell : Side
deriving DecidableEq, Repr

/-- Change-flag bit `PriceChanged = 0x01` from `events.hpp`. -/
def PriceChanged : Nat := 1

/-- Change-flag bit `QuantityChanged = 0x02` from `events.hpp`. -/
def QuantityChanged : Nat := 2

/-- Change-flag bit `LastInBatch = 0x04` from `events.hpp`. -/
def LastInBatch : Nat := 4

/-- `INVALID_INDEX = numeric_limits<uint16_t>::max()` from `types.hpp`. -/
def INVALID_INDEX : Nat := 65535

/-- `PriceLevelL2 {price, quantity, timestamp}` from `price_level.hpp`. -/
structure PriceLevelL2 where
  price : Int
  quantity : Int
  timestamp : Nat
deriving DecidableEq, Repr

/-- `TopOfBook` record from `events.hpp`; default-constructed all zero. -/
structure TopOfBook where
  symbol : Nat
  best_bid : Int
  bid_quantity : Int
  best_ask : Int
  ask_quantity : Int
  timestamp : Nat
deriving DecidableEq, Repr

/-- Default `TopOfBook` constructor (all fields zero). -/
def TopOfBook.default0 : TopOfBook := ⟨0, 0, 0, 0, 0, 0⟩

/-- The four value fields `(best_bid, bid_quantity, best_ask, ask_quantity)`
compared by `notifyTopOfBookIfChanged` in both book engines. -/
def TopOfBook.fields4 (t : TopOfBook) : Int × Int × Int × Int :=
  (t.best_bid, t.bid_quantity, t.best_ask, t.ask_quantity)

/-- `PriceLevelUpdate` event record from `events.hpp`. -/
structure PriceLevelUpdate where
  symbol : Nat
  side : Side
  price : Int
  quantity : Int
  timestamp : Nat
  level_index : Nat
  change_flags : Nat
  seq_num : Nat
deriving DecidableEq, Repr

/-- `OrderUpdate` event record from `events.hpp`. -/
structure OrderUpdate where
  symbol : Nat
  order_id : Nat
  side : Side
  price : Int
  quantity : Int
  timestamp : Nat
  price_level_index : Nat
  priority : Nat
  change_flags : Nat
  seq_num : Nat
deriving DecidableEq, Repr

/-- One observer callback, in emission order.  `onPriceLevelUpdate`,
`onOrderUpdate` and `onTopOfBookUpdate` are the callbacks the modelled
operations can fire. -/
inductive Event where
  | priceLevel (u : PriceLevelUpdate) : Event
  | order (u : OrderUpdate) : Event
  | tob (t : TopOfBook) : Event
deriving DecidableEq, Repr

/-- Is this event a `TopOfBookUpdate` notification? -/
def Event.isTob : Event → Bool
  | .tob _ => true
  | _ => false

/-- Number of `TopOfBookUpdate` events in an emission list. -/
def countTob (evs : List Event) : Nat := (evs.filter Event.isTob).length

/-- Side-specific strict "comes earlier in the container" order on prices:
`BidComparator` is `a > b` (descending) and `AskComparator` is `a < b`
(ascending), from `price_level.hpp`. -/
def sideBefore (side : Side) (a b : Int) : Bool :=
  match side with
  | .Buy => a > b
  | .Sell => a < b

/-- The stale-sequence-number test shared by every mutating operation of
both books: reject iff `seq_num > 0 && seq_num < last_seq_num`. -/
def seqStale (last_seq_num seq_num : Nat) : Prop :=
  seq_num > 0 ∧ seq_num < last_seq_num

instance (last seq : Nat) : Decidable (seqStale last seq) := by
  unfold seqStale; infer_instance

/-! The non-stale half of the gate, `last_seq_num_ = seq_num` guarded by
`seq_num > 0`, is shared verbatim by every mutating operation of both
books; it is named here once per book type. -/

/-! ## L2 level container (`level_container.hpp`)

The container is a price-sorted `std::vector<PriceLevelL2>`.  Its
`find`/`insertOrUpdate` use `std::lower_bound` with the side comparator;
on the sorted vectors the container maintains, `lower_bound` coincides
with the linear scan that skips every entry strictly earlier (in side
order) than the key, which is how the functions are rendered here. -/

/-- `LevelContainer::insertOrUpdate(price, qty, ts)`: binary-search for the
price; overwrite in place if found, else splice in at the lower bound.
Returns the updated sequence, the index of the affected entry
(`distance(begin, it)` in the caller) and whether an insertion occurred. -/
def insertOrUpdate (side : Side) (price qty : Int) (ts : Nat) :
    List PriceLevelL2 → List PriceLevelL2 × Nat × Bool
  | [] => ([⟨price, qty, ts⟩], 0, true)
  | l :: ls =>
    if sideBefore side l.price price then
      let r := insertOrUpdate side price qty ts ls
      (l :: r.1, r.2.1 + 1, r.2.2)
    else if l.price = price then
      (⟨price, qty, ts⟩ :: ls, 0, false)
    else
      (⟨price, qty, ts⟩ :: l :: ls, 0, true)

/-- `LevelContainer::find(price)` as the index of the matching entry
(`lower_bound` followed by an equality check), `none` when absent. -/
def findLevelIdx (side : Side) (price : Int) : List PriceLevelL2 → Option Nat
  | [] => none
  | l :: ls =>
    if sideBefore side l.price price then
      (findLevelIdx side price ls).map (· + 1)
    else if l.price = price then some 0
    else none

/-- `LevelContainer::erase(price)`: find then erase; returns the updated
sequence and whether an entry was removed. -/
def eraseLevel (side : Side) (price : Int) (ls : List PriceLevelL2) :
    List PriceLevelL2 × Bool :=
  match findLevelIdx side price ls with
  | some i => (ls.eraseIdx i, true)
  | none => (ls, false)

/-! ## L2 book (`orderbook_l2_impl.hpp`)

The member `change_starting_index_` is used and reset by
`OrderBookL2::updateLevel` in the implementation header; the class
declaration carrying its initializer is not part of the sources at hand.
Its initial value is modelled from the spec: "Track the minimum
level-index touched within the current batch in `change_starting_index`
(initially sentinel MAX)", i.e. it starts at `INVALID_INDEX`. -/

/-- `OrderBookL2` writer-visible state. -/
structure OrderBookL2 where
  symbol : Nat
  bids : List PriceLevelL2
  asks : List PriceLevelL2
  cached_tob : TopOfBook
  cached_best_bid : PriceLevelL2
  cached_best_ask : PriceLevelL2
  tob_seq : Nat
  last_seq_num : Nat
  change_starting_index : Nat
deriving DecidableEq, Repr

/-- `OrderBookL2` constructor: empty sides, zeroed caches,
`last_seq_num_ = 0`, and the cached `TopOfBook` carrying the symbol. -/
def OrderBookL2.init (symbol : Nat) : OrderBookL2 :=
  { symbol := symbol
    bids := []
    asks := []
    cached_tob := { TopOfBook.default0 with symbol := symbol }
    cached_best_bid := ⟨0, 0, 0⟩
    cached_best_ask := ⟨0, 0, 0⟩
    tob_seq := 0
    last_seq_num := 0
    change_starting_index := INVALID_INDEX }

/-- `sides_[side]` of the L2 book. -/
def OrderBookL2.sideLevels (s : OrderBookL2) (side : Side) : List PriceLevelL2 :=
  match side with
  | .Buy => s.bids
  | .Sell => s.asks

/-- Replace `sides_[side]` of the L2 book. -/
def OrderBookL2.setSide (s : OrderBookL2) (side : Side) (ls : List PriceLevelL2) :
    OrderBookL2 :=
  match side with
  | .Buy => { s with bids := ls }
  | .Sell => { s with asks := ls }

/-- The non-stale half of the sequence gate:
`if (seq_num > 0) last_seq_num_ = seq_num`. -/
def OrderBookL2.seqGate (s : OrderBookL2) (seq_num : Nat) : OrderBookL2 :=
  if seq_num > 0 then { s with last_seq_num := seq_num } else s

/-- `OrderBookL2::notifyTopOfBookIfChanged`: recompute the candidate
top-of-book from the best (front) entry of each side, and when any of the
four value fields differs from the cached copy, publish under the seqlock
(bump `tob_seq_` by 2), refresh the cached best-level copies and emit a
`TopOfBookUpdate`. -/
def OrderBookL2.notifyTopOfBookIfChanged (s : OrderBookL2) (ts : Nat) :
    OrderBookL2 × List Event :=
  let bid := s.bids.head?
  let ask := s.asks.head?
  let new_best_bid : Int := match bid with | some l => l.price | none => 0
  let new_bid_qty : Int := match bid with | some l => l.quantity | none => 0
  let new_best_ask : Int := match ask with | some l => l.price | none => 0
  let new_ask_qty : Int := match ask with | some l => l.quantity | none => 0
  let bid_changed :=
    s.cached_tob.best_bid ≠ new_best_bid ∨ s.cached_tob.bid_quantity ≠ new_bid_qty
  let ask_changed :=
    s.cached_tob.best_ask ≠ new_best_ask ∨ s.cached_tob.ask_quantity ≠ new_ask_qty
  if bid_changed ∨ ask_changed then
    let tob : TopOfBook :=
      { symbol := s.symbol
        best_bid := new_best_bid
        bid_quantity := new_bid_qty
        best_ask := new_best_ask
        ask_quantity := new_ask_qty
        timestamp := ts }
    ({ s with
        cached_tob := tob
        cached_best_bid := match bid with | some l => l | none => ⟨0, 0, 0⟩
        cached_best_ask := match ask with | some l => l | none => ⟨0, 0, 0⟩
        tob_seq := s.tob_seq + 2 },
     [Event.tob tob])
  else (s, [])

/-- `OrderBookL2::updateLevel(side, price, quantity, timestamp, seq_num,
is_last_in_batch)`.  Returns the post state and the emitted events in
order. -/
def OrderBookL2.updateLevel (s : OrderBookL2) (side : Side) (price quantity : Int)
    (timestamp : Nat) (seq_num : Nat) (is_last_in_batch : Bool) :
    OrderBookL2 × List Event :=
  if seqStale s.last_seq_num seq_num then (s, [])
  else
    let s := s.seqGate seq_num
    if quantity = 0 then
      match findLevelIdx side price (s.sideLevels side) with
      | none => (s, [])
      | some i =>
        let level_idx := i % 65536
        let csi := min s.change_starting_index level_idx
        let s := (s.setSide side ((s.sideLevels side).eraseIdx i))
        let s := { s with change_starting_index := csi }
        let change_flags :=
          PriceChanged ||| QuantityChanged |||
            (if is_last_in_batch then LastInBatch else 0)
        let ev := Event.priceLevel
          ⟨s.symbol, side, price, 0, timestamp, level_idx, change_flags, seq_num⟩
        if csi = 0 ∧ is_last_in_batch then
          let r := s.notifyTopOfBookIfChanged timestamp
          ({ r.1 with change_starting_index := INVALID_INDEX }, ev :: r.2)
        else (s, [ev])
    else
      let r := insertOrUpdate side price quantity timestamp (s.sideLevels side)
      let level_idx := r.2.1 % 65536
      let csi := min s.change_starting_index level_idx
      let s := s.setSide side r.1
      let s := { s with change_starting_index := csi }
      let change_flags :=
        (if r.2.2 then PriceChanged ||| QuantityChanged else QuantityChanged) |||
          (if is_last_in_batch then LastInBatch else 0)
      let ev := Event.priceLevel
        ⟨s.symbol, side, price, quantity, timestamp, level_idx, change_flags, seq_num⟩
      if csi = 0 ∧ is_last_in_batch then
        let r2 := s.notifyTopOfBookIfChanged timestamp
        ({ r2.1 with change_starting_index := INVALID_INDEX }, ev :: r2.2)
      else (s, [ev])

/-- `OrderBookL2::deleteLevel(side, price)`: erase from the container only;
no notifications, no cache refresh.  Returns whether a level was removed. -/
def OrderBookL2.deleteLevel (s : OrderBookL2) (side : Side) (price : Int) :
    OrderBookL2 × Bool :=
  let r := eraseLevel side price (s.sideLevels side)
  (s.setSide side r.1, r.2)

/-- `OrderBookL2::clearSide(side)`: clear one container; nothing else. -/
def OrderBookL2.clearSide (s : OrderBookL2) (side : Side) : OrderBookL2 :=
  s.setSide side []

/-- `OrderBookL2::clear()`: clear both containers; nothing else. -/
def OrderBookL2.clear (s : OrderBookL2) : OrderBookL2 :=
  { s with bids := [], asks := [] }

/-- `OrderBookL2::getTopOfBook()`: seqlock-consistent read of the cached
top-of-book (in the single-writer model, the cached value itself). -/
def OrderBookL2.getTopOfBook (s : OrderBookL2) : TopOfBook := s.cached_tob

/-- `OrderBookL2::getBestBid()`: `nullptr` when the cached `best_bid`
price is `0`, otherwise the cached best-bid level copy. -/
def OrderBookL2.getBestBid (s : OrderBookL2) : Option PriceLevelL2 :=
  if s.cached_tob.best_bid = 0 then none else some s.cached_best_bid

/-- `OrderBookL2::getBestAsk()`: `nullptr` when the cached `best_ask`
price is `0`, otherwise the cached best-ask level copy. -/
def OrderBookL2.getBestAsk (s : OrderBookL2) : Option PriceLevelL2 :=
  if s.cached_tob.best_ask = 0 then none else some s.cached_best_ask

/-- `OrderBookL2::getLevels(side, depth)` with `depth = 0` (all levels):
the container contents, best first. -/
def OrderBookL2.getLevels (s : OrderBookL2) (side : Side) : List PriceLevelL2 :=
  s.sideLevels side

/-- The top-of-book recomputed fresh from the level containers (the
candidate values `notifyTopOfBookIfChanged` derives from `best()` of each
side): four value fields only. -/
def OrderBookL2.freshTobFields (s : OrderBookL2) : Int × Int × Int × Int :=
  ((match s.bids.head? with | some l => l.price | none => 0),
   (match s.bids.head? with | some l => l.quantity | none => 0),
   (match s.asks.head? with | some l => l.price | none => 0),
   (match s.asks.head? with | some l => l.quantity | none => 0))

/-! ## L3 data model (`order.hpp`, `price_level.hpp`)

The source keeps each `Order` record once, inside the intrusive queue of
its price level, and `order_map_` holds pointers into those queues.  The
embedding keeps the record in the level queue (a plain list) and models
`order_map_` as the list of mapped order ids; a map lookup is a guarded
scan of the level queues, which returns the same record the pointer in
the map designates.  The pool is a memory-management device (allocation
in the modelled paths always succeeds) and has no functional state here. -/

/-- `Order` record from `order.hpp` (the intrusive `prev`/`next` pointers
become the surrounding list structure). -/
structure Order where
  order_id : Nat
  price : Int
  quantity : Int
  side : Side
  timestamp : Nat
  priority : Nat
deriving DecidableEq, Repr

/-- The walk inside `PriceLevelL3::insertOrder`: advance past every
resident with `priority <= order.priority`, splice before the first
strictly greater one (tail append when none). -/
def insertByPriority (o : Order) : List Order → List Order
  | [] => [o]
  | x :: xs =>
    if x.priority ≤ o.priority then x :: insertByPriority o xs
    else o :: x :: xs

/-- Unlink the record with the given id from an order queue
(`IntrusiveList::erase` on the node the caller holds; ids are unique in
any book the engine builds, so the first match is that node). -/
def removeOrderById (id : Nat) : List Order → List Order
  | [] => []
  | x :: xs => if x.order_id = id then xs else x :: removeOrderById id xs

/-- `PriceLevelL3 {price, orders, total_quantity}` from `price_level.hpp`. -/
structure PriceLevelL3 where
  price : Int
  orders : List Order
  total_quantity : Int
deriving DecidableEq, Repr

/-- `PriceLevelL3::insertOrder`: splice by priority and add the order's
quantity to the cached total. -/
def PriceLevelL3.insertOrder (lvl : PriceLevelL3) (o : Order) : PriceLevelL3 :=
  { lvl with
      orders := insertByPriority o lvl.orders
      total_quantity := lvl.total_quantity + o.quantity }

/-- `PriceLevelL3::removeOrder`: subtract the order's quantity from the
cached total and unlink it from the queue. -/
def PriceLevelL3.removeOrder (lvl : PriceLevelL3) (o : Order) : PriceLevelL3 :=
  { lvl with
      orders := removeOrderById o.order_id lvl.orders
      total_quantity := lvl.total_quantity - o.quantity }

/-- `PriceLevelL3::updateOrderQuantity(old, new)` adjusts the cached total
in place; the caller (`OrderBookL3::modifyOrder`) writes the new quantity
through the order pointer, which for the books the engine builds is the
record with this id in this very queue. -/
def PriceLevelL3.updateOrderQuantity (lvl : PriceLevelL3) (id : Nat)
    (old_q new_q : Int) : PriceLevelL3 :=
  { lvl with
      total_quantity := lvl.total_quantity - old_q + new_q
      orders := lvl.orders.map fun o =>
        if o.order_id = id then { o with quantity := new_q } else o }

/-- All order records of a side, best level first, queue order within a
level. -/
def ordersOf (ls : List PriceLevelL3) : List Order :=
  (ls.map PriceLevelL3.orders).flatten

/-- `FlatMap::find(price)` as the index (`distance(begin, it)`) of the
level with the given key; key equality scan, which on the sorted
duplicate-free maps the engine maintains coincides with the map lookup. -/
def findLevelIdx3 (price : Int) : List PriceLevelL3 → Option Nat
  | [] => none
  | l :: ls =>
    if l.price = price then some 0
    else (findLevelIdx3 price ls).map (· + 1)

/-- `FlatMap::emplace(price, PriceLevelL3{price})` at the side-sorted
position; returns the new map and `distance(begin, new_it)`. -/
def insertLevelSorted (side : Side) (lvl : PriceLevelL3) :
    List PriceLevelL3 → List PriceLevelL3 × Nat
  | [] => ([lvl], 0)
  | x :: xs =>
    if sideBefore side x.price lvl.price then
      let r := insertLevelSorted side lvl xs
      (x :: r.1, r.2 + 1)
    else (lvl :: x :: xs, 0)

/-- `OrderBookL3::getOrCreateLevel`: find the level, or emplace an empty
one at its sorted position; returns map, level index and `is_new`. -/
def getOrCreateLevel (side : Side) (price : Int) (ls : List PriceLevelL3) :
    List PriceLevelL3 × Nat × Bool :=
  match findLevelIdx3 price ls with
  | some i => (ls, i, false)
  | none =>
    let r := insertLevelSorted side ⟨price, [], 0⟩ ls
    (r.1, r.2, true)

/-- Apply a mutation through the level pointer obtained at the given
index (in C++ the mutation goes through `PriceLevelL3*`); returns the
updated map and the mutated level's `getTotalQuantity()`. -/
def modifyLevelAt (f : PriceLevelL3 → PriceLevelL3) :
    Nat → List PriceLevelL3 → List PriceLevelL3 × Int
  | _, [] => ([], 0)
  | 0, l :: ls =>
    let l2 := f l
    (l2 :: ls, l2.total_quantity)
  | n + 1, l :: ls =>
    let r := modifyLevelAt f n ls
    (l :: r.1, r.2)

/-- `OrderBookL3::removeLevelIfEmpty`: erase the level with this price
when its queue is empty; returns whether a level was erased. -/
def removeLevelIfEmptyList (price : Int) :
    List PriceLevelL3 → List PriceLevelL3 × Bool
  | [] => ([], false)
  | l :: ls =>
    if l.price = price then
      if l.orders.isEmpty then (ls, true) else (l :: ls, false)
    else
      let r := removeLevelIfEmptyList price ls
      (l :: r.1, r.2)

/-! ## L3 book (`orderbook_l3_impl.hpp`) -/

/-- `OrderBookL3` writer-visible state.  `order_ids` is the key set of
`order_map_`; the records themselves live in the level queues. -/
structure OrderBookL3 where
  symbol : Nat
  bids : List PriceLevelL3
  asks : List PriceLevelL3
  order_ids : List Nat
  cached_tob : TopOfBook
  last_seq_num : Nat
deriving DecidableEq, Repr

/-- `OrderBookL3` constructor. -/
def OrderBookL3.init (symbol : Nat) : OrderBookL3 :=
  { symbol := symbol
    bids := []
    asks := []
    order_ids := []
    cached_tob := { TopOfBook.default0 with symbol := symbol }
    last_seq_num := 0 }

/-- `levels_[side]` of the L3 book. -/
def OrderBookL3.sideLevels (s : OrderBookL3) (side : Side) : List PriceLevelL3 :=
  match side with
  | .Buy => s.bids
  | .Sell => s.asks

/-- Replace `levels_[side]` of the L3 book. -/
def OrderBookL3.setSide (s : OrderBookL3) (side : Side) (ls : List PriceLevelL3) :
    OrderBookL3 :=
  match side with
  | .Buy => { s with bids := ls }
  | .Sell => { s with asks := ls }

/-- The non-stale half of the sequence gate:
`if (seq_num > 0) last_seq_num_ = seq_num`. -/
def OrderBookL3.seqGate (s : OrderBookL3) (seq_num : Nat) : OrderBookL3 :=
  if seq_num > 0 then { s with last_seq_num := seq_num } else s

/-- All order records of the book, bids first. -/
def OrderBookL3.allOrders (s : OrderBookL3) : List Order :=
  ordersOf s.bids ++ ordersOf s.asks

/-- `order_map_.find(order_id)`: the record the mapped pointer designates
(guarded scan of the level queues; see the L3 data model note). -/
def OrderBookL3.findOrder (s : OrderBookL3) (order_id : Nat) : Option Order :=
  if s.order_ids.contains order_id then
    s.allOrders.find? (fun o => o.order_id == order_id)
  else none

/-- The `order->timestamp = timestamp` write in
`OrderBookL3::addOrModifyOrder` (through the mapped pointer). -/
def OrderBookL3.setOrderTimestamp (s : OrderBookL3) (order_id : Nat) (ts : Nat) :
    OrderBookL3 :=
  let upd : List PriceLevelL3 → List PriceLevelL3 := fun ls =>
    ls.map fun lvl =>
      { lvl with orders := lvl.orders.map fun o =>
          if o.order_id = order_id then { o with timestamp := ts } else o }
  { s with bids := upd s.bids, asks := upd s.asks }

/-- `OrderBookL3::getBestBid()`: first map entry of the bid side. -/
def OrderBookL3.getBestBid (s : OrderBookL3) : Option PriceLevelL3 :=
  s.bids.head?

/-- `OrderBookL3::getBestAsk()`: first map entry of the ask side. -/
def OrderBookL3.getBestAsk (s : OrderBookL3) : Option PriceLevelL3 :=
  s.asks.head?

/-- `OrderBookL3::notifyTopOfBookIfChanged(ts, update_flags)`: no-op
unless `update_flags` carries `LastInBatch`; otherwise compare the
candidate computed from the best level of each side with the cached
top-of-book and, when any of the four value fields differs, update the
cache and emit a `TopOfBookUpdate`. -/
def OrderBookL3.notifyTopOfBookIfChanged (s : OrderBookL3) (ts : Nat)
    (update_flags : Nat) : OrderBookL3 × List Event :=
  if update_flags &&& LastInBatch = 0 then (s, [])
  else
    let nbb : Int := match s.bids.head? with | some l => l.price | none => 0
    let nbq : Int := match s.bids.head? with | some l => l.total_quantity | none => 0
    let nba : Int := match s.asks.head? with | some l => l.price | none => 0
    let naq : Int := match s.asks.head? with | some l => l.total_quantity | none => 0
    let bid_changed := s.cached_tob.best_bid ≠ nbb ∨ s.cached_tob.bid_quantity ≠ nbq
    let ask_changed := s.cached_tob.best_ask ≠ nba ∨ s.cached_tob.ask_quantity ≠ naq
    if bid_changed ∨ ask_changed then
      let tob := { s.cached_tob with
        best_bid := nbb, bid_quantity := nbq
        best_ask := nba, ask_quantity := naq
        timestamp := ts }
      ({ s with cached_tob := tob }, [Event.tob tob])
    else (s, [])

/-- The top-of-book value fields recomputed fresh from the level maps
(the candidate of `OrderBookL3::notifyTopOfBookIfChanged`). -/
def OrderBookL3.freshTobFields (s : OrderBookL3) : Int × Int × Int × Int :=
  ((match s.bids.head? with | some l => l.price | none => 0),
   (match s.bids.head? with | some l => l.total_quantity | none => 0),
   (match s.asks.head? with | some l => l.price | none => 0),
   (match s.asks.head? with | some l => l.total_quantity | none => 0))

/-- `OrderBookL3::getTopOfBook()`: computed fresh; best prices and level
totals, timestamp from the head order of the best bid, maxed with the
head order of the best ask. -/
def OrderBookL3.getTopOfBook (s : OrderBookL3) : TopOfBook :=
  let tob0 := { TopOfBook.default0 with symbol := s.symbol }
  let tob1 :=
    match s.bids.head? with
    | some bid =>
      { tob0 with
          best_bid := bid.price
          bid_quantity := bid.total_quantity
          timestamp := match bid.orders.head? with
            | some o => o.timestamp
            | none => tob0.timestamp }
    | none => tob0
  match s.asks.head? with
  | some ask =>
    let t1 := { tob1 with best_ask := ask.price, ask_quantity := ask.total_quantity }
    match ask.orders.head? with
    | some o => if o.timestamp > t1.timestamp then { t1 with timestamp := o.timestamp } else t1
    | none => t1
  | none => tob1

/-- Result of one L3 mutating call: returned boolean, emitted events in
order, post state. -/
structure L3Result where
  ok : Bool
  events : List Event
  book : OrderBookL3
deriving DecidableEq, Repr

/-- `OrderBookL3::deleteOrder(order_id, seq_num, is_last_in_batch)`. -/
def OrderBookL3.deleteOrder (s : OrderBookL3) (order_id : Nat) (seq_num : Nat)
    (is_last_in_batch : Bool) : L3Result :=
  if seqStale s.last_seq_num seq_num then ⟨false, [], s⟩
  else
    let s := s.seqGate seq_num
    match s.findOrder order_id with
    | none => ⟨false, [], s⟩
    | some order =>
      let timestamp := order.timestamp
      let price := order.price
      let side := order.side
      match findLevelIdx3 price (s.sideLevels side) with
      | none =>
        -- Data-structure inconsistency path: emit the deletion with an
        -- invalid level index, clean up the map, return false.  (Dead for
        -- every book the engine itself builds.)
        let order_flags := PriceChanged ||| QuantityChanged |||
          (if is_last_in_batch then LastInBatch else 0)
        let ev := Event.order ⟨s.symbol, order.order_id, order.side, order.price,
          0, timestamp, INVALID_INDEX, order.priority, order_flags, seq_num⟩
        ⟨false, [ev], { s with order_ids := s.order_ids.erase order_id }⟩
      | some idx =>
        let r := modifyLevelAt (fun lvl => lvl.removeOrder order) idx (s.sideLevels side)
        let level_total := r.2
        let s := s.setSide side r.1
        let s := { s with order_ids := s.order_ids.erase order_id }
        let rl := removeLevelIfEmptyList price (s.sideLevels side)
        let s := s.setSide side rl.1
        let order_flags := PriceChanged ||| QuantityChanged |||
          (if is_last_in_batch then LastInBatch else 0)
        let level_flags := QuantityChanged ||| (if rl.2 then PriceChanged else 0) |||
          (if is_last_in_batch then LastInBatch else 0)
        let ev1 := Event.order ⟨s.symbol, order.order_id, order.side, order.price,
          0, timestamp, idx % 65536, order.priority, order_flags, seq_num⟩
        let ev2 := Event.priceLevel ⟨s.symbol, side, price, level_total, timestamp,
          idx % 65536, level_flags, seq_num⟩
        let rt := s.notifyTopOfBookIfChanged timestamp order_flags
        ⟨true, ev1 :: ev2 :: rt.2, rt.1⟩

/-- `OrderBookL3::modifyOrder(order_id, new_price, new_quantity, seq_num,
is_last_in_batch)`. -/
def OrderBookL3.modifyOrder (s : OrderBookL3) (order_id : Nat)
    (new_price new_quantity : Int) (seq_num : Nat) (is_last_in_batch : Bool) :
    L3Result :=
  if seqStale s.last_seq_num seq_num then ⟨false, [], s⟩
  else
    let s := s.seqGate seq_num
    match s.findOrder order_id with
    | none => ⟨false, [], s⟩
    | some order =>
      if new_quantity < 0 then ⟨false, [], s⟩
      else if new_quantity = 0 then s.deleteOrder order_id seq_num is_last_in_batch
      else
        let timestamp := order.timestamp
        let old_price := order.price
        let old_quantity := order.quantity
        let side := order.side
        if new_price = old_price ∧ new_quantity = old_quantity then ⟨true, [], s⟩
        else if new_price ≠ old_price then
          -- Price changed: remove from the old level (when it exists),
          -- update the order, insert into the new-or-existing level.
          let step1 : OrderBookL3 × List Event :=
            match findLevelIdx3 old_price (s.sideLevels side) with
            | some old_idx =>
              let r := modifyLevelAt (fun lvl => lvl.removeOrder order) old_idx
                (s.sideLevels side)
              let old_level_total := r.2
              let s1 := s.setSide side r.1
              let rl := removeLevelIfEmptyList old_price (s1.sideLevels side)
              let s1 := s1.setSide side rl.1
              let old_level_flags := QuantityChanged |||
                (if rl.2 then PriceChanged else 0)
              (s1, [Event.priceLevel ⟨s.symbol, side, old_price, old_level_total,
                timestamp, old_idx % 65536, old_level_flags, seq_num⟩])
            | none => (s, [])
          let s1 := step1.1
          let order2 : Order := { order with price := new_price, quantity := new_quantity }
          let gc := getOrCreateLevel side new_price (s1.sideLevels side)
          let r2 := modifyLevelAt (fun lvl => lvl.insertOrder order2) gc.2.1 gc.1
          let s2 := s1.setSide side r2.1
          let order_flags := PriceChanged |||
            (if new_quantity ≠ old_quantity then QuantityChanged else 0) |||
            (if is_last_in_batch then LastInBatch else 0)
          let new_level_flags := QuantityChanged |||
            (if gc.2.2 then PriceChanged else 0) |||
            (if is_last_in_batch then LastInBatch else 0)
          let ev_ou := Event.order ⟨s.symbol, order2.order_id, order2.side,
            order2.price, order2.quantity, timestamp, gc.2.1 % 65536,
            order2.priority, order_flags, seq_num⟩
          let ev_plu := Event.priceLevel ⟨s.symbol, side, new_price, r2.2,
            timestamp, gc.2.1 % 65536, new_level_flags, seq_num⟩
          let rt := s2.notifyTopOfBookIfChanged timestamp order_flags
          ⟨true, step1.2 ++ ev_ou :: ev_plu :: rt.2, rt.1⟩
        else
          -- Only the quantity changed.
          let gc := getOrCreateLevel side old_price (s.sideLevels side)
          let r := modifyLevelAt
            (fun lvl => lvl.updateOrderQuantity order_id old_quantity new_quantity)
            gc.2.1 gc.1
          let s1 := s.setSide side r.1
          let order_flags := QuantityChanged |||
            (if is_last_in_batch then LastInBatch else 0)
          let level_flags := QuantityChanged |||
            (if gc.2.2 then PriceChanged else 0) |||
            (if is_last_in_batch then LastInBatch else 0)
          let ev_ou := Event.order ⟨s.symbol, order.order_id, order.side,
            order.price, new_quantity, timestamp, gc.2.1 % 65536,
            order.priority, order_flags, seq_num⟩
          let ev_plu := Event.priceLevel ⟨s.symbol, side, old_price, r.2,
            timestamp, gc.2.1 % 65536, level_flags, seq_num⟩
          let rt := s1.notifyTopOfBookIfChanged timestamp order_flags
          ⟨true, ev_ou :: ev_plu :: rt.2, rt.1⟩

/-- `OrderBookL3::addOrModifyOrder(order_id, side, price, quantity,
timestamp, priority, seq_num, is_last_in_batch)`. -/
def OrderBookL3.addOrModifyOrder (s : OrderBookL3) (order_id : Nat) (side : Side)
    (price quantity : Int) (timestamp : Nat) (priority : Nat) (seq_num : Nat)
    (is_last_in_batch : Bool) : L3Result :=
  if seqStale s.last_seq_num seq_num then ⟨false, [], s⟩
  else
    let s := s.seqGate seq_num
    match s.findOrder order_id with
    | some order =>
      if order.side ≠ side then ⟨false, [], s⟩
      else if quantity ≤ 0 then
        if quantity = 0 then s.deleteOrder order_id seq_num is_last_in_batch
        else ⟨false, [], s⟩
      else if order.price = price ∧ order.quantity = quantity then ⟨true, [], s⟩
      else
        let s := s.setOrderTimestamp order_id timestamp
        s.modifyOrder order_id price quantity seq_num is_last_in_batch
    | none =>
      if quantity ≤ 0 then ⟨false, [], s⟩
      else
        let order : Order := ⟨order_id, price, quantity, side, timestamp, priority⟩
        let gc := getOrCreateLevel side price (s.sideLevels side)
        let r := modifyLevelAt (fun lvl => lvl.insertOrder order) gc.2.1 gc.1
        let s := s.setSide side r.1
        let s := { s with order_ids := order_id :: s.order_ids }
        let order_flags := PriceChanged ||| QuantityChanged |||
          (if is_last_in_batch then LastInBatch else 0)
        let level_flags := QuantityChanged |||
          (if gc.2.2 then PriceChanged else 0) |||
          (if is_last_in_batch then LastInBatch else 0)
        let ev_ou := Event.order ⟨s.symbol, order_id, side, price, quantity,
          timestamp, gc.2.1 % 65536, priority, order_flags, seq_num⟩
        let ev_plu := Event.priceLevel ⟨s.symbol, side, price, r.2, timestamp,
          gc.2.1 % 65536, level_flags, seq_num⟩
        let rt := s.notifyTopOfBookIfChanged timestamp order_flags
        ⟨true, ev_ou :: ev_plu :: rt.2, rt.1⟩

/-- `OrderBookL3::addOrder`: strict add; substitutes the timestamp for a
zero priority and delegates to `addOrModifyOrder`. -/
def OrderBookL3.addOrder (s : OrderBookL3) (order_id : Nat) (side : Side)
    (price quantity : Int) (timestamp : Nat) (priority : Nat) (seq_num : Nat)
    (is_last_in_batch : Bool) : L3Result :=
  if seqStale s.last_seq_num seq_num then ⟨false, [], s⟩
  else
    let s := s.seqGate seq_num
    if s.order_ids.contains order_id then ⟨false, [], s⟩
    else
      let actual_priority := if priority = 0 then timestamp else priority
      s.addOrModifyOrder order_id side price quantity timestamp actual_priority
        seq_num is_last_in_batch

/-- `OrderBookL3::executeOrder(order_id, executed_quantity, seq_num,
is_last_in_batch)`. -/
def OrderBookL3.executeOrder (s : OrderBookL3) (order_id : Nat)
    (executed_quantity : Int) (seq_num : Nat) (is_last_in_batch : Bool) :
    L3Result :=
  if seqStale s.last_seq_num seq_num then ⟨false, [], s⟩
  else
    let s := s.seqGate seq_num
    match s.findOrder order_id with
    | none => ⟨false, [], s⟩
    | some order =>
      if executed_quantity ≤ 0 ∨ executed_quantity > order.quantity then
        ⟨false, [], s⟩
      else
        let remaining := order.quantity - executed_quantity
        if remaining = 0 then s.deleteOrder order_id seq_num is_last_in_batch
        else s.modifyOrder order_id order.price remaining seq_num is_last_in_batch

/-- `OrderBookL3::clearSide(side)`: destroy every order on the side,
erase their map entries, clear the side's level map; no events. -/
def OrderBookL3.clearSide (s : OrderBookL3) (side : Side) : OrderBookL3 :=
  let ids := (ordersOf (s.sideLevels side)).map Order.order_id
  let s := { s with order_ids := s.order_ids.filter (fun id => !(ids.contains id)) }
  s.setSide side []

/-- `OrderBookL3::clear()`: `clearSide(Buy); clearSide(Sell)`. -/
def OrderBookL3.clear (s : OrderBookL3) : OrderBookL3 :=
  (s.clearSide .Buy).clearSide .Sell

/-! ## Call sequences, batches and reachability -/

/-- Arguments of one `updateLevel` call (the batch flag is assigned by the
runner). -/
structure L2Call where
  side : Side
  price : Int
  quantity : Int
  timestamp : Nat
  seq_num : Nat
deriving DecidableEq, Repr

/-- Run one `updateLevel` call with an explicit batch flag. -/
def OrderBookL2.applyCall (s : OrderBookL2) (c : L2Call) (is_last : Bool) :
    OrderBookL2 × List Event :=
  s.updateLevel c.side c.price c.quantity c.timestamp c.seq_num is_last

/-- A batch in the sense of the spec: every call carries
`is_last_in_batch = false` except the final one.  Returns the final state
and the concatenation of all emitted events. -/
def runL2Batch (s : OrderBookL2) : List L2Call → OrderBookL2 × List Event
  | [] => (s, [])
  | [c] => s.applyCall c true
  | c :: c2 :: cs =>
    let r := s.applyCall c false
    let r2 := runL2Batch r.1 (c2 :: cs)
    (r2.1, r.2 ++ r2.2)

/-- A sequence of standalone mutations (`is_last_in_batch = true` on every
call, the default). -/
def runL2Seq (s : OrderBookL2) : List L2Call → OrderBookL2
  | [] => s
  | c :: cs => runL2Seq (s.applyCall c true).1 cs

/-- The sequence numbers of the calls that pass the stale-sequence gate
along a run (L2). -/
def l2AcceptedSeqs (s : OrderBookL2) : List L2Call → List Nat
  | [] => []
  | c :: cs =>
    (if seqStale s.last_seq_num c.seq_num then [] else [c.seq_num]) ++
      l2AcceptedSeqs (s.applyCall c true).1 cs

/-- The level index (after the `uint16_t` cast) an `updateLevel` call
records into `change_starting_index_`, `none` when the call takes no emit
path (stale, or a delete of an absent price).  The containers and the
sequence gate evolve identically for either batch flag, so the indices are
threaded with the intermediate flag. -/
def l2TouchedIdx (s : OrderBookL2) (c : L2Call) : Option Nat :=
  if seqStale s.last_seq_num c.seq_num then none
  else if c.quantity = 0 then
    (findLevelIdx c.side c.price (s.sideLevels c.side)).map (· % 65536)
  else
    some ((insertOrUpdate c.side c.price c.quantity c.timestamp
      (s.sideLevels c.side)).2.1 % 65536)

/-- The recorded level indices of all calls of a run, in order. -/
def l2TouchedIdxs (s : OrderBookL2) : List L2Call → List Nat
  | [] => []
  | c :: cs =>
    (l2TouchedIdx s c).toList ++ l2TouchedIdxs (s.applyCall c false).1 cs

/-- Every call of the run passes the sequence gate and takes an emit path
(nonzero quantity, or a delete of a present price). -/
def l2AllEmitting (s : OrderBookL2) : List L2Call → Bool
  | [] => true
  | c :: cs =>
    !(decide (seqStale s.last_seq_num c.seq_num)) &&
    (c.quantity != 0 || (findLevelIdx c.side c.price (s.sideLevels c.side)).isSome) &&
    l2AllEmitting (s.applyCall c false).1 cs

/-- L2 books reachable by standalone `updateLevel` calls
(`is_last_in_batch = true`, any side/price/quantity/seq_num). -/
inductive ReachableL2Full : OrderBookL2 → Prop where
  | init (symbol : Nat) : ReachableL2Full (OrderBookL2.init symbol)
  | update (s : OrderBookL2) (side : Side) (price quantity : Int) (ts seq : Nat) :
      ReachableL2Full s →
      ReachableL2Full (s.updateLevel side price quantity ts seq true).1

/-- L2 books reachable by any `updateLevel` (any batch flag, any
quantity, negative included) and `deleteLevel` calls. -/
inductive ReachableL2D : OrderBookL2 → Prop where
  | init (symbol : Nat) : ReachableL2D (OrderBookL2.init symbol)
  | update (s : OrderBookL2) (side : Side) (price quantity : Int) (ts seq : Nat)
      (b : Bool) :
      ReachableL2D s →
      ReachableL2D (s.updateLevel side price quantity ts seq b).1
  | delete (s : OrderBookL2) (side : Side) (price : Int) :
      ReachableL2D s →
      ReachableL2D (s.deleteLevel side price).1

/-- As `ReachableL2D`, but every `updateLevel` call supplies a
nonnegative quantity. -/
inductive ReachableL2DPos : OrderBookL2 → Prop where
  | init (symbol : Nat) : ReachableL2DPos (OrderBookL2.init symbol)
  | update (s : OrderBookL2) (side : Side) (price quantity : Int) (ts seq : Nat)
      (b : Bool) :
      0 ≤ quantity →
      ReachableL2DPos s →
      ReachableL2DPos (s.updateLevel side price quantity ts seq b).1
  | delete (s : OrderBookL2) (side : Side) (price : Int) :
      ReachableL2DPos s →
      ReachableL2DPos (s.deleteLevel side price).1

/-- Arguments of one L3 mutating call (the batch flag is assigned by the
runner). -/
inductive L3Call where
  | addOrModify (order_id : Nat) (side : Side) (price quantity : Int)
      (ts prio seq : Nat) : L3Call
  | add (order_id : Nat) (side : Side) (price quantity : Int)
      (ts prio seq : Nat) : L3Call
  | modify (order_id : Nat) (new_price new_quantity : Int) (seq : Nat) : L3Call
  | delete (order_id : Nat) (seq : Nat) : L3Call
  | execute (order_id : Nat) (executed_quantity : Int) (seq : Nat) : L3Call
deriving DecidableEq, Repr

/-- The sequence number an L3 call supplies. -/
def L3Call.seq : L3Call → Nat
  | .addOrModify _ _ _ _ _ _ seq => seq
  | .add _ _ _ _ _ _ seq => seq
  | .modify _ _ _ seq => seq
  | .delete _ seq => seq
  | .execute _ _ seq => seq

/-- Run one L3 mutating call with an explicit batch flag. -/
def OrderBookL3.applyCall (s : OrderBookL3) (c : L3Call) (is_last : Bool) :
    L3Result :=
  match c with
  | .addOrModify order_id side price quantity ts prio seq =>
    s.addOrModifyOrder order_id side price quantity ts prio seq is_last
  | .add order_id side price quantity ts prio seq =>
    s.addOrder order_id side price quantity ts prio seq is_last
  | .modify order_id new_price new_quantity seq =>
    s.modifyOrder order_id new_price new_quantity seq is_last
  | .delete order_id seq => s.deleteOrder order_id seq is_last
  | .execute order_id executed_quantity seq =>
    s.executeOrder order_id executed_quantity seq is_last

/-- An L3 batch: every call carries `is_last_in_batch = false` except the
final one. -/
def runL3Batch (s : OrderBookL3) : List L3Call → OrderBookL3 × List Event
  | [] => (s, [])
  | [c] =>
    let r := s.applyCall c true
    (r.book, r.events)
  | c :: c2 :: cs =>
    let r := s.applyCall c false
    let r2 := runL3Batch r.book (c2 :: cs)
    (r2.1, r.events ++ r2.2)

/-- A sequence of standalone L3 mutations (`is_last_in_batch = true`). -/
def runL3Seq (s : OrderBookL3) : List L3Call → OrderBookL3
  | [] => s
  | c :: cs => runL3Seq (s.applyCall c true).book cs

/-- The book after running a batch prefix, every call carrying
`is_last_in_batch = false` (the state the closing call of a batch sees). -/
def runL3Pre (s : OrderBookL3) : List L3Call → OrderBookL3
  | [] => s
  | c :: cs => runL3Pre (s.applyCall c false).book cs

/-- The sequence numbers of the calls that pass the stale-sequence gate
along a run (L3). -/
def l3AcceptedSeqs (s : OrderBookL3) : List L3Call → List Nat
  | [] => []
  | c :: cs =>
    (if seqStale s.last_seq_num c.seq then [] else [c.seq]) ++
      l3AcceptedSeqs (s.applyCall c true).book cs

/-- L3 books reachable from a fresh book by the five mutating operations
(any arguments, any batch flag). -/
inductive ReachableL3 : OrderBookL3 → Prop where
  | init (symbol : Nat) : ReachableL3 (OrderBookL3.init symbol)
  | step (s : OrderBookL3) (c : L3Call) (b : Bool) :
      ReachableL3 s →
      ReachableL3 (s.applyCall c b).book

/-! ## Well-formedness of L3 books

Structural invariants every book built by the engine satisfies; they are
stated decidably so concrete instances evaluate. -/

/-- Invariants of one populated price level (spec §3 `PriceLevelL3`),
together with the field consistency the pointer structure guarantees. -/
def levelWF (side : Side) (lvl : PriceLevelL3) : Prop :=
  lvl.orders ≠ [] ∧
  lvl.total_quantity = (lvl.orders.map Order.quantity).sum ∧
  lvl.orders.Pairwise (fun a b => a.priority ≤ b.priority) ∧
  ∀ o ∈ lvl.orders, o.side = side ∧ o.price = lvl.price

/-- Invariants of one side of an L3 book: well-formed levels at strictly
side-ordered distinct prices. -/
def sideWF (side : Side) (ls : List PriceLevelL3) : Prop :=
  (∀ lvl ∈ ls, levelWF side lvl) ∧
  ls.Pairwise (fun a b => sideBefore side a.price b.price = true)

/-- Well-formedness of an L3 book: both sides well formed, order ids
globally unique, and the order map key set agreeing with the records
resident in the level queues. -/
def OrderBookL3.WF (s : OrderBookL3) : Prop :=
  sideWF .Buy s.bids ∧ sideWF .Sell s.asks ∧
  (s.allOrders.map Order.order_id).Nodup ∧
  s.order_ids.Nodup ∧
  (∀ id ∈ s.order_ids, ∃ o ∈ s.allOrders, o.order_id = id) ∧
  (∀ o ∈ s.allOrders, o.order_id ∈ s.order_ids)

/-! ## Derived predicates used by the verification -/

/-- Prices of a side-sorted L2 container are strictly ordered. -/
def sideSorted (side : Side) (ls : List PriceLevelL2) : Prop :=
  ls.Pairwise (fun a b => sideBefore side a.price b.price = true)

/-- Containers of an L2 book are side-sorted with nonzero quantities. -/
def l2ContInv (s : OrderBookL2) : Prop :=
  ∀ sd : Side, sideSorted sd (s.sideLevels sd) ∧ ∀ l ∈ s.sideLevels sd, l.quantity ≠ 0

/-- Positive quantities hold when every update supplies a nonnegative
quantity. -/
def l2ContPos (s : OrderBookL2) : Prop :=
  ∀ sd : Side, ∀ l ∈ s.sideLevels sd, 0 < l.quantity

/-- After any standalone call: the change-tracking index is off zero and
the four cached value fields agree with the fresh candidate. -/
def l2Synced (s : OrderBookL2) : Prop :=
  s.change_starting_index ≠ 0 ∧ s.cached_tob.fields4 = s.freshTobFields

/-- Maximum of a list of sequence numbers (`0` when empty). -/
def natMax (l : List Nat) : Nat := l.foldl max 0

/-- The opposite side of the book. -/
def otherSide : Side → Side
  | .Buy => .Sell
  | .Sell => .Buy


/-! ## Lemmas: side ordering -/

lemma sideBefore_ne {side : Side} {a b : Int} (h : sideBefore side a b = true) :
    a ≠ b := by
  cases side <;> simp only [sideBefore, decide_eq_true_eq] at h <;> omega

lemma sideBefore_asymm {side : Side} {a b : Int} (h : sideBefore side a b = true) :
    sideBefore side b a = false := by
  cases side <;> simp only [sideBefore, decide_eq_true_eq] at h <;>
    simp only [sideBefore, decide_eq_false_iff_not] <;> omega

lemma sideBefore_total {side : Side} {a b : Int} (h : sideBefore side a b = false)
    (hne : a ≠ b) : sideBefore side b a = true := by
  cases side <;> simp only [sideBefore, decide_eq_false_iff_not] at h <;>
    simp only [sideBefore, decide_eq_true_eq] <;> omega

lemma sideBefore_trans {side : Side} {a b c : Int} (h1 : sideBefore side a b = true)
    (h2 : sideBefore side b c = true) : sideBefore side a c = true := by
  cases side <;> simp only [sideBefore, decide_eq_true_eq] at h1 h2 ⊢ <;> omega


/-! ## Lemmas: L2 container operations -/

lemma mem_insertOrUpdate {side : Side} {p q : Int} {t : Nat} :
    ∀ {ls : List PriceLevelL2} {x : PriceLevelL2},
      x ∈ (insertOrUpdate side p q t ls).1 → x = ⟨p, q, t⟩ ∨ x ∈ ls := by
  intro ls
  induction ls with
  | nil => intro x hx; simp [insertOrUpdate] at hx; exact Or.inl hx
  | cons l ls ih =>
    intro x hx
    simp only [insertOrUpdate] at hx
    by_cases h1 : sideBefore side l.price p
    · simp only [h1, if_true] at hx
      rcases List.mem_cons.1 hx with h | h
      · exact Or.inr (by rw [h]; exact List.mem_cons_self l ls)
      · rcases ih h with h2 | h2
        · exact Or.inl h2
        · exact Or.inr (List.mem_cons_of_mem _ h2)
    · simp only [h1, if_false] at hx
      by_cases h2 : l.price = p
      · simp only [h2, if_true] at hx
        rcases List.mem_cons.1 hx with h | h
        · exact Or.inl h
        · exact Or.inr (List.mem_cons_of_mem _ h)
      · simp only [h2, if_false] at hx
        rcases List.mem_cons.1 hx with h | h
        · exact Or.inl h
        · exact Or.inr h

lemma insertOrUpdate_sorted {side : Side} {p q : Int} {t : Nat} :
    ∀ {ls : List PriceLevelL2}, sideSorted side ls →
      sideSorted side (insertOrUpdate side p q t ls).1 := by
  intro ls
  induction ls with
  | nil => intro _; simp [insertOrUpdate, sideSorted]
  | cons l ls ih =>
    intro hs
    rcases (List.pairwise_cons.1 hs) with ⟨hl, hls⟩
    simp only [insertOrUpdate]
    by_cases h1 : sideBefore side l.price p
    · simp only [h1, if_true]
      refine List.pairwise_cons.2 ⟨?_, ih hls⟩
      intro x hx
      rcases mem_insertOrUpdate hx with h2 | h2
      · rw [h2]; exact h1
      · exact hl x h2
    · simp only [h1, if_false]
      by_cases h2 : l.price = p
      · simp only [h2, if_true]
        refine List.pairwise_cons.2 ⟨?_, hls⟩
        intro x hx
        have := hl x hx
        rw [h2] at this
        exact this
      · simp only [h2, if_false]
        refine List.pairwise_cons.2 ⟨?_, hs⟩
        intro x hx
        have hpl : sideBefore side p l.price = true := by
          have h1f : sideBefore side l.price p = false := by
            simpa using h1
          exact sideBefore_total h1f h2
        rcases List.mem_cons.1 hx with h3 | h3
        · rw [h3]; exact hpl
        · exact sideBefore_trans hpl (hl x h3)

lemma insertOrUpdate_idx_ne_zero_head {side : Side} {p q : Int} {t : Nat}
    {ls : List PriceLevelL2} (h : (insertOrUpdate side p q t ls).2.1 ≠ 0) :
    (insertOrUpdate side p q t ls).1.head? = ls.head? := by
  cases ls with
  | nil => simp [insertOrUpdate] at h
  | cons l ls =>
    simp only [insertOrUpdate] at h ⊢
    by_cases h1 : sideBefore side l.price p
    · rw [if_pos h1]; simp
    · rw [if_neg h1] at h ⊢
      by_cases h2 : l.price = p
      · rw [if_pos h2] at h; simp at h
      · rw [if_neg h2] at h; simp at h

lemma insertOrUpdate_idx_le {side : Side} {p q : Int} {t : Nat} :
    ∀ {ls : List PriceLevelL2}, (insertOrUpdate side p q t ls).2.1 ≤ ls.length := by
  intro ls
  induction ls with
  | nil => simp [insertOrUpdate]
  | cons l ls ih =>
    simp only [insertOrUpdate]
    by_cases h1 : sideBefore side l.price p
    · rw [if_pos h1]
      simpa using ih
    · rw [if_neg h1]
      by_cases h2 : l.price = p
      · rw [if_pos h2]; simp
      · rw [if_neg h2]; simp

lemma insertOrUpdate_length {side : Side} {p q : Int} {t : Nat} :
    ∀ {ls : List PriceLevelL2},
      (insertOrUpdate side p q t ls).1.length ≤ ls.length + 1 := by
  intro ls
  induction ls with
  | nil => simp [insertOrUpdate]
  | cons l ls ih =>
    simp only [insertOrUpdate]
    by_cases h1 : sideBefore side l.price p
    · rw [if_pos h1]
      simpa using ih
    · rw [if_neg h1]
      by_cases h2 : l.price = p
      · rw [if_pos h2]; simp
      · rw [if_neg h2]; simp

lemma findLevelIdx_lt_length {side : Side} {p : Int} :
    ∀ {ls : List PriceLevelL2} {i : Nat},
      findLevelIdx side p ls = some i → i < ls.length := by
  intro ls
  induction ls with
  | nil => intro i h; simp [findLevelIdx] at h
  | cons l ls ih =>
    intro i h
    simp only [findLevelIdx] at h
    by_cases h1 : sideBefore side l.price p
    · rw [if_pos h1] at h
      rcases Option.map_eq_some'.1 h with ⟨j, hj, rfl⟩
      have := ih hj
      simpa using Nat.succ_lt_succ this
    · rw [if_neg h1] at h
      by_cases h2 : l.price = p
      · rw [if_pos h2] at h
        have hi : i = 0 := by simpa using h.symm
        simp [hi]
      · rw [if_neg h2] at h
        simp at h

lemma eraseIdx_head {α : Type} (ls : List α) (i : Nat) (h : i ≠ 0) :
    (ls.eraseIdx i).head? = ls.head? := by
  cases ls with
  | nil => simp
  | cons l ls =>
    cases i with
    | zero => exact absurd rfl h
    | succ j => simp [List.eraseIdx]

lemma eraseIdx_sorted {side : Side} {ls : List PriceLevelL2} {i : Nat}
    (h : sideSorted side ls) : sideSorted side (ls.eraseIdx i) := by
  exact List.Pairwise.sublist (List.eraseIdx_sublist ls i) h

lemma mem_eraseIdx {α : Type} {ls : List α} {i : Nat} {x : α}
    (h : x ∈ ls.eraseIdx i) : x ∈ ls :=
  (List.eraseIdx_sublist ls i).mem h

/-- After erasing the entry `find` located, no entry with that price
remains (side-sorted containers hold at most one entry per price). -/
lemma eraseIdx_find_price_gone {side : Side} {p : Int} :
    ∀ {ls : List PriceLevelL2} {i : Nat}, sideSorted side ls →
      findLevelIdx side p ls = some i →
      ∀ x ∈ ls.eraseIdx i, x.price ≠ p := by
  intro ls
  induction ls with
  | nil => intro i _ h; simp [findLevelIdx] at h
  | cons l ls ih =>
    intro i hs hf x hx
    rcases (List.pairwise_cons.1 hs) with ⟨hl, hls⟩
    simp only [findLevelIdx] at hf
    by_cases h1 : sideBefore side l.price p
    · rw [if_pos h1] at hf
      rcases Option.map_eq_some'.1 hf with ⟨j, hj, rfl⟩
      simp only [List.eraseIdx] at hx
      rcases List.mem_cons.1 hx with h2 | h2
      · rw [h2]; exact sideBefore_ne h1
      · exact ih hls hj x h2
    · rw [if_neg h1] at hf
      by_cases h2 : l.price = p
      · rw [if_pos h2] at hf
        have hi : i = 0 := by simpa using hf.symm
        subst hi
        simp only [List.eraseIdx] at hx
        intro hxp
        have := hl x hx
        rw [hxp, ← h2] at this
        exact absurd rfl (sideBefore_ne this)
      · rw [if_neg h2] at hf
        simp at hf

/-- Entries at other prices survive the erase located by `find`. -/
lemma eraseIdx_find_price_kept {side : Side} {p : Int} :
    ∀ {ls : List PriceLevelL2} {i : Nat},
      findLevelIdx side p ls = some i →
      ∀ x ∈ ls, x.price ≠ p → x ∈ ls.eraseIdx i := by
  intro ls
  induction ls with
  | nil => intro i h; simp [findLevelIdx] at h
  | cons l ls ih =>
    intro i hf x hx hxp
    simp only [findLevelIdx] at hf
    by_cases h1 : sideBefore side l.price p
    · rw [if_pos h1] at hf
      rcases Option.map_eq_some'.1 hf with ⟨j, hj, rfl⟩
      simp only [List.eraseIdx]
      rcases List.mem_cons.1 hx with h2 | h2
      · rw [h2]; exact List.mem_cons_self _ _
      · exact List.mem_cons_of_mem _ (ih hj x h2 hxp)
    · rw [if_neg h1] at hf
      by_cases h2 : l.price = p
      · rw [if_pos h2] at hf
        have hi : i = 0 := by simpa using hf.symm
        subst hi
        simp only [List.eraseIdx]
        rcases List.mem_cons.1 hx with h3 | h3
        · exact absurd (by rw [h3]; exact h2) hxp
        · exact h3
      · rw [if_neg h2] at hf
        simp at hf

/-! ## Lemmas: L2 book projections -/

@[simp] lemma OrderBookL2.seqGate_bids (s : OrderBookL2) (n : Nat) :
    (s.seqGate n).bids = s.bids := by
  unfold OrderBookL2.seqGate; split <;> rfl

@[simp] lemma OrderBookL2.seqGate_asks (s : OrderBookL2) (n : Nat) :
    (s.seqGate n).asks = s.asks := by
  unfold OrderBookL2.seqGate; split <;> rfl

@[simp] lemma OrderBookL2.seqGate_csi (s : OrderBookL2) (n : Nat) :
    (s.seqGate n).change_starting_index = s.change_starting_index := by
  unfold OrderBookL2.seqGate; split <;> rfl

@[simp] lemma OrderBookL2.seqGate_cached (s : OrderBookL2) (n : Nat) :
    (s.seqGate n).cached_tob = s.cached_tob := by
  unfold OrderBookL2.seqGate; split <;> rfl

@[simp] lemma OrderBookL2.seqGate_cbb (s : OrderBookL2) (n : Nat) :
    (s.seqGate n).cached_best_bid = s.cached_best_bid := by
  unfold OrderBookL2.seqGate; split <;> rfl

@[simp] lemma OrderBookL2.seqGate_cba (s : OrderBookL2) (n : Nat) :
    (s.seqGate n).cached_best_ask = s.cached_best_ask := by
  unfold OrderBookL2.seqGate; split <;> rfl

@[simp] lemma OrderBookL2.seqGate_symbol (s : OrderBookL2) (n : Nat) :
    (s.seqGate n).symbol = s.symbol := by
  unfold OrderBookL2.seqGate; split <;> rfl

@[simp] lemma OrderBookL2.seqGate_tob_seq (s : OrderBookL2) (n : Nat) :
    (s.seqGate n).tob_seq = s.tob_seq := by
  unfold OrderBookL2.seqGate; split <;> rfl

lemma OrderBookL2.seqGate_last (s : OrderBookL2) (n : Nat) :
    (s.seqGate n).last_seq_num = if n > 0 then n else s.last_seq_num := by
  unfold OrderBookL2.seqGate; split <;> simp_all

@[simp] lemma OrderBookL2.sideLevels_seqGate (s : OrderBookL2) (n : Nat) (sd : Side) :
    (s.seqGate n).sideLevels sd = s.sideLevels sd := by
  cases sd <;> simp [OrderBookL2.sideLevels]

@[simp] lemma OrderBookL2.sideLevels_setSide (s : OrderBookL2) (side sd : Side)
    (ls : List PriceLevelL2) :
    (s.setSide side ls).sideLevels sd = if sd = side then ls else s.sideLevels sd := by
  cases side <;> cases sd <;> simp [OrderBookL2.setSide, OrderBookL2.sideLevels]

@[simp] lemma OrderBookL2.setSide_csi (s : OrderBookL2) (side : Side)
    (ls : List PriceLevelL2) :
    (s.setSide side ls).change_starting_index = s.change_starting_index := by
  cases side <;> rfl

@[simp] lemma OrderBookL2.setSide_cached (s : OrderBookL2) (side : Side)
    (ls : List PriceLevelL2) :
    (s.setSide side ls).cached_tob = s.cached_tob := by
  cases side <;> rfl

@[simp] lemma OrderBookL2.setSide_cbb (s : OrderBookL2) (side : Side)
    (ls : List PriceLevelL2) :
    (s.setSide side ls).cached_best_bid = s.cached_best_bid := by
  cases side <;> rfl

@[simp] lemma OrderBookL2.setSide_cba (s : OrderBookL2) (side : Side)
    (ls : List PriceLevelL2) :
    (s.setSide side ls).cached_best_ask = s.cached_best_ask := by
  cases side <;> rfl

@[simp] lemma OrderBookL2.setSide_last (s : OrderBookL2) (side : Side)
    (ls : List PriceLevelL2) :
    (s.setSide side ls).last_seq_num = s.last_seq_num := by
  cases side <;> rfl

@[simp] lemma OrderBookL2.setSide_symbol (s : OrderBookL2) (side : Side)
    (ls : List PriceLevelL2) :
    (s.setSide side ls).symbol = s.symbol := by
  cases side <;> rfl

@[simp] lemma OrderBookL2.setSide_tob_seq (s : OrderBookL2) (side : Side)
    (ls : List PriceLevelL2) :
    (s.setSide side ls).tob_seq = s.tob_seq := by
  cases side <;> rfl

@[simp] lemma OrderBookL2.notify_bids (s : OrderBookL2) (ts : Nat) :
    ((s.notifyTopOfBookIfChanged ts).1).bids = s.bids := by
  unfold OrderBookL2.notifyTopOfBookIfChanged; dsimp only; split <;> rfl

@[simp] lemma OrderBookL2.notify_asks (s : OrderBookL2) (ts : Nat) :
    ((s.notifyTopOfBookIfChanged ts).1).asks = s.asks := by
  unfold OrderBookL2.notifyTopOfBookIfChanged; dsimp only; split <;> rfl

@[simp] lemma OrderBookL2.notify_csi (s : OrderBookL2) (ts : Nat) :
    ((s.notifyTopOfBookIfChanged ts).1).change_starting_index =
      s.change_starting_index := by
  unfold OrderBookL2.notifyTopOfBookIfChanged; dsimp only; split <;> rfl

@[simp] lemma OrderBookL2.notify_last (s : OrderBookL2) (ts : Nat) :
    ((s.notifyTopOfBookIfChanged ts).1).last_seq_num = s.last_seq_num := by
  unfold OrderBookL2.notifyTopOfBookIfChanged; dsimp only; split <;> rfl

@[simp] lemma OrderBookL2.notify_symbol (s : OrderBookL2) (ts : Nat) :
    ((s.notifyTopOfBookIfChanged ts).1).symbol = s.symbol := by
  unfold OrderBookL2.notifyTopOfBookIfChanged; dsimp only; split <;> rfl

@[simp] lemma OrderBookL2.sideLevels_notify (s : OrderBookL2) (ts : Nat) (sd : Side) :
    ((s.notifyTopOfBookIfChanged ts).1).sideLevels sd = s.sideLevels sd := by
  cases sd <;> simp [OrderBookL2.sideLevels]

lemma freshTobFields_congr {s t : OrderBookL2} (h1 : s.bids.head? = t.bids.head?)
    (h2 : s.asks.head? = t.asks.head?) : s.freshTobFields = t.freshTobFields := by
  unfold OrderBookL2.freshTobFields
  rw [h1, h2]

@[simp] lemma freshTobFields_seqGate (s : OrderBookL2) (n : Nat) :
    (s.seqGate n).freshTobFields = s.freshTobFields :=
  freshTobFields_congr (by simp) (by simp)

@[simp] lemma freshTobFields_notify (s : OrderBookL2) (ts : Nat) :
    ((s.notifyTopOfBookIfChanged ts).1).freshTobFields = s.freshTobFields :=
  freshTobFields_congr (by simp) (by simp)

/-- After the writer runs `notifyTopOfBookIfChanged`, the four cached
value fields agree with the fresh candidate (either they differed and
were overwritten, or they already agreed). -/
lemma notify_cached_synced (s : OrderBookL2) (ts : Nat) :
    ((s.notifyTopOfBookIfChanged ts).1).cached_tob.fields4 = s.freshTobFields := by
  unfold OrderBookL2.notifyTopOfBookIfChanged
  dsimp only
  split
  · simp [TopOfBook.fields4, OrderBookL2.freshTobFields]
  next hnc =>
    push_neg at hnc
    obtain ⟨⟨e1, e2⟩, e3, e4⟩ := hnc
    simp [TopOfBook.fields4, OrderBookL2.freshTobFields, e1, e2, e3, e4]

/-! ## Lemmas: `updateLevel` characterization -/

lemma updateLevel_stale {s : OrderBookL2} {side : Side} {p q : Int} {ts seq : Nat}
    {b : Bool} (h : seqStale s.last_seq_num seq) :
    s.updateLevel side p q ts seq b = (s, []) := by
  unfold OrderBookL2.updateLevel
  rw [if_pos h]

/-- Containers after `updateLevel`: the stale gate leaves everything; the
touched side gets the erase (for a present zero-quantity price) or the
`insertOrUpdate` result; the other side is untouched. -/
lemma updateLevel_sideLevels (s : OrderBookL2) (side : Side) (p q : Int)
    (ts seq : Nat) (b : Bool) (sd : Side) :
    ((s.updateLevel side p q ts seq b).1).sideLevels sd =
      if seqStale s.last_seq_num seq then s.sideLevels sd
      else if sd = side then
        (if q = 0 then
          match findLevelIdx side p (s.sideLevels side) with
          | none => s.sideLevels side
          | some i => (s.sideLevels side).eraseIdx i
        else (insertOrUpdate side p q ts (s.sideLevels side)).1)
      else s.sideLevels sd := by
  unfold OrderBookL2.updateLevel
  by_cases hst : seqStale s.last_seq_num seq
  · rw [if_pos hst, if_pos hst]
  · rw [if_neg hst, if_neg hst]
    dsimp only
    by_cases hq : q = 0
    · rw [if_pos hq, if_pos hq]
      simp only [OrderBookL2.sideLevels_seqGate]
      cases hfind : findLevelIdx side p (s.sideLevels side) with
      | none =>
        simp only [hfind]
        cases sd <;> cases side <;>
          simp [OrderBookL2.sideLevels, OrderBookL2.setSide]
      | some i =>
        simp only [hfind]
        split <;> cases sd <;> cases side <;>
          simp [OrderBookL2.sideLevels, OrderBookL2.setSide]
    · rw [if_neg hq, if_neg hq]
      simp only [OrderBookL2.sideLevels_seqGate]
      split <;> cases sd <;> cases side <;>
        simp [OrderBookL2.sideLevels, OrderBookL2.setSide]

/-- `last_seq_num` after `updateLevel`: the stale gate leaves it, any
other call records `seq_num` when positive. -/
lemma updateLevel_last (s : OrderBookL2) (side : Side) (p q : Int)
    (ts seq : Nat) (b : Bool) :
    ((s.updateLevel side p q ts seq b).1).last_seq_num =
      if seqStale s.last_seq_num seq then s.last_seq_num
      else (s.seqGate seq).last_seq_num := by
  unfold OrderBookL2.updateLevel
  by_cases hst : seqStale s.last_seq_num seq
  · rw [if_pos hst, if_pos hst]
  · rw [if_neg hst, if_neg hst]
    dsimp only
    by_cases hq : q = 0
    · rw [if_pos hq]
      cases hfind : findLevelIdx side p ((s.seqGate seq).sideLevels side) with
      | none => simp [hfind]
      | some i =>
        simp only [hfind]
        split <;> simp
    · rw [if_neg hq]
      split <;> simp

/-! ## L2 container invariant (claim C6) -/


lemma l2ContInv_update {s : OrderBookL2} (h : l2ContInv s) (side : Side)
    (p q : Int) (ts seq : Nat) (b : Bool) :
    l2ContInv ((s.updateLevel side p q ts seq b).1) := by
  intro sd
  rw [updateLevel_sideLevels]
  split
  · exact h sd
  split
  next hsd =>
    subst hsd
    split
    next hq =>
      split
      · exact h sd
      next i hfind =>
        refine ⟨eraseIdx_sorted (h sd).1, ?_⟩
        intro l hl
        exact (h sd).2 l (mem_eraseIdx hl)
    next hq =>
      refine ⟨insertOrUpdate_sorted (h sd).1, ?_⟩
      intro l hl
      rcases mem_insertOrUpdate hl with h2 | h2
      · rw [h2]; exact hq
      · exact (h sd).2 l h2
  next hsd => exact h sd

lemma l2ContInv_delete {s : OrderBookL2} (h : l2ContInv s) (side : Side) (p : Int) :
    l2ContInv ((s.deleteLevel side p).1) := by
  intro sd
  unfold OrderBookL2.deleteLevel eraseLevel
  dsimp only
  cases hfind : findLevelIdx side p (s.sideLevels side) with
  | none =>
    simp only [hfind, OrderBookL2.sideLevels_setSide]
    split
    next hsd => subst hsd; exact h sd
    next hsd => exact h sd
  | some i =>
    simp only [hfind, OrderBookL2.sideLevels_setSide]
    split
    next hsd =>
      subst hsd
      refine ⟨eraseIdx_sorted (h sd).1, ?_⟩
      intro l hl
      exact (h sd).2 l (mem_eraseIdx hl)
    next hsd => exact h sd

lemma l2ContInv_reachable {s : OrderBookL2} (h : ReachableL2D s) : l2ContInv s := by
  induction h with
  | init symbol =>
    intro sd
    cases sd <;>
      exact ⟨List.Pairwise.nil, by simp [OrderBookL2.init, OrderBookL2.sideLevels]⟩
  | update s side p q ts seq b _ ih => exact l2ContInv_update ih side p q ts seq b
  | delete s side p _ ih => exact l2ContInv_delete ih side p


lemma l2ContPos_update {s : OrderBookL2} (h : l2ContPos s) (side : Side)
    {q : Int} (p : Int) (hq0 : 0 ≤ q) (ts seq : Nat) (b : Bool) :
    l2ContPos ((s.updateLevel side p q ts seq b).1) := by
  intro sd
  rw [updateLevel_sideLevels]
  split
  · exact h sd
  split
  next hsd =>
    subst hsd
    split
    next hq =>
      split
      · exact h sd
      next i hfind =>
        intro l hl
        exact h sd l (mem_eraseIdx hl)
    next hq =>
      intro l hl
      rcases mem_insertOrUpdate hl with h2 | h2
      · rw [h2]; exact lt_of_le_of_ne hq0 (Ne.symm hq)
      · exact h sd l h2
  next hsd => exact h sd

lemma l2ContPos_delete {s : OrderBookL2} (h : l2ContPos s) (side : Side) (p : Int) :
    l2ContPos ((s.deleteLevel side p).1) := by
  intro sd
  unfold OrderBookL2.deleteLevel eraseLevel
  dsimp only
  cases hfind : findLevelIdx side p (s.sideLevels side) with
  | none =>
    simp only [hfind, OrderBookL2.sideLevels_setSide]
    split
    next hsd => subst hsd; exact h sd
    next hsd => exact h sd
  | some i =>
    simp only [hfind, OrderBookL2.sideLevels_setSide]
    split
    next hsd =>
      subst hsd
      intro l hl
      exact h sd l (mem_eraseIdx hl)
    next hsd => exact h sd

lemma l2ContPos_reachable {s : OrderBookL2} (h : ReachableL2DPos s) : l2ContPos s := by
  induction h with
  | init symbol =>
    intro sd
    cases sd <;> simp [OrderBookL2.init, OrderBookL2.sideLevels]
  | update s side p q ts seq b hq0 _ ih => exact l2ContPos_update ih side p hq0 ts seq b
  | delete s side p _ ih => exact l2ContPos_delete ih side p

/-! ## L2 cached top-of-book synchronization (claim C3) -/


lemma l2Synced_update {s : OrderBookL2} (h : l2Synced s) (side : Side)
    (p q : Int) (ts seq : Nat) :
    l2Synced ((s.updateLevel side p q ts seq true).1) := by
  obtain ⟨hcsi, hsync⟩ := h
  unfold OrderBookL2.updateLevel
  by_cases hst : seqStale s.last_seq_num seq
  · rw [if_pos hst]; exact ⟨hcsi, hsync⟩
  · rw [if_neg hst]
    dsimp only
    by_cases hq : q = 0
    · rw [if_pos hq]
      cases hfind : findLevelIdx side p ((s.seqGate seq).sideLevels side) with
      | none =>
        simp only [hfind]
        exact ⟨by simpa using hcsi, by simpa using hsync⟩
      | some i =>
        simp only [hfind]
        split
        next hcond =>
          constructor
          · simp [INVALID_INDEX]
          · dsimp only
            rw [notify_cached_synced]
            refine freshTobFields_congr ?_ ?_ <;> simp
        next hcond =>
          have hmin : ¬ (min (s.seqGate seq).change_starting_index (i % 65536) = 0) := by
            intro h0
            exact hcond ⟨h0, by trivial⟩
          have hi : i ≠ 0 := by
            intro h0
            subst h0
            simp at hmin
          constructor
          · simpa using hmin
          · dsimp only
            simp only [OrderBookL2.setSide_cached, OrderBookL2.seqGate_cached]
            rw [hsync]
            have h1 : s.bids.head? = ((s.seqGate seq).setSide side
                (((s.seqGate seq).sideLevels side).eraseIdx i)).bids.head? := by
              cases side <;>
                simp only [OrderBookL2.setSide, OrderBookL2.sideLevels,
                  OrderBookL2.seqGate_bids, OrderBookL2.seqGate_asks] <;>
                rw [eraseIdx_head _ _ hi]
            have h2 : s.asks.head? = ((s.seqGate seq).setSide side
                (((s.seqGate seq).sideLevels side).eraseIdx i)).asks.head? := by
              cases side <;>
                simp only [OrderBookL2.setSide, OrderBookL2.sideLevels,
                  OrderBookL2.seqGate_bids, OrderBookL2.seqGate_asks] <;>
                rw [eraseIdx_head _ _ hi]
            exact freshTobFields_congr h1 h2
    · rw [if_neg hq]
      split
      next hcond =>
        constructor
        · simp [INVALID_INDEX]
        · dsimp only
          rw [notify_cached_synced]
          refine freshTobFields_congr ?_ ?_ <;> simp
      next hcond =>
        have hmin : ¬ (min (s.seqGate seq).change_starting_index
            ((insertOrUpdate side p q ts ((s.seqGate seq).sideLevels side)).2.1 % 65536)
              = 0) := by
          intro h0
          exact hcond ⟨h0, by trivial⟩
        have hi : (insertOrUpdate side p q ts ((s.seqGate seq).sideLevels side)).2.1
            ≠ 0 := by
          intro h0
          rw [h0] at hmin
          simp at hmin
        have hhead := insertOrUpdate_idx_ne_zero_head hi
        constructor
        · simpa using hmin
        · dsimp only
          simp only [OrderBookL2.setSide_cached, OrderBookL2.seqGate_cached]
          rw [hsync]
          have h1 : s.bids.head? = ((s.seqGate seq).setSide side
              (insertOrUpdate side p q ts ((s.seqGate seq).sideLevels side)).1).bids.head? := by
            cases side <;>
              simp only [OrderBookL2.setSide, OrderBookL2.seqGate_bids,
                OrderBookL2.seqGate_asks] <;>
              rw [hhead] <;>
              simp [OrderBookL2.sideLevels]
          have h2 : s.asks.head? = ((s.seqGate seq).setSide side
              (insertOrUpdate side p q ts ((s.seqGate seq).sideLevels side)).1).asks.head? := by
            cases side <;>
              simp only [OrderBookL2.setSide, OrderBookL2.seqGate_bids,
                OrderBookL2.seqGate_asks] <;>
              rw [hhead] <;>
              simp [OrderBookL2.sideLevels]
          exact freshTobFields_congr h1 h2

lemma l2Synced_reachable {s : OrderBookL2} (h : ReachableL2Full s) : l2Synced s := by
  induction h with
  | init symbol =>
    constructor
    · simp [OrderBookL2.init, INVALID_INDEX]
    · rfl
  | update s side p q ts seq _ ih => exact l2Synced_update ih side p q ts seq

/-! ## Lemmas: L3 book projections -/

@[simp] lemma OrderBookL3.seqGate_bids3 (s : OrderBookL3) (n : Nat) :
    (s.seqGate n).bids = s.bids := by
  unfold OrderBookL3.seqGate; split <;> rfl

@[simp] lemma OrderBookL3.seqGate_asks3 (s : OrderBookL3) (n : Nat) :
    (s.seqGate n).asks = s.asks := by
  unfold OrderBookL3.seqGate; split <;> rfl

@[simp] lemma OrderBookL3.seqGate_ids (s : OrderBookL3) (n : Nat) :
    (s.seqGate n).order_ids = s.order_ids := by
  unfold OrderBookL3.seqGate; split <;> rfl

@[simp] lemma OrderBookL3.seqGate_cached3 (s : OrderBookL3) (n : Nat) :
    (s.seqGate n).cached_tob = s.cached_tob := by
  unfold OrderBookL3.seqGate; split <;> rfl

@[simp] lemma OrderBookL3.seqGate_symbol3 (s : OrderBookL3) (n : Nat) :
    (s.seqGate n).symbol = s.symbol := by
  unfold OrderBookL3.seqGate; split <;> rfl

lemma OrderBookL3.seqGate_last3 (s : OrderBookL3) (n : Nat) :
    (s.seqGate n).last_seq_num = if n > 0 then n else s.last_seq_num := by
  unfold OrderBookL3.seqGate; split <;> simp_all

@[simp] lemma OrderBookL3.sideLevels_seqGate3 (s : OrderBookL3) (n : Nat) (sd : Side) :
    (s.seqGate n).sideLevels sd = s.sideLevels sd := by
  cases sd <;> simp [OrderBookL3.sideLevels]

@[simp] lemma OrderBookL3.allOrders_seqGate (s : OrderBookL3) (n : Nat) :
    (s.seqGate n).allOrders = s.allOrders := by
  unfold OrderBookL3.allOrders; simp

@[simp] lemma OrderBookL3.findOrder_seqGate (s : OrderBookL3) (n : Nat) (id : Nat) :
    (s.seqGate n).findOrder id = s.findOrder id := by
  unfold OrderBookL3.findOrder; simp

/-- The gate, once applied, never classifies the same sequence number as
stale. -/
lemma OrderBookL3.not_stale_seqGate (s : OrderBookL3) (n : Nat) :
    ¬ seqStale (s.seqGate n).last_seq_num n := by
  rw [OrderBookL3.seqGate_last3]
  rintro ⟨h1, h2⟩
  rw [if_pos h1] at h2
  omega

lemma OrderBookL3.seqGate_seqGate (s : OrderBookL3) (n : Nat) :
    (s.seqGate n).seqGate n = s.seqGate n := by
  unfold OrderBookL3.seqGate
  by_cases h : n > 0 <;> simp [h]

@[simp] lemma OrderBookL3.sideLevels_setSide3 (s : OrderBookL3) (side sd : Side)
    (ls : List PriceLevelL3) :
    (s.setSide side ls).sideLevels sd = if sd = side then ls else s.sideLevels sd := by
  cases side <;> cases sd <;> simp [OrderBookL3.setSide, OrderBookL3.sideLevels]

@[simp] lemma OrderBookL3.setSide_ids (s : OrderBookL3) (side : Side)
    (ls : List PriceLevelL3) :
    (s.setSide side ls).order_ids = s.order_ids := by
  cases side <;> rfl

@[simp] lemma OrderBookL3.setSide_cached3 (s : OrderBookL3) (side : Side)
    (ls : List PriceLevelL3) :
    (s.setSide side ls).cached_tob = s.cached_tob := by
  cases side <;> rfl

@[simp] lemma OrderBookL3.setSide_last3 (s : OrderBookL3) (side : Side)
    (ls : List PriceLevelL3) :
    (s.setSide side ls).last_seq_num = s.last_seq_num := by
  cases side <;> rfl

@[simp] lemma OrderBookL3.setSide_symbol3 (s : OrderBookL3) (side : Side)
    (ls : List PriceLevelL3) :
    (s.setSide side ls).symbol = s.symbol := by
  cases side <;> rfl

@[simp] lemma OrderBookL3.setOrderTimestamp_ids (s : OrderBookL3) (id ts : Nat) :
    (s.setOrderTimestamp id ts).order_ids = s.order_ids := rfl

@[simp] lemma OrderBookL3.setOrderTimestamp_last (s : OrderBookL3) (id ts : Nat) :
    (s.setOrderTimestamp id ts).last_seq_num = s.last_seq_num := rfl

@[simp] lemma OrderBookL3.setOrderTimestamp_cached (s : OrderBookL3) (id ts : Nat) :
    (s.setOrderTimestamp id ts).cached_tob = s.cached_tob := rfl

@[simp] lemma OrderBookL3.setOrderTimestamp_symbol (s : OrderBookL3) (id ts : Nat) :
    (s.setOrderTimestamp id ts).symbol = s.symbol := rfl

@[simp] lemma OrderBookL3.notify_bids3 (s : OrderBookL3) (ts flags : Nat) :
    ((s.notifyTopOfBookIfChanged ts flags).1).bids = s.bids := by
  unfold OrderBookL3.notifyTopOfBookIfChanged
  dsimp only
  split
  · rfl
  split <;> rfl

@[simp] lemma OrderBookL3.notify_asks3 (s : OrderBookL3) (ts flags : Nat) :
    ((s.notifyTopOfBookIfChanged ts flags).1).asks = s.asks := by
  unfold OrderBookL3.notifyTopOfBookIfChanged
  dsimp only
  split
  · rfl
  split <;> rfl

@[simp] lemma OrderBookL3.notify_ids (s : OrderBookL3) (ts flags : Nat) :
    ((s.notifyTopOfBookIfChanged ts flags).1).order_ids = s.order_ids := by
  unfold OrderBookL3.notifyTopOfBookIfChanged
  dsimp only
  split
  · rfl
  split <;> rfl

@[simp] lemma OrderBookL3.notify_last3 (s : OrderBookL3) (ts flags : Nat) :
    ((s.notifyTopOfBookIfChanged ts flags).1).last_seq_num = s.last_seq_num := by
  unfold OrderBookL3.notifyTopOfBookIfChanged
  dsimp only
  split
  · rfl
  split <;> rfl

@[simp] lemma OrderBookL3.notify_symbol3 (s : OrderBookL3) (ts flags : Nat) :
    ((s.notifyTopOfBookIfChanged ts flags).1).symbol = s.symbol := by
  unfold OrderBookL3.notifyTopOfBookIfChanged
  dsimp only
  split
  · rfl
  split <;> rfl

@[simp] lemma OrderBookL3.sideLevels_notify3 (s : OrderBookL3) (ts flags : Nat)
    (sd : Side) :
    ((s.notifyTopOfBookIfChanged ts flags).1).sideLevels sd = s.sideLevels sd := by
  cases sd <;> simp [OrderBookL3.sideLevels]

/-! ## Lemmas: L3 stale rejection and `last_seq_num` -/

lemma deleteOrder_stale {s : OrderBookL3} {id seq : Nat} {b : Bool}
    (h : seqStale s.last_seq_num seq) :
    s.deleteOrder id seq b = ⟨false, [], s⟩ := by
  unfold OrderBookL3.deleteOrder
  rw [if_pos h]

lemma modifyOrder_stale {s : OrderBookL3} {id : Nat} {p q : Int} {seq : Nat} {b : Bool}
    (h : seqStale s.last_seq_num seq) :
    s.modifyOrder id p q seq b = ⟨false, [], s⟩ := by
  unfold OrderBookL3.modifyOrder
  rw [if_pos h]

lemma addOrModifyOrder_stale {s : OrderBookL3} {id : Nat} {side : Side} {p q : Int}
    {ts prio seq : Nat} {b : Bool} (h : seqStale s.last_seq_num seq) :
    s.addOrModifyOrder id side p q ts prio seq b = ⟨false, [], s⟩ := by
  unfold OrderBookL3.addOrModifyOrder
  rw [if_pos h]

lemma addOrder_stale {s : OrderBookL3} {id : Nat} {side : Side} {p q : Int}
    {ts prio seq : Nat} {b : Bool} (h : seqStale s.last_seq_num seq) :
    s.addOrder id side p q ts prio seq b = ⟨false, [], s⟩ := by
  unfold OrderBookL3.addOrder
  rw [if_pos h]

lemma executeOrder_stale {s : OrderBookL3} {id : Nat} {q : Int} {seq : Nat} {b : Bool}
    (h : seqStale s.last_seq_num seq) :
    s.executeOrder id q seq b = ⟨false, [], s⟩ := by
  unfold OrderBookL3.executeOrder
  rw [if_pos h]

lemma applyCall_stale {s : OrderBookL3} {c : L3Call} {b : Bool}
    (h : seqStale s.last_seq_num c.seq) :
    s.applyCall c b = ⟨false, [], s⟩ := by
  cases c with
  | addOrModify id side p q ts prio seq => exact addOrModifyOrder_stale h
  | add id side p q ts prio seq => exact addOrder_stale h
  | modify id p q seq => exact modifyOrder_stale h
  | delete id seq => exact deleteOrder_stale h
  | execute id q seq => exact executeOrder_stale h

lemma deleteOrder_last (s : OrderBookL3) (id seq : Nat) (b : Bool)
    (h : ¬ seqStale s.last_seq_num seq) :
    (s.deleteOrder id seq b).book.last_seq_num = (s.seqGate seq).last_seq_num := by
  unfold OrderBookL3.deleteOrder
  rw [if_neg h]
  dsimp only
  cases hf : (s.seqGate seq).findOrder id with
  | none => simp [hf]
  | some order =>
    simp only [hf]
    cases hfl : findLevelIdx3 order.price ((s.seqGate seq).sideLevels order.side) with
    | none => simp [hfl]
    | some idx => simp [hfl]

lemma modifyOrder_last (s : OrderBookL3) (id : Nat) (p q : Int) (seq : Nat) (b : Bool)
    (h : ¬ seqStale s.last_seq_num seq) :
    (s.modifyOrder id p q seq b).book.last_seq_num = (s.seqGate seq).last_seq_num := by
  unfold OrderBookL3.modifyOrder
  rw [if_neg h]
  dsimp only
  cases hf : (s.seqGate seq).findOrder id with
  | none => simp [hf]
  | some order =>
    simp only [hf]
    by_cases hq1 : q < 0
    · rw [if_pos hq1]
    · rw [if_neg hq1]
      by_cases hq0 : q = 0
      · rw [if_pos hq0]
        rw [deleteOrder_last _ _ _ _ (OrderBookL3.not_stale_seqGate s seq)]
        exact congrArg OrderBookL3.last_seq_num (OrderBookL3.seqGate_seqGate s seq)
      · rw [if_neg hq0]
        by_cases hno : p = order.price ∧ q = order.quantity
        · rw [if_pos hno]
        · rw [if_neg hno]
          by_cases hpc : p ≠ order.price
          · rw [if_pos hpc]
            cases hfl : findLevelIdx3 order.price ((s.seqGate seq).sideLevels order.side) with
            | none => simp [hfl]
            | some idx => simp [hfl]
          · rw [if_neg hpc]
            simp

lemma addOrModifyOrder_last (s : OrderBookL3) (id : Nat) (side : Side) (p q : Int)
    (ts prio seq : Nat) (b : Bool) (h : ¬ seqStale s.last_seq_num seq) :
    (s.addOrModifyOrder id side p q ts prio seq b).book.last_seq_num =
      (s.seqGate seq).last_seq_num := by
  unfold OrderBookL3.addOrModifyOrder
  rw [if_neg h]
  dsimp only
  cases hf : (s.seqGate seq).findOrder id with
  | none =>
    simp only [hf]
    by_cases hq : q ≤ 0
    · rw [if_pos hq]
    · rw [if_neg hq]
      simp
  | some order =>
    simp only [hf]
    by_cases hside : order.side ≠ side
    · rw [if_pos hside]
    · rw [if_neg hside]
      by_cases hq : q ≤ 0
      · rw [if_pos hq]
        by_cases hq0 : q = 0
        · rw [if_pos hq0]
          rw [deleteOrder_last _ _ _ _ (OrderBookL3.not_stale_seqGate s seq)]
          exact congrArg OrderBookL3.last_seq_num (OrderBookL3.seqGate_seqGate s seq)
        · rw [if_neg hq0]
      · rw [if_neg hq]
        by_cases hid : order.price = p ∧ order.quantity = q
        · rw [if_pos hid]
        · rw [if_neg hid]
          have hns : ¬ seqStale ((s.seqGate seq).setOrderTimestamp id ts).last_seq_num seq := by
            rw [OrderBookL3.setOrderTimestamp_last]
            exact OrderBookL3.not_stale_seqGate s seq
          rw [modifyOrder_last _ _ _ _ _ _ hns]
          rw [show ((s.seqGate seq).setOrderTimestamp id ts).seqGate seq =
            ((s.seqGate seq).seqGate seq).setOrderTimestamp id ts from ?_]
          · rw [OrderBookL3.seqGate_seqGate]
            simp
          · unfold OrderBookL3.seqGate
            by_cases hpos : seq > 0 <;> simp [hpos, OrderBookL3.setOrderTimestamp]

lemma addOrder_last (s : OrderBookL3) (id : Nat) (side : Side) (p q : Int)
    (ts prio seq : Nat) (b : Bool) (h : ¬ seqStale s.last_seq_num seq) :
    (s.addOrder id side p q ts prio seq b).book.last_seq_num =
      (s.seqGate seq).last_seq_num := by
  unfold OrderBookL3.addOrder
  rw [if_neg h]
  dsimp only
  by_cases hc : (s.seqGate seq).order_ids.contains id
  · rw [if_pos hc]
  · rw [if_neg hc]
    rw [addOrModifyOrder_last _ _ _ _ _ _ _ _ _ (OrderBookL3.not_stale_seqGate s seq)]
    exact congrArg OrderBookL3.last_seq_num (OrderBookL3.seqGate_seqGate s seq)

lemma executeOrder_last (s : OrderBookL3) (id : Nat) (q : Int) (seq : Nat) (b : Bool)
    (h : ¬ seqStale s.last_seq_num seq) :
    (s.executeOrder id q seq b).book.last_seq_num = (s.seqGate seq).last_seq_num := by
  unfold OrderBookL3.executeOrder
  rw [if_neg h]
  dsimp only
  cases hf : (s.seqGate seq).findOrder id with
  | none => simp [hf]
  | some order =>
    simp only [hf]
    by_cases hr : q ≤ 0 ∨ q > order.quantity
    · rw [if_pos hr]
    · rw [if_neg hr]
      by_cases hrem : order.quantity - q = 0
      · rw [if_pos hrem]
        rw [deleteOrder_last _ _ _ _ (OrderBookL3.not_stale_seqGate s seq)]
        exact congrArg OrderBookL3.last_seq_num (OrderBookL3.seqGate_seqGate s seq)
      · rw [if_neg hrem]
        rw [modifyOrder_last _ _ _ _ _ _ (OrderBookL3.not_stale_seqGate s seq)]
        exact congrArg OrderBookL3.last_seq_num (OrderBookL3.seqGate_seqGate s seq)

lemma applyCall_last (s : OrderBookL3) (c : L3Call) (b : Bool)
    (h : ¬ seqStale s.last_seq_num c.seq) :
    (s.applyCall c b).book.last_seq_num = (s.seqGate c.seq).last_seq_num := by
  cases c with
  | addOrModify id side p q ts prio seq => exact addOrModifyOrder_last s id side p q ts prio seq b h
  | add id side p q ts prio seq => exact addOrder_last s id side p q ts prio seq b h
  | modify id p q seq => exact modifyOrder_last s id p q seq b h
  | delete id seq => exact deleteOrder_last s id seq b h
  | execute id q seq => exact executeOrder_last s id q seq b h

/-! ## Lemmas: sequence-number accumulation (claim C1) -/


lemma findLevelIdx_none_not_mem {side : Side} {p : Int} :
    ∀ {ls : List PriceLevelL2}, sideSorted side ls →
      findLevelIdx side p ls = none → ∀ x ∈ ls, x.price ≠ p := by
  intro ls
  induction ls with
  | nil => intro _ _ x hx; simp at hx
  | cons l ls ih =>
    intro hs hf x hx
    rcases (List.pairwise_cons.1 hs) with ⟨hl, hls⟩
    simp only [findLevelIdx] at hf
    by_cases h1 : sideBefore side l.price p
    · rw [if_pos h1] at hf
      rcases List.mem_cons.1 hx with h2 | h2
      · rw [h2]; exact sideBefore_ne h1
      · exact ih hls (by simpa using hf) x h2
    · rw [if_neg h1] at hf
      by_cases h2 : l.price = p
      · rw [if_pos h2] at hf; simp at hf
      · rw [if_neg h2] at hf
        rcases List.mem_cons.1 hx with h3 | h3
        · rw [h3]; exact h2
        · intro hxp
          have hbefore := hl x h3
          rw [hxp] at hbefore
          have := sideBefore_total (by simpa using h1) h2
          have := sideBefore_trans hbefore this
          exact absurd rfl (sideBefore_ne this)

lemma l2_applyCall_last_max {s : OrderBookL2} {c : L2Call} (b : Bool)
    (h : ¬ seqStale s.last_seq_num c.seq_num) :
    ((s.applyCall c b).1).last_seq_num = max s.last_seq_num c.seq_num := by
  have hl := updateLevel_last s c.side c.price c.quantity c.timestamp c.seq_num b
  show ((s.updateLevel c.side c.price c.quantity c.timestamp c.seq_num b).1).last_seq_num = _
  rw [hl, if_neg h, OrderBookL2.seqGate_last]
  by_cases hpos : c.seq_num > 0
  · rw [if_pos hpos]
    have hge : ¬ (c.seq_num < s.last_seq_num) := fun hh => h ⟨hpos, hh⟩
    omega
  · rw [if_neg hpos]
    omega

lemma l3_applyCall_last_max {s : OrderBookL3} {c : L3Call} (b : Bool)
    (h : ¬ seqStale s.last_seq_num c.seq) :
    ((s.applyCall c b).book).last_seq_num = max s.last_seq_num c.seq := by
  rw [applyCall_last s c b h, OrderBookL3.seqGate_last3]
  by_cases hpos : c.seq > 0
  · rw [if_pos hpos]
    have hge : ¬ (c.seq < s.last_seq_num) := fun hh => h ⟨hpos, hh⟩
    omega
  · rw [if_neg hpos]
    omega

lemma runL2Seq_last : ∀ (calls : List L2Call) (s : OrderBookL2),
    (runL2Seq s calls).last_seq_num =
      List.foldl max s.last_seq_num (l2AcceptedSeqs s calls) := by
  intro calls
  induction calls with
  | nil => intro s; rfl
  | cons c cs ih =>
    intro s
    unfold runL2Seq l2AcceptedSeqs
    by_cases hst : seqStale s.last_seq_num c.seq_num
    · rw [if_pos hst]
      have happ : s.applyCall c true = (s, []) := updateLevel_stale hst
      rw [happ]
      simpa using ih s
    · rw [if_neg hst]
      rw [ih ((s.applyCall c true).1)]
      rw [l2_applyCall_last_max true hst]
      simp

lemma runL3Seq_last : ∀ (calls : List L3Call) (s : OrderBookL3),
    (runL3Seq s calls).last_seq_num =
      List.foldl max s.last_seq_num (l3AcceptedSeqs s calls) := by
  intro calls
  induction calls with
  | nil => intro s; rfl
  | cons c cs ih =>
    intro s
    unfold runL3Seq l3AcceptedSeqs
    by_cases hst : seqStale s.last_seq_num c.seq
    · rw [if_pos hst]
      have happ : s.applyCall c true = ⟨false, [], s⟩ := applyCall_stale hst
      rw [happ]
      simpa using ih s
    · rw [if_neg hst]
      rw [ih ((s.applyCall c true).book)]
      rw [l3_applyCall_last_max true hst]
      simp

/-! ## Lemmas: L2 batch top-of-book coalescing (claim C4) -/

@[simp] lemma countTob_nil : countTob [] = 0 := rfl

lemma countTob_append (a b : List Event) :
    countTob (a ++ b) = countTob a + countTob b := by
  simp [countTob, List.filter_append]

@[simp] lemma countTob_priceLevel_cons (u : PriceLevelUpdate) (evs : List Event) :
    countTob (Event.priceLevel u :: evs) = countTob evs := by
  simp [countTob, Event.isTob]

@[simp] lemma countTob_order_cons (u : OrderUpdate) (evs : List Event) :
    countTob (Event.order u :: evs) = countTob evs := by
  simp [countTob, Event.isTob]

@[simp] lemma countTob_tob_cons (t : TopOfBook) (evs : List Event) :
    countTob (Event.tob t :: evs) = countTob evs + 1 := by
  simp [countTob, Event.isTob, Nat.add_comm]

/-- The L2 writer-side publication emits exactly one `TopOfBookUpdate`
when the cached value fields differ from the fresh candidate, and none
otherwise. -/
lemma notify_events_count (s : OrderBookL2) (ts : Nat) :
    countTob (s.notifyTopOfBookIfChanged ts).2 =
      if s.cached_tob.fields4 = s.freshTobFields then 0 else 1 := by
  unfold OrderBookL2.notifyTopOfBookIfChanged
  dsimp only
  split
  next hch =>
    rw [if_neg ?_]
    · simp
    · intro heq
      simp only [TopOfBook.fields4, OrderBookL2.freshTobFields, Prod.mk.injEq] at heq
      obtain ⟨e1, e2, e3, e4⟩ := heq
      rcases hch with h | h
      · rcases h with h | h
        · exact h e1
        · exact h e2
      · rcases h with h | h
        · exact h e3
        · exact h e4
  next hch =>
    push_neg at hch
    obtain ⟨⟨e1, e2⟩, e3, e4⟩ := hch
    rw [if_pos ?_]
    · simp
    · simp only [TopOfBook.fields4, OrderBookL2.freshTobFields, Prod.mk.injEq]
      exact ⟨e1, e2, e3, e4⟩

lemma updateLevel_countTob_false (s : OrderBookL2) (side : Side) (p q : Int)
    (ts seq : Nat) :
    countTob (s.updateLevel side p q ts seq false).2 = 0 := by
  unfold OrderBookL2.updateLevel
  by_cases hst : seqStale s.last_seq_num seq
  · rw [if_pos hst]; rfl
  · rw [if_neg hst]
    dsimp only
    by_cases hq : q = 0
    · rw [if_pos hq]
      cases hfind : findLevelIdx side p ((s.seqGate seq).sideLevels side) with
      | none => simp [hfind]
      | some i =>
        simp only [hfind]
        rw [if_neg (by simp)]
        simp
    · rw [if_neg hq]
      rw [if_neg (by simp)]
      simp

lemma updateLevel_countTob_le_one (s : OrderBookL2) (side : Side) (p q : Int)
    (ts seq : Nat) (b : Bool) :
    countTob (s.updateLevel side p q ts seq b).2 ≤ 1 := by
  unfold OrderBookL2.updateLevel
  by_cases hst : seqStale s.last_seq_num seq
  · rw [if_pos hst]; simp
  · rw [if_neg hst]
    dsimp only
    by_cases hq : q = 0
    · rw [if_pos hq]
      cases hfind : findLevelIdx side p ((s.seqGate seq).sideLevels side) with
      | none => simp [hfind]
      | some i =>
        simp only [hfind]
        split
        · rw [countTob_priceLevel_cons, notify_events_count]
          split <;> simp
        · simp
    · rw [if_neg hq]
      split
      · rw [countTob_priceLevel_cons, notify_events_count]
        split <;> simp
      · simp

/-- A `min`-fold over naturals hits zero exactly when the seed or an
element is zero. -/
lemma foldl_min_eq_zero : ∀ (t : List Nat) (b : Nat),
    List.foldl min b t = 0 ↔ b = 0 ∨ 0 ∈ t := by
  intro t
  induction t with
  | nil => intro b; simp
  | cons a t ih =>
    intro b
    rw [List.foldl_cons, ih]
    have hmin : min b a = 0 ↔ b = 0 ∨ a = 0 := by omega
    rw [hmin]
    simp only [List.mem_cons, eq_comm]
    tauto

lemma l2TouchedIdx_isSome {s : OrderBookL2} {c : L2Call}
    (h1 : ¬ seqStale s.last_seq_num c.seq_num)
    (h2 : c.quantity ≠ 0 ∨ (findLevelIdx c.side c.price (s.sideLevels c.side)).isSome) :
    ∃ j, l2TouchedIdx s c = some j := by
  unfold l2TouchedIdx
  rw [if_neg h1]
  by_cases hq : c.quantity = 0
  · rw [if_pos hq]
    rcases h2 with h2 | h2
    · exact absurd hq h2
    · cases hfind : findLevelIdx c.side c.price (s.sideLevels c.side) with
      | none => rw [hfind] at h2; simp at h2
      | some i => exact ⟨i % 65536, rfl⟩
  · rw [if_neg hq]
    exact ⟨_, rfl⟩

lemma l2AllEmitting_cons {s : OrderBookL2} {c : L2Call} {cs : List L2Call}
    (h : l2AllEmitting s (c :: cs) = true) :
    ¬ seqStale s.last_seq_num c.seq_num ∧
    (c.quantity ≠ 0 ∨ (findLevelIdx c.side c.price (s.sideLevels c.side)).isSome) ∧
    l2AllEmitting ((s.applyCall c false).1) cs = true := by
  unfold l2AllEmitting at h
  simp only [Bool.and_eq_true, Bool.not_eq_true', decide_eq_false_iff_not,
    Bool.or_eq_true, bne_iff_ne] at h
  obtain ⟨⟨hst, hp⟩, hrest⟩ := h
  exact ⟨hst, hp, hrest⟩

/-- An intermediate (`is_last_in_batch = false`) emitting call: records
the minimum touched index, touches neither the cache nor emits any
`TopOfBookUpdate`. -/
lemma updateLevel_nonlast_emitting (s : OrderBookL2) (c : L2Call) (j : Nat)
    (he : l2TouchedIdx s c = some j) :
    ((s.applyCall c false).1).change_starting_index = min s.change_starting_index j ∧
    ((s.applyCall c false).1).cached_tob = s.cached_tob ∧
    countTob (s.applyCall c false).2 = 0 := by
  unfold l2TouchedIdx at he
  unfold OrderBookL2.applyCall OrderBookL2.updateLevel
  by_cases hst : seqStale s.last_seq_num c.seq_num
  · rw [if_pos hst] at he; simp at he
  · rw [if_neg hst] at he
    rw [if_neg hst]
    dsimp only
    by_cases hq : c.quantity = 0
    · rw [if_pos hq] at he ⊢
      simp only [OrderBookL2.sideLevels_seqGate]
      cases hfind : findLevelIdx c.side c.price (s.sideLevels c.side) with
      | none => rw [hfind] at he; simp at he
      | some i =>
        rw [hfind] at he
        have hj : i % 65536 = j := by simpa using he
        dsimp only
        rw [if_neg (by simp)]
        refine ⟨?_, by simp, by simp⟩
        simp [hj]
    · rw [if_neg hq] at he ⊢
      have hj : (insertOrUpdate c.side c.price c.quantity c.timestamp
          (s.sideLevels c.side)).2.1 % 65536 = j := by simpa using he
      simp only [OrderBookL2.sideLevels_seqGate]
      rw [if_neg (by simp)]
      refine ⟨?_, by simp, by simp⟩
      simp [hj]

@[simp] lemma freshTobFields_csiSet (s : OrderBookL2) (n : Nat) :
    ({ s with change_starting_index := n } : OrderBookL2).freshTobFields =
      s.freshTobFields := rfl

/-- Reduce the fresh candidate of a literal state to its containers. -/
@[simp] lemma freshTobFields_mk (sym : Nat) (bids asks : List PriceLevelL2)
    (ct : TopOfBook) (cbb cba : PriceLevelL2) (tq lsn csi : Nat) :
    (OrderBookL2.mk sym bids asks ct cbb cba tq lsn csi).freshTobFields =
      ((match bids.head? with | some l => l.price | none => 0),
       (match bids.head? with | some l => l.quantity | none => 0),
       (match asks.head? with | some l => l.price | none => 0),
       (match asks.head? with | some l => l.quantity | none => 0)) := rfl

/-- The closing (`is_last_in_batch = true`) emitting call: exactly one
`TopOfBookUpdate` is emitted when the minimum recorded index hits zero
and the fresh candidate differs from the cached value, none otherwise. -/
lemma updateLevel_last_emitting (s : OrderBookL2) (c : L2Call) (j : Nat)
    (he : l2TouchedIdx s c = some j) :
    countTob (s.applyCall c true).2 =
      if min s.change_starting_index j = 0 ∧
          s.cached_tob.fields4 ≠ ((s.applyCall c true).1).freshTobFields
      then 1 else 0 := by
  unfold l2TouchedIdx at he
  unfold OrderBookL2.applyCall OrderBookL2.updateLevel
  by_cases hst : seqStale s.last_seq_num c.seq_num
  · rw [if_pos hst] at he; simp at he
  · rw [if_neg hst] at he
    rw [if_neg hst]
    dsimp only
    by_cases hq : c.quantity = 0
    · rw [if_pos hq] at he ⊢
      simp only [OrderBookL2.sideLevels_seqGate]
      cases hfind : findLevelIdx c.side c.price (s.sideLevels c.side) with
      | none => rw [hfind] at he; simp at he
      | some i =>
        rw [hfind] at he
        have hj : i % 65536 = j := by simpa using he
        dsimp only
        by_cases hmin0 : min (s.seqGate c.seq_num).change_starting_index (i % 65536) = 0
        · rw [if_pos ⟨hmin0, by trivial⟩]
          have hminj : min s.change_starting_index j = 0 := by
            rw [OrderBookL2.seqGate_csi, hj] at hmin0
            exact hmin0
          rw [countTob_priceLevel_cons, notify_events_count, hminj]
          simp only [freshTobFields_mk, OrderBookL2.notify_bids,
            OrderBookL2.notify_asks, OrderBookL2.setSide_cached,
            OrderBookL2.seqGate_cached]
          split
          next heq => simp [heq]
          next heq => simp [heq]
        · rw [if_neg (fun hand => hmin0 hand.1)]
          rw [OrderBookL2.seqGate_csi, hj] at hmin0
          simp only [countTob_priceLevel_cons, countTob_nil]
          rw [if_neg (fun hand => hmin0 hand.1)]
    · rw [if_neg hq] at he ⊢
      have hj : (insertOrUpdate c.side c.price c.quantity c.timestamp
          (s.sideLevels c.side)).2.1 % 65536 = j := by simpa using he
      simp only [OrderBookL2.sideLevels_seqGate]
      by_cases hmin0 : min (s.seqGate c.seq_num).change_starting_index
          ((insertOrUpdate c.side c.price c.quantity c.timestamp
            (s.sideLevels c.side)).2.1 % 65536) = 0
      · rw [if_pos ⟨hmin0, by trivial⟩]
        have hminj : min s.change_starting_index j = 0 := by
          rw [OrderBookL2.seqGate_csi, hj] at hmin0
          exact hmin0
        rw [countTob_priceLevel_cons, notify_events_count, hminj]
        simp only [freshTobFields_mk, OrderBookL2.notify_bids,
          OrderBookL2.notify_asks, OrderBookL2.setSide_cached,
          OrderBookL2.seqGate_cached]
        split
        next heq => simp [heq]
        next heq => simp [heq]
      · rw [if_neg (fun hand => hmin0 hand.1)]
        rw [OrderBookL2.seqGate_csi, hj] at hmin0
        simp only [countTob_priceLevel_cons, countTob_nil]
        rw [if_neg (fun hand => hmin0 hand.1)]

/-- Characterization of the batch emission: one `TopOfBookUpdate` exactly
when the `min`-fold of the recorded indices hits zero and the fresh value
at the close differs from the cached value at the batch start. -/
lemma runL2Batch_tob_char : ∀ (calls : List L2Call) (s : OrderBookL2),
    calls ≠ [] → l2AllEmitting s calls = true →
    countTob (runL2Batch s calls).2 =
      if List.foldl min s.change_starting_index (l2TouchedIdxs s calls) = 0 ∧
          s.cached_tob.fields4 ≠ ((runL2Batch s calls).1).freshTobFields
      then 1 else 0 := by
  intro calls
  induction calls with
  | nil => intro s h; exact absurd rfl h
  | cons c cs ih =>
    intro s _ hemit
    obtain ⟨hst, hpath, hrest⟩ := l2AllEmitting_cons hemit
    obtain ⟨j, hj⟩ := l2TouchedIdx_isSome hst hpath
    cases cs with
    | nil =>
      have htl : l2TouchedIdxs s [c] = [j] := by
        unfold l2TouchedIdxs
        rw [hj]
        rfl
      show countTob (s.applyCall c true).2 = _
      rw [htl]
      exact updateLevel_last_emitting s c j hj
    | cons c2 cs2 =>
      obtain ⟨hcsi1, hcached1, htob1⟩ := updateLevel_nonlast_emitting s c j hj
      have htl : l2TouchedIdxs s (c :: c2 :: cs2) =
          j :: l2TouchedIdxs ((s.applyCall c false).1) (c2 :: cs2) := by
        unfold l2TouchedIdxs
        rw [hj]
        rfl
      have ihh := ih ((s.applyCall c false).1) (by simp) hrest
      show countTob ((s.applyCall c false).2 ++
        (runL2Batch ((s.applyCall c false).1) (c2 :: cs2)).2) = _
      rw [countTob_append, htob1, htl, List.foldl_cons, ← hcsi1, ← hcached1]
      simpa using ihh

lemma runL2Batch_tob_le : ∀ (calls : List L2Call) (s : OrderBookL2),
    countTob (runL2Batch s calls).2 ≤ 1 := by
  intro calls
  induction calls with
  | nil => intro s; simp [runL2Batch]
  | cons c cs ih =>
    intro s
    cases cs with
    | nil =>
      exact updateLevel_countTob_le_one s c.side c.price c.quantity c.timestamp
        c.seq_num true
    | cons c2 cs2 =>
      show countTob ((s.applyCall c false).2 ++
        (runL2Batch ((s.applyCall c false).1) (c2 :: cs2)).2) ≤ 1
      rw [countTob_append]
      have h0 : countTob (s.applyCall c false).2 = 0 :=
        updateLevel_countTob_false s c.side c.price c.quantity c.timestamp c.seq_num
      rw [h0]
      simpa using ih ((s.applyCall c false).1)

/-! ## Lemmas: L3 order queues -/

lemma insertByPriority_perm (o : Order) :
    ∀ l : List Order, List.Perm (insertByPriority o l) (o :: l) := by
  intro l
  induction l with
  | nil => simp [insertByPriority]
  | cons x xs ih =>
    simp only [insertByPriority]
    by_cases h : x.priority ≤ o.priority
    · rw [if_pos h]
      exact (ih.cons x).trans (List.Perm.swap o x xs)
    · rw [if_neg h]

lemma mem_insertByPriority {o x : Order} {l : List Order} :
    x ∈ insertByPriority o l ↔ x = o ∨ x ∈ l := by
  rw [(insertByPriority_perm o l).mem_iff]
  simp

lemma insertByPriority_sorted {o : Order} :
    ∀ {l : List Order}, l.Pairwise (fun a b => a.priority ≤ b.priority) →
      (insertByPriority o l).Pairwise (fun a b => a.priority ≤ b.priority) := by
  intro l
  induction l with
  | nil => intro _; simp [insertByPriority]
  | cons x xs ih =>
    intro hs
    rcases List.pairwise_cons.1 hs with ⟨hx, hxs⟩
    simp only [insertByPriority]
    by_cases h : x.priority ≤ o.priority
    · rw [if_pos h]
      refine List.pairwise_cons.2 ⟨?_, ih hxs⟩
      intro y hy
      rcases mem_insertByPriority.1 hy with h2 | h2
      · rw [h2]; exact h
      · exact hx y h2
    · rw [if_neg h]
      refine List.pairwise_cons.2 ⟨?_, hs⟩
      intro y hy
      rcases List.mem_cons.1 hy with h2 | h2
      · rw [h2]; omega
      · have := hx y h2
        omega

/-- The walk splices the new order after every resident of equal or
lower priority value and before the first strictly greater one: a stable
tail-append among equals. -/
lemma insertByPriority_splits {o : Order} :
    ∀ {l : List Order}, l.Pairwise (fun a b => a.priority ≤ b.priority) →
      insertByPriority o l =
        l.takeWhile (fun x => decide (x.priority ≤ o.priority)) ++
          o :: l.dropWhile (fun x => decide (x.priority ≤ o.priority)) := by
  intro l
  induction l with
  | nil => intro _; simp [insertByPriority]
  | cons x xs ih =>
    intro hs
    rcases List.pairwise_cons.1 hs with ⟨_, hxs⟩
    simp only [insertByPriority, List.takeWhile, List.dropWhile]
    by_cases h : x.priority ≤ o.priority
    · rw [if_pos h]
      simp only [decide_eq_true h]
      rw [ih hxs]
      rfl
    · rw [if_neg h]
      simp only [decide_eq_false h]
      rfl

lemma removeOrderById_sublist (id : Nat) :
    ∀ l : List Order, List.Sublist (removeOrderById id l) l := by
  intro l
  induction l with
  | nil => simp [removeOrderById]
  | cons x xs ih =>
    simp only [removeOrderById]
    by_cases h : x.order_id = id
    · rw [if_pos h]
      exact List.sublist_cons_self x xs
    · rw [if_neg h]
      exact ih.cons₂ x

/-- Removing the id of the unique matching record: the original queue is
a permutation of that record consed onto the result. -/
lemma removeOrderById_perm {id : Nat} {o : Order} :
    ∀ {l : List Order}, o ∈ l → o.order_id = id →
      (∀ x ∈ l, x.order_id = id → x = o) →
      List.Perm l (o :: removeOrderById id l) := by
  intro l
  induction l with
  | nil => intro h; simp at h
  | cons x xs ih =>
    intro hmem hid huniq
    simp only [removeOrderById]
    by_cases h : x.order_id = id
    · rw [if_pos h]
      have hx : x = o := huniq x (List.mem_cons_self x xs) h
      rw [hx]
    · rw [if_neg h]
      have ho : o ∈ xs := by
        rcases List.mem_cons.1 hmem with h2 | h2
        · exact absurd (by rw [← h2]; exact hid) h
        · exact h2
      have := ih ho hid (fun y hy hyid => huniq y (List.mem_cons_of_mem x hy) hyid)
      exact (this.cons x).trans (List.Perm.swap o x (removeOrderById id xs))

lemma find?_eq_of_unique {o : Order} :
    ∀ {l : List Order}, o ∈ l →
      (∀ x ∈ l, x.order_id = o.order_id → x = o) →
      l.find? (fun x => x.order_id == o.order_id) = some o := by
  intro l
  induction l with
  | nil => intro h; simp at h
  | cons x xs ih =>
    intro hmem huniq
    by_cases h : x.order_id = o.order_id
    · have hx : x = o := huniq x (List.mem_cons_self x xs) h
      rw [List.find?_cons_of_pos _ (by simp [h])]
      rw [hx]
    · rw [List.find?_cons_of_neg _ (by simp [h])]
      have ho : o ∈ xs := by
        rcases List.mem_cons.1 hmem with h2 | h2
        · exact absurd (by rw [h2]) h
        · exact h2
      exact ih ho (fun y hy hyid => huniq y (List.mem_cons_of_mem x hy) hyid)

/-! ## Lemmas: L3 level maps -/

lemma findLevelIdx3_lt {p : Int} :
    ∀ {ls : List PriceLevelL3} {i : Nat},
      findLevelIdx3 p ls = some i → i < ls.length := by
  intro ls
  induction ls with
  | nil => intro i h; simp [findLevelIdx3] at h
  | cons l ls ih =>
    intro i h
    simp only [findLevelIdx3] at h
    by_cases h1 : l.price = p
    · rw [if_pos h1] at h
      have : i = 0 := by simpa using h.symm
      simp [this]
    · rw [if_neg h1] at h
      rcases Option.map_eq_some'.1 h with ⟨j, hj, rfl⟩
      simpa using Nat.succ_lt_succ (ih hj)

lemma findLevelIdx3_get {p : Int} :
    ∀ {ls : List PriceLevelL3} {i : Nat} (h : findLevelIdx3 p ls = some i),
      (ls.get ⟨i, findLevelIdx3_lt h⟩).price = p := by
  intro ls
  induction ls with
  | nil => intro i h; simp [findLevelIdx3] at h
  | cons l ls ih =>
    intro i h
    simp only [findLevelIdx3] at h
    by_cases h1 : l.price = p
    · have : i = 0 := by
        rw [if_pos h1] at h
        simpa using h.symm
      subst this
      simpa using h1
    · rw [if_neg h1] at h
      rcases Option.map_eq_some'.1 h with ⟨j, hj, rfl⟩
      simpa using ih hj

lemma findLevelIdx3_none {p : Int} :
    ∀ {ls : List PriceLevelL3}, findLevelIdx3 p ls = none →
      ∀ lvl ∈ ls, lvl.price ≠ p := by
  intro ls
  induction ls with
  | nil => intro _ lvl h; simp at h
  | cons l ls ih =>
    intro h lvl hmem
    simp only [findLevelIdx3] at h
    by_cases h1 : l.price = p
    · rw [if_pos h1] at h; simp at h
    · rw [if_neg h1] at h
      rcases List.mem_cons.1 hmem with h2 | h2
      · rw [h2]; exact h1
      · exact ih (by simpa using h) lvl h2

lemma insertLevelSorted_perm (side : Side) (lvl : PriceLevelL3) :
    ∀ ls : List PriceLevelL3,
      List.Perm (insertLevelSorted side lvl ls).1 (lvl :: ls) := by
  intro ls
  induction ls with
  | nil => simp [insertLevelSorted]
  | cons x xs ih =>
    simp only [insertLevelSorted]
    by_cases h : sideBefore side x.price lvl.price
    · rw [if_pos h]
      exact (ih.cons x).trans (List.Perm.swap lvl x xs)
    · rw [if_neg h]

lemma mem_insertLevelSorted {side : Side} {lvl x : PriceLevelL3}
    {ls : List PriceLevelL3} :
    x ∈ (insertLevelSorted side lvl ls).1 ↔ x = lvl ∨ x ∈ ls := by
  rw [(insertLevelSorted_perm side lvl ls).mem_iff]
  simp

lemma insertLevelSorted_idx_lt (side : Side) (lvl : PriceLevelL3) :
    ∀ ls : List PriceLevelL3,
      (insertLevelSorted side lvl ls).2 < (insertLevelSorted side lvl ls).1.length := by
  intro ls
  induction ls with
  | nil => simp [insertLevelSorted]
  | cons x xs ih =>
    simp only [insertLevelSorted]
    by_cases h : sideBefore side x.price lvl.price
    · rw [if_pos h]
      simpa using ih
    · rw [if_neg h]
      simp

lemma insertLevelSorted_getq (side : Side) (lvl : PriceLevelL3) :
    ∀ ls : List PriceLevelL3,
      (insertLevelSorted side lvl ls).1.get? (insertLevelSorted side lvl ls).2 =
        some lvl := by
  intro ls
  induction ls with
  | nil => simp [insertLevelSorted]
  | cons x xs ih =>
    simp only [insertLevelSorted]
    by_cases h : sideBefore side x.price lvl.price
    · rw [if_pos h]
      simpa using ih
    · rw [if_neg h]
      simp

lemma insertLevelSorted_sorted {side : Side} {lvl : PriceLevelL3}
    {ls : List PriceLevelL3}
    (hs : ls.Pairwise (fun a b => sideBefore side a.price b.price = true))
    (habs : ∀ x ∈ ls, x.price ≠ lvl.price) :
    (insertLevelSorted side lvl ls).1.Pairwise
      (fun a b => sideBefore side a.price b.price = true) := by
  induction ls with
  | nil => simp [insertLevelSorted]
  | cons x xs ih =>
    rcases List.pairwise_cons.1 hs with ⟨hx, hxs⟩
    simp only [insertLevelSorted]
    by_cases h : sideBefore side x.price lvl.price
    · rw [if_pos h]
      refine List.pairwise_cons.2 ⟨?_, ih hxs (fun y hy => habs y (List.mem_cons_of_mem x hy))⟩
      intro y hy
      rcases mem_insertLevelSorted.1 hy with h2 | h2
      · rw [h2]; exact h
      · exact hx y h2
    · rw [if_neg h]
      refine List.pairwise_cons.2 ⟨?_, hs⟩
      intro y hy
      have hlx : sideBefore side lvl.price x.price = true :=
        sideBefore_total (by simpa using h)
          (fun he => habs x (List.mem_cons_self x xs) he)
      rcases List.mem_cons.1 hy with h2 | h2
      · rw [h2]; exact hlx
      · exact sideBefore_trans hlx (hx y h2)

lemma modifyLevelAt_length (f : PriceLevelL3 → PriceLevelL3) :
    ∀ (i : Nat) (ls : List PriceLevelL3),
      (modifyLevelAt f i ls).1.length = ls.length := by
  intro i
  induction i with
  | zero => intro ls; cases ls <;> simp [modifyLevelAt]
  | succ n ih =>
    intro ls
    cases ls with
    | nil => simp [modifyLevelAt]
    | cons l ls => simpa [modifyLevelAt] using ih ls

lemma modifyLevelAt_mem {f : PriceLevelL3 → PriceLevelL3} :
    ∀ {i : Nat} {ls : List PriceLevelL3} {x : PriceLevelL3},
      x ∈ (modifyLevelAt f i ls).1 → (∃ y ∈ ls, x = f y) ∨ x ∈ ls := by
  intro i
  induction i with
  | zero =>
    intro ls x hx
    cases ls with
    | nil => simp [modifyLevelAt] at hx
    | cons l ls =>
      simp only [modifyLevelAt] at hx
      rcases List.mem_cons.1 hx with h | h
      · exact Or.inl ⟨l, List.mem_cons_self l ls, h⟩
      · exact Or.inr (List.mem_cons_of_mem l h)
  | succ n ih =>
    intro ls x hx
    cases ls with
    | nil => simp [modifyLevelAt] at hx
    | cons l ls =>
      simp only [modifyLevelAt] at hx
      rcases List.mem_cons.1 hx with h | h
      · exact Or.inr (by rw [h]; exact List.mem_cons_self l ls)
      · rcases ih h with h2 | h2
        · rcases h2 with ⟨y, hy, hxy⟩
          exact Or.inl ⟨y, List.mem_cons_of_mem l hy, hxy⟩
        · exact Or.inr (List.mem_cons_of_mem l h2)

/-- At an in-range index, `modifyLevelAt` is `List.set` with the mutated
level, and it returns the mutated level's total. -/
lemma modifyLevelAt_set (f : PriceLevelL3 → PriceLevelL3) :
    ∀ (i : Nat) (ls : List PriceLevelL3) (h : i < ls.length),
      (modifyLevelAt f i ls).1 = ls.set i (f (ls.get ⟨i, h⟩)) ∧
      (modifyLevelAt f i ls).2 = (f (ls.get ⟨i, h⟩)).total_quantity := by
  intro i
  induction i with
  | zero =>
    intro ls h
    cases ls with
    | nil => simp at h
    | cons l ls => simp [modifyLevelAt]
  | succ n ih =>
    intro ls h
    cases ls with
    | nil => simp at h
    | cons l ls =>
      have := ih ls (by simpa using h)
      simp only [modifyLevelAt, List.set, List.get]
      exact ⟨by rw [this.1], this.2⟩

lemma removeLevelIfEmptyList_sublist (p : Int) :
    ∀ ls : List PriceLevelL3,
      List.Sublist (removeLevelIfEmptyList p ls).1 ls := by
  intro ls
  induction ls with
  | nil => simp [removeLevelIfEmptyList]
  | cons l ls ih =>
    simp only [removeLevelIfEmptyList]
    by_cases h : l.price = p
    · rw [if_pos h]
      by_cases he : l.orders.isEmpty
      · rw [if_pos he]
        exact List.sublist_cons_self l ls
      · rw [if_neg he]
    · rw [if_neg h]
      exact ih.cons₂ l

lemma mem_removeLevelIfEmptyList {p : Int} {x : PriceLevelL3}
    {ls : List PriceLevelL3} (h : x ∈ (removeLevelIfEmptyList p ls).1) : x ∈ ls :=
  (removeLevelIfEmptyList_sublist p ls).mem h

/-- After `removeLevelIfEmpty`, every surviving level at the target
price is populated (prices are unique in a sorted side). -/
lemma removeLevelIfEmptyList_no_empty_at {p : Int} :
    ∀ {ls : List PriceLevelL3},
      ls.Pairwise (fun a b => a.price ≠ b.price) →
      (∀ lvl ∈ ls, lvl.price ≠ p → lvl.orders ≠ []) →
      ∀ lvl ∈ (removeLevelIfEmptyList p ls).1, lvl.orders ≠ [] := by
  intro ls
  induction ls with
  | nil => intro _ _ lvl h; simp [removeLevelIfEmptyList] at h
  | cons l ls ih =>
    intro hnd hpop lvl hmem
    rcases List.pairwise_cons.1 hnd with ⟨hl, hls⟩
    simp only [removeLevelIfEmptyList] at hmem
    by_cases h : l.price = p
    · rw [if_pos h] at hmem
      by_cases he : l.orders.isEmpty
      · rw [if_pos he] at hmem
        have hne : lvl.price ≠ p := by
          intro hp
          exact (hl lvl hmem) (h.trans hp.symm)
        exact hpop lvl (List.mem_cons_of_mem l hmem) hne
      · rw [if_neg he] at hmem
        rcases List.mem_cons.1 hmem with h2 | h2
        · rw [h2]
          simpa [List.isEmpty_iff] using he
        · have hne : lvl.price ≠ p := by
            intro hp
            exact (hl lvl h2) (h.trans hp.symm)
          exact hpop lvl (List.mem_cons_of_mem l h2) hne
    · rw [if_neg h] at hmem
      rcases List.mem_cons.1 hmem with h2 | h2
      · rw [h2]
        exact hpop l (List.mem_cons_self l ls) h
      · exact ih hls (fun y hy => hpop y (List.mem_cons_of_mem l hy)) lvl h2

/-! ## Lemmas: L3 top-of-book publication (claim C5) -/

lemma l3_freshTobFields_congr {s t : OrderBookL3} (h1 : s.bids.head? = t.bids.head?)
    (h2 : s.asks.head? = t.asks.head?) : s.freshTobFields = t.freshTobFields := by
  unfold OrderBookL3.freshTobFields
  rw [h1, h2]

@[simp] lemma l3_freshTobFields_notify (s : OrderBookL3) (ts flags : Nat) :
    ((s.notifyTopOfBookIfChanged ts flags).1).freshTobFields = s.freshTobFields :=
  l3_freshTobFields_congr (by simp) (by simp)

lemma l3_notify_skip (s : OrderBookL3) (ts flags : Nat)
    (h : flags &&& LastInBatch = 0) :
    s.notifyTopOfBookIfChanged ts flags = (s, []) := by
  unfold OrderBookL3.notifyTopOfBookIfChanged
  rw [if_pos h]

lemma l3_notify_count_le (s : OrderBookL3) (ts flags : Nat) :
    countTob (s.notifyTopOfBookIfChanged ts flags).2 ≤ 1 := by
  unfold OrderBookL3.notifyTopOfBookIfChanged
  dsimp only
  split
  · simp
  split <;> simp

lemma l3_notify_count (s : OrderBookL3) (ts flags : Nat)
    (h : ¬ flags &&& LastInBatch = 0) :
    countTob (s.notifyTopOfBookIfChanged ts flags).2 =
      if s.freshTobFields = s.cached_tob.fields4 then 0 else 1 := by
  unfold OrderBookL3.notifyTopOfBookIfChanged
  rw [if_neg h]
  dsimp only
  split
  next hch =>
    rw [if_neg ?_]
    · simp
    · intro heq
      simp only [OrderBookL3.freshTobFields, TopOfBook.fields4, Prod.mk.injEq] at heq
      obtain ⟨e1, e2, e3, e4⟩ := heq
      rcases hch with h' | h'
      · rcases h' with h' | h'
        · exact h' e1.symm
        · exact h' e2.symm
      · rcases h' with h' | h'
        · exact h' e3.symm
        · exact h' e4.symm
  next hch =>
    push_neg at hch
    obtain ⟨⟨e1, e2⟩, e3, e4⟩ := hch
    rw [if_pos ?_]
    · simp
    · simp only [OrderBookL3.freshTobFields, TopOfBook.fields4, Prod.mk.injEq]
      exact ⟨e1.symm, e2.symm, e3.symm, e4.symm⟩

/-- A closing call always carries `LastInBatch` in the flags it hands to
the publication check. -/
lemma flags_last_ne (a : Nat) :
    ¬ (a ||| (if (true : Bool) then LastInBatch else 0)) &&& LastInBatch = 0 := by
  have h4 : (if (true : Bool) then LastInBatch else 0) = 4 := rfl
  rw [h4, show LastInBatch = 4 from rfl, Nat.and_distrib_right]
  intro h
  have h3 : Nat.testBit (a &&& 4 ||| (4 : Nat) &&& 4) 2 = true := by
    rw [Nat.testBit_or]
    simp
    exact Or.inr (by decide)
  rw [h] at h3
  simp at h3

/-- Plain-`LastInBatch` form of the closing-call flag fact (the shape
left after reducing the batch-flag conditional). -/
lemma flags_last_ne2 (a : Nat) :
    ¬ (a ||| LastInBatch) &&& LastInBatch = 0 := by
  rw [show LastInBatch = 4 from rfl, Nat.and_distrib_right]
  intro h
  have h3 : Nat.testBit (a &&& 4 ||| (4 : Nat) &&& 4) 2 = true := by
    rw [Nat.testBit_or]
    simp
    exact Or.inr (by decide)
  rw [h] at h3
  simp at h3

/-- A non-closing call never carries `LastInBatch`: `deleteOrder` /
`addOrModifyOrder` flag shape. -/
lemma l3_notify_skip_du (t : OrderBookL3) (ts : Nat) :
    t.notifyTopOfBookIfChanged ts (PriceChanged ||| QuantityChanged |||
      (if (false : Bool) then LastInBatch else 0)) = (t, []) :=
  l3_notify_skip t ts _ (by decide)

/-- `modifyOrder` quantity-only flag shape, non-closing call. -/
lemma l3_notify_skip_q (t : OrderBookL3) (ts : Nat) :
    t.notifyTopOfBookIfChanged ts (QuantityChanged |||
      (if (false : Bool) then LastInBatch else 0)) = (t, []) :=
  l3_notify_skip t ts _ (by decide)

/-- `modifyOrder` price-change flag shape, non-closing call. -/
lemma l3_notify_skip_pc (t : OrderBookL3) (ts : Nat) (c : Prop) [Decidable c] :
    t.notifyTopOfBookIfChanged ts (PriceChanged |||
      (if c then QuantityChanged else 0) |||
      (if (false : Bool) then LastInBatch else 0)) = (t, []) :=
  l3_notify_skip t ts _ (by
    have hx : (if c then QuantityChanged else 0) &&& LastInBatch = 0 := by
      split <;> decide
    rw [Nat.and_distrib_right, Nat.and_distrib_right, hx]
    decide)

lemma deleteOrder_tob_nonlast (s : OrderBookL3) (id seq : Nat) :
    (s.deleteOrder id seq false).book.cached_tob = s.cached_tob ∧
    countTob (s.deleteOrder id seq false).events = 0 := by
  unfold OrderBookL3.deleteOrder
  by_cases hst : seqStale s.last_seq_num seq
  · rw [if_pos hst]
    exact ⟨rfl, rfl⟩
  · rw [if_neg hst]
    dsimp only
    cases hf : (s.seqGate seq).findOrder id with
    | none => simp
    | some order =>
      cases hfl : findLevelIdx3 order.price (s.sideLevels order.side) with
      | none => simp [hfl]
      | some idx =>
        simp only [OrderBookL3.sideLevels_seqGate3, hfl]
        rw [l3_notify_skip_du]
        simp

lemma deleteOrder_tob_last (s : OrderBookL3) (id seq : Nat)
    (hok : (s.deleteOrder id seq true).ok = true) :
    countTob (s.deleteOrder id seq true).events =
      if (s.deleteOrder id seq true).book.freshTobFields = s.cached_tob.fields4
      then 0 else 1 := by
  unfold OrderBookL3.deleteOrder at hok ⊢
  by_cases hst : seqStale s.last_seq_num seq
  · rw [if_pos hst] at hok
    simp at hok
  · rw [if_neg hst] at hok ⊢
    dsimp only at hok ⊢
    cases hf : (s.seqGate seq).findOrder id with
    | none => simp [hf] at hok
    | some order =>
      cases hfl : findLevelIdx3 order.price (s.sideLevels order.side) with
      | none => simp [hf, hfl] at hok
      | some idx =>
        simp only [OrderBookL3.sideLevels_seqGate3, hfl, if_true]
        rw [countTob_order_cons, countTob_priceLevel_cons,
          l3_notify_count _ _ _ (flags_last_ne2 _)]
        simp

lemma deleteOrder_tob_le (s : OrderBookL3) (id seq : Nat) (b : Bool) :
    countTob (s.deleteOrder id seq b).events ≤ 1 := by
  unfold OrderBookL3.deleteOrder
  by_cases hst : seqStale s.last_seq_num seq
  · rw [if_pos hst]; simp
  · rw [if_neg hst]
    dsimp only
    cases hf : (s.seqGate seq).findOrder id with
    | none => simp
    | some order =>
      cases hfl : findLevelIdx3 order.price (s.sideLevels order.side) with
      | none => simp [hfl]
      | some idx =>
        simp only [OrderBookL3.sideLevels_seqGate3, hfl]
        rw [countTob_order_cons, countTob_priceLevel_cons]
        exact l3_notify_count_le _ _ _

lemma modifyOrder_tob_nonlast (s : OrderBookL3) (id : Nat) (p q : Int) (seq : Nat) :
    (s.modifyOrder id p q seq false).book.cached_tob = s.cached_tob ∧
    countTob (s.modifyOrder id p q seq false).events = 0 := by
  unfold OrderBookL3.modifyOrder
  by_cases hst : seqStale s.last_seq_num seq
  · rw [if_pos hst]
    exact ⟨rfl, rfl⟩
  · rw [if_neg hst]
    dsimp only
    cases hf : (s.seqGate seq).findOrder id with
    | none => simp
    | some order =>
      dsimp only
      by_cases hq1 : q < 0
      · rw [if_pos hq1]
        simp
      · rw [if_neg hq1]
        by_cases hq0 : q = 0
        · rw [if_pos hq0]
          have h := deleteOrder_tob_nonlast (s.seqGate seq) id seq
          simpa using h
        · rw [if_neg hq0]
          by_cases hno : p = order.price ∧ q = order.quantity
          · rw [if_pos hno]
            simp
          · rw [if_neg hno]
            by_cases hpc : p ≠ order.price
            · rw [if_pos hpc]
              cases hfl : findLevelIdx3 order.price (s.sideLevels order.side) with
              | none =>
                simp only [OrderBookL3.sideLevels_seqGate3, hfl, List.nil_append,
                  List.cons_append]
                rw [l3_notify_skip_pc]
                simp
              | some oidx =>
                simp only [OrderBookL3.sideLevels_seqGate3, hfl, List.nil_append,
                  List.cons_append]
                rw [l3_notify_skip_pc]
                simp
            · rw [if_neg hpc]
              dsimp only
              rw [l3_notify_skip_q]
              simp

lemma modifyOrder_tob_last (s : OrderBookL3) (id : Nat) (p q : Int) (seq : Nat)
    (hok : (s.modifyOrder id p q seq true).ok = true)
    (hev : (s.modifyOrder id p q seq true).events ≠ []) :
    countTob (s.modifyOrder id p q seq true).events =
      if (s.modifyOrder id p q seq true).book.freshTobFields = s.cached_tob.fields4
      then 0 else 1 := by
  unfold OrderBookL3.modifyOrder at hok hev ⊢
  by_cases hst : seqStale s.last_seq_num seq
  · rw [if_pos hst] at hok
    simp at hok
  · rw [if_neg hst] at hok hev ⊢
    dsimp only at hok hev ⊢
    cases hf : (s.seqGate seq).findOrder id with
    | none => simp [hf] at hok
    | some order =>
      simp only [hf] at hok hev ⊢
      by_cases hq1 : q < 0
      · rw [if_pos hq1] at hok
        simp at hok
      · rw [if_neg hq1] at hok hev ⊢
        by_cases hq0 : q = 0
        · rw [if_pos hq0] at hok hev ⊢
          have h := deleteOrder_tob_last (s.seqGate seq) id seq hok
          simpa using h
        · rw [if_neg hq0] at hok hev ⊢
          by_cases hno : p = order.price ∧ q = order.quantity
          · rw [if_pos hno] at hev
            simp at hev
          · rw [if_neg hno] at hok hev ⊢
            by_cases hpc : p ≠ order.price
            · rw [if_pos hpc] at hok hev ⊢
              cases hfl : findLevelIdx3 order.price (s.sideLevels order.side) with
              | none =>
                simp only [OrderBookL3.sideLevels_seqGate3, hfl, eq_self_iff_true,
                  if_true, List.nil_append, List.cons_append, countTob_order_cons,
                  countTob_priceLevel_cons]
                rw [l3_notify_count _ _ _ (flags_last_ne2 _)]
                simp
              | some oidx =>
                simp only [OrderBookL3.sideLevels_seqGate3, hfl, eq_self_iff_true,
                  if_true, List.nil_append, List.cons_append, countTob_order_cons,
                  countTob_priceLevel_cons]
                rw [l3_notify_count _ _ _ (flags_last_ne2 _)]
                simp
            · rw [if_neg hpc] at hok hev ⊢
              dsimp only
              simp only [eq_self_iff_true, if_true, countTob_order_cons,
                countTob_priceLevel_cons]
              rw [l3_notify_count _ _ _ (flags_last_ne2 _)]
              simp

lemma modifyOrder_tob_le (s : OrderBookL3) (id : Nat) (p q : Int) (seq : Nat)
    (b : Bool) :
    countTob (s.modifyOrder id p q seq b).events ≤ 1 := by
  unfold OrderBookL3.modifyOrder
  by_cases hst : seqStale s.last_seq_num seq
  · rw [if_pos hst]; simp
  · rw [if_neg hst]
    dsimp only
    cases hf : (s.seqGate seq).findOrder id with
    | none => simp
    | some order =>
      dsimp only
      by_cases hq1 : q < 0
      · rw [if_pos hq1]
        simp
      · rw [if_neg hq1]
        by_cases hq0 : q = 0
        · rw [if_pos hq0]
          exact deleteOrder_tob_le (s.seqGate seq) id seq b
        · rw [if_neg hq0]
          by_cases hno : p = order.price ∧ q = order.quantity
          · rw [if_pos hno]
            simp
          · rw [if_neg hno]
            by_cases hpc : p ≠ order.price
            · rw [if_pos hpc]
              cases hfl : findLevelIdx3 order.price (s.sideLevels order.side) with
              | none =>
                simp only [OrderBookL3.sideLevels_seqGate3, hfl, List.nil_append,
                  List.cons_append, countTob_order_cons, countTob_priceLevel_cons]
                exact l3_notify_count_le _ _ _
              | some oidx =>
                simp only [OrderBookL3.sideLevels_seqGate3, hfl, List.nil_append,
                  List.cons_append, countTob_order_cons, countTob_priceLevel_cons]
                exact l3_notify_count_le _ _ _
            · rw [if_neg hpc]
              dsimp only
              rw [countTob_order_cons, countTob_priceLevel_cons]
              exact l3_notify_count_le _ _ _

lemma addOrModifyOrder_tob_nonlast (s : OrderBookL3) (id : Nat) (side : Side)
    (p q : Int) (ts prio seq : Nat) :
    (s.addOrModifyOrder id side p q ts prio seq false).book.cached_tob = s.cached_tob ∧
    countTob (s.addOrModifyOrder id side p q ts prio seq false).events = 0 := by
  unfold OrderBookL3.addOrModifyOrder
  by_cases hst : seqStale s.last_seq_num seq
  · rw [if_pos hst]
    exact ⟨rfl, rfl⟩
  · rw [if_neg hst]
    dsimp only
    cases hf : (s.seqGate seq).findOrder id with
    | none =>
      dsimp only
      by_cases hq : q ≤ 0
      · rw [if_pos hq]
        simp
      · rw [if_neg hq]
        dsimp only
        rw [l3_notify_skip_du]
        simp
    | some order =>
      dsimp only
      by_cases hside : order.side ≠ side
      · rw [if_pos hside]
        simp
      · rw [if_neg hside]
        by_cases hq : q ≤ 0
        · rw [if_pos hq]
          by_cases hq0 : q = 0
          · rw [if_pos hq0]
            have h := deleteOrder_tob_nonlast (s.seqGate seq) id seq
            simpa using h
          · rw [if_neg hq0]
            simp
        · rw [if_neg hq]
          by_cases hid : order.price = p ∧ order.quantity = q
          · rw [if_pos hid]
            simp
          · rw [if_neg hid]
            have h := modifyOrder_tob_nonlast
              ((s.seqGate seq).setOrderTimestamp id ts) id p q seq
            simpa using h

lemma addOrModifyOrder_tob_last (s : OrderBookL3) (id : Nat) (side : Side)
    (p q : Int) (ts prio seq : Nat)
    (hok : (s.addOrModifyOrder id side p q ts prio seq true).ok = true)
    (hev : (s.addOrModifyOrder id side p q ts prio seq true).events ≠ []) :
    countTob (s.addOrModifyOrder id side p q ts prio seq true).events =
      if (s.addOrModifyOrder id side p q ts prio seq true).book.freshTobFields =
        s.cached_tob.fields4 then 0 else 1 := by
  unfold OrderBookL3.addOrModifyOrder at hok hev ⊢
  by_cases hst : seqStale s.last_seq_num seq
  · rw [if_pos hst] at hok
    simp at hok
  · rw [if_neg hst] at hok hev ⊢
    dsimp only at hok hev ⊢
    cases hf : (s.seqGate seq).findOrder id with
    | none =>
      simp only [hf] at hok hev ⊢
      by_cases hq : q ≤ 0
      · rw [if_pos hq] at hok
        simp at hok
      · rw [if_neg hq]
        dsimp only
        simp only [eq_self_iff_true, if_true, countTob_order_cons,
          countTob_priceLevel_cons]
        rw [l3_notify_count _ _ _ (flags_last_ne2 _)]
        simp
    | some order =>
      simp only [hf] at hok hev ⊢
      by_cases hside : order.side ≠ side
      · rw [if_pos hside] at hok
        simp at hok
      · simp only [if_neg hside] at hok hev ⊢
        by_cases hq : q ≤ 0
        · rw [if_pos hq] at hok hev ⊢
          by_cases hq0 : q = 0
          · rw [if_pos hq0] at hok hev ⊢
            have h := deleteOrder_tob_last (s.seqGate seq) id seq hok
            simpa using h
          · rw [if_neg hq0] at hok
            simp at hok
        · rw [if_neg hq] at hok hev ⊢
          by_cases hid : order.price = p ∧ order.quantity = q
          · rw [if_pos hid] at hev
            simp at hev
          · rw [if_neg hid] at hok hev ⊢
            have h := modifyOrder_tob_last
              ((s.seqGate seq).setOrderTimestamp id ts) id p q seq hok hev
            simpa using h

lemma addOrModifyOrder_tob_le (s : OrderBookL3) (id : Nat) (side : Side)
    (p q : Int) (ts prio seq : Nat) (b : Bool) :
    countTob (s.addOrModifyOrder id side p q ts prio seq b).events ≤ 1 := by
  unfold OrderBookL3.addOrModifyOrder
  by_cases hst : seqStale s.last_seq_num seq
  · rw [if_pos hst]; simp
  · rw [if_neg hst]
    dsimp only
    cases hf : (s.seqGate seq).findOrder id with
    | none =>
      dsimp only
      by_cases hq : q ≤ 0
      · rw [if_pos hq]
        simp
      · rw [if_neg hq]
        dsimp only
        rw [countTob_order_cons, countTob_priceLevel_cons]
        exact l3_notify_count_le _ _ _
    | some order =>
      dsimp only
      by_cases hside : order.side ≠ side
      · rw [if_pos hside]
        simp
      · rw [if_neg hside]
        by_cases hq : q ≤ 0
        · rw [if_pos hq]
          by_cases hq0 : q = 0
          · rw [if_pos hq0]
            exact deleteOrder_tob_le (s.seqGate seq) id seq b
          · rw [if_neg hq0]
            simp
        · rw [if_neg hq]
          by_cases hid : order.price = p ∧ order.quantity = q
          · rw [if_pos hid]
            simp
          · rw [if_neg hid]
            exact modifyOrder_tob_le ((s.seqGate seq).setOrderTimestamp id ts)
              id p q seq b

lemma addOrder_tob_nonlast (s : OrderBookL3) (id : Nat) (side : Side)
    (p q : Int) (ts prio seq : Nat) :
    (s.addOrder id side p q ts prio seq false).book.cached_tob = s.cached_tob ∧
    countTob (s.addOrder id side p q ts prio seq false).events = 0 := by
  unfold OrderBookL3.addOrder
  by_cases hst : seqStale s.last_seq_num seq
  · rw [if_pos hst]
    exact ⟨rfl, rfl⟩
  · rw [if_neg hst]
    dsimp only
    by_cases hc : (s.seqGate seq).order_ids.contains id
    · rw [if_pos hc]
      simp
    · rw [if_neg hc]
      have h := addOrModifyOrder_tob_nonlast (s.seqGate seq) id side p q ts
        (if prio = 0 then ts else prio) seq
      simpa using h

lemma addOrder_tob_last (s : OrderBookL3) (id : Nat) (side : Side)
    (p q : Int) (ts prio seq : Nat)
    (hok : (s.addOrder id side p q ts prio seq true).ok = true)
    (hev : (s.addOrder id side p q ts prio seq true).events ≠ []) :
    countTob (s.addOrder id side p q ts prio seq true).events =
      if (s.addOrder id side p q ts prio seq true).book.freshTobFields =
        s.cached_tob.fields4 then 0 else 1 := by
  unfold OrderBookL3.addOrder at hok hev ⊢
  by_cases hst : seqStale s.last_seq_num seq
  · rw [if_pos hst] at hok
    simp at hok
  · rw [if_neg hst] at hok hev ⊢
    dsimp only at hok hev ⊢
    by_cases hc : (s.seqGate seq).order_ids.contains id
    · rw [if_pos hc] at hok
      simp at hok
    · rw [if_neg hc] at hok hev ⊢
      have h := addOrModifyOrder_tob_last (s.seqGate seq) id side p q ts
        (if prio = 0 then ts else prio) seq hok hev
      simpa using h

lemma addOrder_tob_le (s : OrderBookL3) (id : Nat) (side : Side)
    (p q : Int) (ts prio seq : Nat) (b : Bool) :
    countTob (s.addOrder id side p q ts prio seq b).events ≤ 1 := by
  unfold OrderBookL3.addOrder
  by_cases hst : seqStale s.last_seq_num seq
  · rw [if_pos hst]; simp
  · rw [if_neg hst]
    dsimp only
    by_cases hc : (s.seqGate seq).order_ids.contains id
    · rw [if_pos hc]
      simp
    · rw [if_neg hc]
      exact addOrModifyOrder_tob_le (s.seqGate seq) id side p q ts
        (if prio = 0 then ts else prio) seq b

lemma executeOrder_tob_nonlast (s : OrderBookL3) (id : Nat) (q : Int) (seq : Nat) :
    (s.executeOrder id q seq false).book.cached_tob = s.cached_tob ∧
    countTob (s.executeOrder id q seq false).events = 0 := by
  unfold OrderBookL3.executeOrder
  by_cases hst : seqStale s.last_seq_num seq
  · rw [if_pos hst]
    exact ⟨rfl, rfl⟩
  · rw [if_neg hst]
    dsimp only
    cases hf : (s.seqGate seq).findOrder id with
    | none => simp
    | some order =>
      dsimp only
      by_cases hr : q ≤ 0 ∨ q > order.quantity
      · rw [if_pos hr]
        simp
      · rw [if_neg hr]
        by_cases hrem : order.quantity - q = 0
        · rw [if_pos hrem]
          have h := deleteOrder_tob_nonlast (s.seqGate seq) id seq
          simpa using h
        · rw [if_neg hrem]
          have h := modifyOrder_tob_nonlast (s.seqGate seq) id order.price
            (order.quantity - q) seq
          simpa using h

lemma executeOrder_tob_last (s : OrderBookL3) (id : Nat) (q : Int) (seq : Nat)
    (hok : (s.executeOrder id q seq true).ok = true)
    (hev : (s.executeOrder id q seq true).events ≠ []) :
    countTob (s.executeOrder id q seq true).events =
      if (s.executeOrder id q seq true).book.freshTobFields = s.cached_tob.fields4
      then 0 else 1 := by
  unfold OrderBookL3.executeOrder at hok hev ⊢
  by_cases hst : seqStale s.last_seq_num seq
  · rw [if_pos hst] at hok
    simp at hok
  · rw [if_neg hst] at hok hev ⊢
    dsimp only at hok hev ⊢
    cases hf : (s.seqGate seq).findOrder id with
    | none => simp [hf] at hok
    | some order =>
      simp only [hf] at hok hev ⊢
      by_cases hr : q ≤ 0 ∨ q > order.quantity
      · rw [if_pos hr] at hok
        simp at hok
      · simp only [if_neg hr] at hok hev ⊢
        by_cases hrem : order.quantity - q = 0
        · rw [if_pos hrem] at hok hev ⊢
          have h := deleteOrder_tob_last (s.seqGate seq) id seq hok
          simpa using h
        · rw [if_neg hrem] at hok hev ⊢
          have h := modifyOrder_tob_last (s.seqGate seq) id order.price
            (order.quantity - q) seq hok hev
          simpa using h

lemma executeOrder_tob_le (s : OrderBookL3) (id : Nat) (q : Int) (seq : Nat)
    (b : Bool) :
    countTob (s.executeOrder id q seq b).events ≤ 1 := by
  unfold OrderBookL3.executeOrder
  by_cases hst : seqStale s.last_seq_num seq
  · rw [if_pos hst]; simp
  · rw [if_neg hst]
    dsimp only
    cases hf : (s.seqGate seq).findOrder id with
    | none => simp
    | some order =>
      dsimp only
      by_cases hr : q ≤ 0 ∨ q > order.quantity
      · rw [if_pos hr]
        simp
      · rw [if_neg hr]
        by_cases hrem : order.quantity - q = 0
        · rw [if_pos hrem]
          exact deleteOrder_tob_le (s.seqGate seq) id seq b
        · rw [if_neg hrem]
          exact modifyOrder_tob_le (s.seqGate seq) id order.price
            (order.quantity - q) seq b

lemma applyCall_tob_nonlast (s : OrderBookL3) (c : L3Call) :
    (s.applyCall c false).book.cached_tob = s.cached_tob ∧
    countTob (s.applyCall c false).events = 0 := by
  cases c with
  | addOrModify id side p q ts prio seq =>
    exact addOrModifyOrder_tob_nonlast s id side p q ts prio seq
  | add id side p q ts prio seq => exact addOrder_tob_nonlast s id side p q ts prio seq
  | modify id p q seq => exact modifyOrder_tob_nonlast s id p q seq
  | delete id seq => exact deleteOrder_tob_nonlast s id seq
  | execute id q seq => exact executeOrder_tob_nonlast s id q seq

lemma applyCall_tob_last (s : OrderBookL3) (c : L3Call)
    (hok : (s.applyCall c true).ok = true)
    (hev : (s.applyCall c true).events ≠ []) :
    countTob (s.applyCall c true).events =
      if (s.applyCall c true).book.freshTobFields = s.cached_tob.fields4
      then 0 else 1 := by
  cases c with
  | addOrModify id side p q ts prio seq =>
    exact addOrModifyOrder_tob_last s id side p q ts prio seq hok hev
  | add id side p q ts prio seq => exact addOrder_tob_last s id side p q ts prio seq hok hev
  | modify id p q seq => exact modifyOrder_tob_last s id p q seq hok hev
  | delete id seq => exact deleteOrder_tob_last s id seq hok
  | execute id q seq => exact executeOrder_tob_last s id q seq hok hev

lemma applyCall_tob_le (s : OrderBookL3) (c : L3Call) (b : Bool) :
    countTob (s.applyCall c b).events ≤ 1 := by
  cases c with
  | addOrModify id side p q ts prio seq =>
    exact addOrModifyOrder_tob_le s id side p q ts prio seq b
  | add id side p q ts prio seq => exact addOrder_tob_le s id side p q ts prio seq b
  | modify id p q seq => exact modifyOrder_tob_le s id p q seq b
  | delete id seq => exact deleteOrder_tob_le s id seq b
  | execute id q seq => exact executeOrder_tob_le s id q seq b

lemma runL3Batch_tob_le : ∀ (calls : List L3Call) (s : OrderBookL3),
    countTob (runL3Batch s calls).2 ≤ 1 := by
  intro calls
  induction calls with
  | nil => intro s; simp [runL3Batch]
  | cons c cs ih =>
    intro s
    cases cs with
    | nil =>
      simp only [runL3Batch]
      exact applyCall_tob_le s c true
    | cons c2 cs2 =>
      simp only [runL3Batch]
      rw [countTob_append, (applyCall_tob_nonlast s c).2]
      simpa using ih (s.applyCall c false).book

lemma runL3Batch_snoc : ∀ (cs : List L3Call) (c : L3Call) (s : OrderBookL3),
    (runL3Batch s (cs ++ [c])).1 = ((runL3Pre s cs).applyCall c true).book ∧
    countTob (runL3Batch s (cs ++ [c])).2 =
      countTob ((runL3Pre s cs).applyCall c true).events ∧
    (runL3Pre s cs).cached_tob = s.cached_tob := by
  intro cs
  induction cs with
  | nil =>
    intro c s
    simp only [List.nil_append, runL3Batch, runL3Pre]
    refine ⟨?_, ?_, ?_⟩ <;> first | rfl | trivial
  | cons c0 cs ih =>
    intro c s
    obtain ⟨d, ds, hcs⟩ : ∃ d ds, cs ++ [c] = d :: ds := by
      cases cs with
      | nil => exact ⟨c, [], rfl⟩
      | cons x xs => exact ⟨x, xs ++ [c], rfl⟩
    rw [List.cons_append, hcs]
    simp only [runL3Batch]
    rw [← hcs]
    obtain ⟨h1, h2, h3⟩ := ih c (s.applyCall c0 false).book
    refine ⟨?_, ?_, ?_⟩
    · rw [h1]
      rfl
    · rw [countTob_append, (applyCall_tob_nonlast s c0).2, h2, Nat.zero_add]
      rfl
    · show (runL3Pre s (c0 :: cs)).cached_tob = s.cached_tob
      rw [show runL3Pre s (c0 :: cs) = runL3Pre (s.applyCall c0 false).book cs from rfl,
        h3, (applyCall_tob_nonlast s c0).1]

/-! ## Lemmas: L3 well-formedness toolkit -/

@[simp] lemma otherSide_Buy : otherSide Side.Buy = Side.Sell := rfl

@[simp] lemma otherSide_Sell : otherSide Side.Sell = Side.Buy := rfl

lemma otherSide_ne (sd : Side) : otherSide sd ≠ sd := by cases sd <;> simp

lemma side_eq_or_other (sd side : Side) : sd = side ∨ sd = otherSide side := by
  cases sd <;> cases side <;> simp

@[simp] lemma ordersOf_nil : ordersOf [] = [] := rfl

@[simp] lemma ordersOf_cons (l : PriceLevelL3) (ls : List PriceLevelL3) :
    ordersOf (l :: ls) = l.orders ++ ordersOf ls := by
  simp [ordersOf]

lemma mem_ordersOf {o : Order} {ls : List PriceLevelL3} :
    o ∈ ordersOf ls ↔ ∃ lvl ∈ ls, o ∈ lvl.orders := by
  unfold ordersOf
  rw [List.mem_flatten]
  constructor
  · rintro ⟨q, hq, ho⟩
    rcases List.mem_map.1 hq with ⟨lvl, hlvl, rfl⟩
    exact ⟨lvl, hlvl, ho⟩
  · rintro ⟨lvl, hlvl, ho⟩
    exact ⟨lvl.orders, List.mem_map_of_mem _ hlvl, ho⟩

lemma allOrders_split (s : OrderBookL3) (side : Side) :
    List.Perm s.allOrders
      (ordersOf (s.sideLevels side) ++ ordersOf (s.sideLevels (otherSide side))) := by
  cases side
  · exact List.Perm.refl _
  · exact List.perm_append_comm

lemma unique_of_nodup_ids {l : List Order} (hnd : (l.map Order.order_id).Nodup)
    {o : Order} (ho : o ∈ l) : ∀ x ∈ l, x.order_id = o.order_id → x = o :=
  fun x hx hid => List.inj_on_of_nodup_map hnd hx ho hid

lemma nodup_ids_of_level {ls : List PriceLevelL3}
    (hnd : ((ordersOf ls).map Order.order_id).Nodup) {lvl : PriceLevelL3}
    (h : lvl ∈ ls) : (lvl.orders.map Order.order_id).Nodup := by
  have hsub : lvl.orders.Sublist (ordersOf ls) :=
    List.sublist_join_of_mem (List.mem_map_of_mem _ h)
  exact (hsub.map Order.order_id).nodup hnd

lemma price_unique_mem {side : Side} :
    ∀ {ls : List PriceLevelL3},
      ls.Pairwise (fun a b => sideBefore side a.price b.price = true) →
      ∀ {a b : PriceLevelL3}, a ∈ ls → b ∈ ls → a.price = b.price → a = b := by
  intro ls
  induction ls with
  | nil => intro _ a b ha; simp at ha
  | cons x xs ih =>
    intro hp a b ha hb hpe
    rcases List.pairwise_cons.1 hp with ⟨hx, hxs⟩
    rcases List.mem_cons.1 ha with ha1 | ha1 <;> rcases List.mem_cons.1 hb with hb1 | hb1
    · rw [ha1, hb1]
    · exfalso
      rw [ha1] at hpe
      exact sideBefore_ne (hx b hb1) hpe
    · exfalso
      rw [hb1] at hpe
      exact sideBefore_ne (hx a ha1) hpe.symm
    · exact ih hxs ha1 hb1 hpe

lemma findLevelIdx3_getq {p : Int} {ls : List PriceLevelL3} {i : Nat}
    (h : findLevelIdx3 p ls = some i) :
    ∃ lvl, ls.get? i = some lvl ∧ lvl.price = p := by
  have hlt := findLevelIdx3_lt h
  exact ⟨ls.get ⟨i, hlt⟩, List.get?_eq_get hlt, findLevelIdx3_get h⟩

lemma findLevelIdx3_some_of_mem {side : Side} :
    ∀ {ls : List PriceLevelL3},
      ls.Pairwise (fun a b => sideBefore side a.price b.price = true) →
      ∀ {lvl : PriceLevelL3}, lvl ∈ ls →
      ∃ i, findLevelIdx3 lvl.price ls = some i ∧ ls.get? i = some lvl := by
  intro ls
  induction ls with
  | nil => intro _ lvl h; simp at h
  | cons x xs ih =>
    intro hp lvl hmem
    rcases List.pairwise_cons.1 hp with ⟨hx, hxs⟩
    by_cases he : x.price = lvl.price
    · have hxl : x = lvl := price_unique_mem hp (List.mem_cons_self x xs) hmem he
      refine ⟨0, ?_, by rw [← hxl]; rfl⟩
      simp [findLevelIdx3, he]
    · have hlv : lvl ∈ xs := by
        rcases List.mem_cons.1 hmem with h1 | h1
        · exact absurd (by rw [h1]) he
        · exact h1
      rcases ih hxs hlv with ⟨j, hj1, hj2⟩
      refine ⟨j + 1, ?_, by simpa using hj2⟩
      simp [findLevelIdx3, he, hj1]

lemma mem_side_of_allOrders {s : OrderBookL3} (hWF : s.WF) {o : Order}
    (h : o ∈ s.allOrders) : o ∈ ordersOf (s.sideLevels o.side) := by
  obtain ⟨hwb, hwa, _⟩ := hWF
  have h' : o ∈ ordersOf s.bids ++ ordersOf s.asks := h
  rcases List.mem_append.1 h' with h1 | h1
  · rcases mem_ordersOf.1 h1 with ⟨lvl, hlvl, ho⟩
    have hside := ((hwb.1 lvl hlvl).2.2.2 o ho).1
    rw [show s.sideLevels o.side = s.bids from by rw [hside]; rfl]
    exact h1
  · rcases mem_ordersOf.1 h1 with ⟨lvl, hlvl, ho⟩
    have hside := ((hwa.1 lvl hlvl).2.2.2 o ho).1
    rw [show s.sideLevels o.side = s.asks from by rw [hside]; rfl]
    exact h1

lemma findOrder_mem {s : OrderBookL3} {id : Nat} {o : Order}
    (h : s.findOrder id = some o) : o ∈ s.allOrders ∧ o.order_id = id := by
  unfold OrderBookL3.findOrder at h
  split at h
  · refine ⟨List.mem_of_find?_eq_some h, ?_⟩
    have := List.find?_some h
    simpa using this
  · simp at h

lemma findOrder_none {s : OrderBookL3} (hWF : s.WF) {id : Nat}
    (h : s.findOrder id = none) : ∀ o ∈ s.allOrders, o.order_id ≠ id := by
  unfold OrderBookL3.findOrder at h
  split at h
  next hc =>
    intro o ho hid
    have := List.find?_eq_none.1 h o ho
    simp [hid] at this
  next hc =>
    intro o ho hid
    obtain ⟨_, _, _, _, _, h6⟩ := hWF
    have hin := h6 o ho
    rw [hid] at hin
    exact hc (List.elem_iff.2 hin)

lemma findOrder_char {t : OrderBookL3}
    (hnd : ((t.allOrders).map Order.order_id).Nodup)
    (hcons : ∀ x ∈ t.allOrders, x.order_id ∈ t.order_ids) {o : Order}
    (hmem : o ∈ t.allOrders) :
    t.findOrder o.order_id = some o := by
  unfold OrderBookL3.findOrder
  rw [if_pos ?_]
  · exact find?_eq_of_unique hmem (unique_of_nodup_ids hnd hmem)
  · exact List.elem_iff.2 (hcons o hmem)

lemma ordersOf_insertLevelSorted (side : Side) (lvl : PriceLevelL3) :
    ∀ ls : List PriceLevelL3,
      List.Perm (ordersOf (insertLevelSorted side lvl ls).1)
        (lvl.orders ++ ordersOf ls) := by
  intro ls
  induction ls with
  | nil => simp [insertLevelSorted]
  | cons x xs ih =>
    simp only [insertLevelSorted]
    by_cases h : sideBefore side x.price lvl.price
    · rw [if_pos h]
      simp only [ordersOf_cons]
      refine (ih.append_left x.orders).trans ?_
      rw [← List.append_assoc, ← List.append_assoc]
      exact List.perm_append_comm.append_right _
    · rw [if_neg h]
      simp [ordersOf_cons]

lemma ordersOf_removeLevelIfEmptyList (p : Int) :
    ∀ ls : List PriceLevelL3,
      ordersOf (removeLevelIfEmptyList p ls).1 = ordersOf ls := by
  intro ls
  induction ls with
  | nil => rfl
  | cons l ls ih =>
    simp only [removeLevelIfEmptyList]
    by_cases h : l.price = p
    · rw [if_pos h]
      by_cases he : l.orders.isEmpty
      · rw [if_pos he]
        have hnil : l.orders = [] := List.isEmpty_iff.1 he
        simp [ordersOf_cons, hnil]
      · rw [if_neg he]
    · rw [if_neg h]
      simp [ordersOf_cons, ih]

lemma ordersOf_modifyLevelAt (f : PriceLevelL3 → PriceLevelL3) :
    ∀ (i : Nat) (ls : List PriceLevelL3) (lvl : PriceLevelL3),
      ls.get? i = some lvl →
      ∃ K : List Order,
        List.Perm (ordersOf ls) (lvl.orders ++ K) ∧
        List.Perm (ordersOf (modifyLevelAt f i ls).1) ((f lvl).orders ++ K) := by
  intro i
  induction i with
  | zero =>
    intro ls lvl h
    cases ls with
    | nil => simp at h
    | cons x xs =>
      have hx : x = lvl := by simpa using h
      subst hx
      exact ⟨ordersOf xs, List.Perm.refl _, by simp [modifyLevelAt, ordersOf_cons]⟩
  | succ n ih =>
    intro ls lvl h
    cases ls with
    | nil => simp at h
    | cons x xs =>
      rcases ih xs lvl (by simpa using h) with ⟨K, h1, h2⟩
      refine ⟨x.orders ++ K, ?_, ?_⟩
      · simp only [ordersOf_cons]
        refine (h1.append_left x.orders).trans ?_
        rw [← List.append_assoc, ← List.append_assoc]
        exact List.perm_append_comm.append_right _
      · simp only [modifyLevelAt, ordersOf_cons]
        refine (h2.append_left x.orders).trans ?_
        rw [← List.append_assoc, ← List.append_assoc]
        exact List.perm_append_comm.append_right _

lemma insertByPriority_ne_nil (o : Order) (l : List Order) :
    insertByPriority o l ≠ [] := by
  have hlen := (insertByPriority_perm o l).length_eq
  intro hnil
  rw [hnil] at hlen
  simp at hlen

lemma insertOrder_levelWF {side : Side} {lvl : PriceLevelL3} {o : Order}
    (htot : lvl.total_quantity = (lvl.orders.map Order.quantity).sum)
    (hsort : lvl.orders.Pairwise (fun a b => a.priority ≤ b.priority))
    (hfields : ∀ x ∈ lvl.orders, x.side = side ∧ x.price = lvl.price)
    (ho : o.side = side) (hp : o.price = lvl.price) :
    levelWF side (lvl.insertOrder o) := by
  have h1 : (lvl.insertOrder o).orders = insertByPriority o lvl.orders := rfl
  have h2 : (lvl.insertOrder o).total_quantity = lvl.total_quantity + o.quantity := rfl
  have h3 : (lvl.insertOrder o).price = lvl.price := rfl
  unfold levelWF
  rw [h1, h2, h3]
  refine ⟨insertByPriority_ne_nil o lvl.orders, ?_, insertByPriority_sorted hsort, ?_⟩
  · have hperm : ((insertByPriority o lvl.orders).map Order.quantity).sum =
        ((o :: lvl.orders).map Order.quantity).sum :=
      ((insertByPriority_perm o lvl.orders).map Order.quantity).sum_eq
    rw [hperm, htot]
    simp [List.sum_cons]
    omega
  · intro x hx
    rcases mem_insertByPriority.1 hx with h4 | h4
    · rw [h4]; exact ⟨ho, hp⟩
    · exact hfields x h4

lemma removeOrder_level_props {side : Side} {lvl : PriceLevelL3} {o : Order}
    (htot : lvl.total_quantity = (lvl.orders.map Order.quantity).sum)
    (hsort : lvl.orders.Pairwise (fun a b => a.priority ≤ b.priority))
    (hfields : ∀ x ∈ lvl.orders, x.side = side ∧ x.price = lvl.price)
    (hnd : (lvl.orders.map Order.order_id).Nodup)
    (hmem : o ∈ lvl.orders) :
    List.Perm lvl.orders (o :: (lvl.removeOrder o).orders) ∧
    (lvl.removeOrder o).total_quantity =
      ((lvl.removeOrder o).orders.map Order.quantity).sum ∧
    (lvl.removeOrder o).orders.Pairwise (fun a b => a.priority ≤ b.priority) ∧
    (∀ x ∈ (lvl.removeOrder o).orders, x.side = side ∧ x.price = lvl.price) ∧
    (lvl.removeOrder o).price = lvl.price := by
  have hperm : List.Perm lvl.orders (o :: removeOrderById o.order_id lvl.orders) :=
    removeOrderById_perm hmem rfl (unique_of_nodup_ids hnd hmem)
  have hrm1 : (lvl.removeOrder o).orders = removeOrderById o.order_id lvl.orders := rfl
  have hrm2 : (lvl.removeOrder o).total_quantity =
      lvl.total_quantity - o.quantity := rfl
  have hrm3 : (lvl.removeOrder o).price = lvl.price := rfl
  rw [hrm1, hrm2, hrm3]
  have hsub := removeOrderById_sublist o.order_id lvl.orders
  refine ⟨hperm, ?_, List.Pairwise.sublist hsub hsort, ?_, rfl⟩
  · have hsum : (lvl.orders.map Order.quantity).sum =
        ((o :: removeOrderById o.order_id lvl.orders).map Order.quantity).sum :=
      (hperm.map Order.quantity).sum_eq
    rw [htot, hsum]
    simp [List.sum_cons]
  · intro x hx
    exact hfields x (hsub.mem hx)

lemma map_update_qty_id (id : Nat) (new_q : Int) :
    ∀ l : List Order, (∀ x ∈ l, x.order_id ≠ id) →
      l.map (fun x => if x.order_id = id then { x with quantity := new_q } else x) =
        l := by
  intro l
  induction l with
  | nil => intro _; rfl
  | cons x xs ih =>
    intro hnone
    simp only [List.map_cons]
    rw [if_neg (hnone x (List.mem_cons_self x xs)),
      ih (fun y hy => hnone y (List.mem_cons_of_mem x hy))]

lemma updateOrderQuantity_level_props {side : Side} {lvl : PriceLevelL3} {o : Order}
    (htot : lvl.total_quantity = (lvl.orders.map Order.quantity).sum)
    (hsort : lvl.orders.Pairwise (fun a b => a.priority ≤ b.priority))
    (hfields : ∀ x ∈ lvl.orders, x.side = side ∧ x.price = lvl.price)
    (hnd : (lvl.orders.map Order.order_id).Nodup)
    (hmem : o ∈ lvl.orders) (new_q : Int) :
    List.Perm lvl.orders (o :: removeOrderById o.order_id lvl.orders) ∧
    List.Perm (lvl.updateOrderQuantity o.order_id o.quantity new_q).orders
      ({ o with quantity := new_q } :: removeOrderById o.order_id lvl.orders) ∧
    (lvl.updateOrderQuantity o.order_id o.quantity new_q).total_quantity =
      ((lvl.updateOrderQuantity o.order_id o.quantity new_q).orders.map
        Order.quantity).sum ∧
    (lvl.updateOrderQuantity o.order_id o.quantity new_q).orders.Pairwise
      (fun a b => a.priority ≤ b.priority) ∧
    (∀ x ∈ (lvl.updateOrderQuantity o.order_id o.quantity new_q).orders,
      x.side = side ∧ x.price = lvl.price) ∧
    (lvl.updateOrderQuantity o.order_id o.quantity new_q).price = lvl.price ∧
    (lvl.updateOrderQuantity o.order_id o.quantity new_q).orders ≠ [] := by
  have hperm : List.Perm lvl.orders (o :: removeOrderById o.order_id lvl.orders) :=
    removeOrderById_perm hmem rfl (unique_of_nodup_ids hnd hmem)
  have hRnd : ((o :: removeOrderById o.order_id lvl.orders).map Order.order_id).Nodup :=
    (hperm.map Order.order_id).nodup hnd
  have hRnone : ∀ x ∈ removeOrderById o.order_id lvl.orders,
      x.order_id ≠ o.order_id := by
    intro x hx he
    have h3 : ((o :: removeOrderById o.order_id lvl.orders).map Order.order_id).Nodup :=
      hRnd
    rw [List.map_cons] at h3
    have hmm : x.order_id ∈ (removeOrderById o.order_id lvl.orders).map Order.order_id :=
      List.mem_map_of_mem Order.order_id hx
    rw [he] at hmm
    exact (List.nodup_cons.1 h3).1 hmm
  have ho1 : (lvl.updateOrderQuantity o.order_id o.quantity new_q).orders =
      lvl.orders.map
        (fun x => if x.order_id = o.order_id then { x with quantity := new_q }
          else x) := rfl
  have ho2 : (lvl.updateOrderQuantity o.order_id o.quantity new_q).total_quantity =
      lvl.total_quantity - o.quantity + new_q := rfl
  have ho3 : (lvl.updateOrderQuantity o.order_id o.quantity new_q).price =
      lvl.price := rfl
  have hmap : List.Perm
      (lvl.orders.map
        (fun x => if x.order_id = o.order_id then { x with quantity := new_q }
          else x))
      ({ o with quantity := new_q } :: removeOrderById o.order_id lvl.orders) := by
    refine (hperm.map _).trans ?_
    simp only [List.map_cons, eq_self_iff_true, if_true]
    rw [map_update_qty_id o.order_id new_q _ hRnone]
  rw [ho1, ho2, ho3]
  refine ⟨hperm, hmap, ?_, ?_, ?_, rfl, ?_⟩
  · have hs1 : ((lvl.orders.map
        (fun x => if x.order_id = o.order_id then { x with quantity := new_q }
          else x)).map Order.quantity).sum =
        (({ o with quantity := new_q } ::
          removeOrderById o.order_id lvl.orders).map Order.quantity).sum :=
      (hmap.map Order.quantity).sum_eq
    have hs2 : (lvl.orders.map Order.quantity).sum =
        ((o :: removeOrderById o.order_id lvl.orders).map Order.quantity).sum :=
      (hperm.map Order.quantity).sum_eq
    rw [hs1, htot, hs2]
    simp [List.sum_cons]
    omega
  · rw [List.pairwise_map]
    refine hsort.imp ?_
    intro a b hab
    by_cases ha : a.order_id = o.order_id <;> by_cases hb : b.order_id = o.order_id <;>
      simp [ha, hb] <;> exact hab
  · intro x hx
    rcases List.mem_map.1 hx with ⟨y, hy, rfl⟩
    have hf := hfields y hy
    by_cases hyid : y.order_id = o.order_id
    · rw [if_pos hyid]
      exact hf
    · rw [if_neg hyid]
      exact hf
  · intro hnil
    rw [List.map_eq_nil] at hnil
    rw [hnil] at hmem
    simp at hmem

lemma insertLevelSorted_set (side : Side) (lvl lvl' : PriceLevelL3)
    (hp : lvl'.price = lvl.price) :
    ∀ ls : List PriceLevelL3,
      (insertLevelSorted side lvl ls).1.set (insertLevelSorted side lvl ls).2 lvl' =
        (insertLevelSorted side lvl' ls).1 := by
  intro ls
  induction ls with
  | nil => simp [insertLevelSorted]
  | cons x xs ih =>
    simp only [insertLevelSorted, hp]
    by_cases h : sideBefore side x.price lvl.price
    · rw [if_pos h, if_pos h]
      simp only [List.set]
      rw [ih]
    · rw [if_neg h, if_neg h]
      rfl

lemma pairwise_set_price {side : Side} :
    ∀ {ls : List PriceLevelL3} {i : Nat} {lvl x : PriceLevelL3},
      ls.get? i = some lvl → x.price = lvl.price →
      ls.Pairwise (fun a b => sideBefore side a.price b.price = true) →
      (ls.set i x).Pairwise (fun a b => sideBefore side a.price b.price = true) := by
  intro ls
  induction ls with
  | nil => intro i lvl x h; simp at h
  | cons y ys ih =>
    intro i lvl x h hp hpw
    rcases List.pairwise_cons.1 hpw with ⟨hy, hys⟩
    cases i with
    | zero =>
      have hyl : y = lvl := by simpa using h
      subst hyl
      simp only [List.set]
      refine List.pairwise_cons.2 ⟨?_, hys⟩
      intro z hz
      rw [hp]
      exact hy z hz
    | succ n =>
      simp only [List.set]
      refine List.pairwise_cons.2 ⟨?_, ih (by simpa using h) hp hys⟩
      intro z hz
      rcases List.mem_or_eq_of_mem_set hz with h1 | h1
      · exact hy z h1
      · rw [h1, hp]
        exact hy lvl (List.get?_mem (by simpa using h))

/-- `getOrCreateLevel` followed by `insertOrder` through the returned
level pointer: the side stays well formed and gains exactly the new
record. -/
lemma side_insert_surgery {side : Side} {ls : List PriceLevelL3}
    (hs : sideWF side ls) (o : Order) (hoside : o.side = side) :
    sideWF side (modifyLevelAt (fun lvl => lvl.insertOrder o)
      (getOrCreateLevel side o.price ls).2.1 (getOrCreateLevel side o.price ls).1).1 ∧
    List.Perm (ordersOf (modifyLevelAt (fun lvl => lvl.insertOrder o)
      (getOrCreateLevel side o.price ls).2.1 (getOrCreateLevel side o.price ls).1).1)
      (o :: ordersOf ls) := by
  obtain ⟨hlv, hpw⟩ := hs
  cases hfind : findLevelIdx3 o.price ls with
  | some i =>
    simp only [getOrCreateLevel, hfind]
    rcases findLevelIdx3_getq hfind with ⟨lvl, hget, hprice⟩
    have hlt : i < ls.length := findLevelIdx3_lt hfind
    have hmem : lvl ∈ ls := List.get?_mem hget
    obtain ⟨hne, htot, hsort, hfields⟩ := hlv lvl hmem
    have hgeteq : ls.get ⟨i, hlt⟩ = lvl := by
      have h2 := List.get?_eq_get hlt
      rw [h2] at hget
      simpa using hget
    have hset := modifyLevelAt_set (fun lvl => lvl.insertOrder o) i ls hlt
    rw [hset.1, hgeteq]
    constructor
    · constructor
      · intro x hx
        rcases List.mem_or_eq_of_mem_set hx with h1 | h1
        · exact hlv x h1
        · rw [h1]
          exact insertOrder_levelWF htot hsort hfields hoside hprice.symm
      · exact pairwise_set_price hget rfl hpw
    · rcases ordersOf_modifyLevelAt (fun lvl => lvl.insertOrder o) i ls lvl hget
        with ⟨K, hK1, hK2⟩
      rw [hset.1, hgeteq] at hK2
      refine hK2.trans ?_
      have h3 : List.Perm ((lvl.insertOrder o).orders ++ K)
          ((o :: lvl.orders) ++ K) :=
        (insertByPriority_perm o lvl.orders).append_right K
      refine h3.trans ?_
      exact List.Perm.cons o hK1.symm
  | none =>
    simp only [getOrCreateLevel, hfind]
    have habs : ∀ x ∈ ls, x.price ≠ (⟨o.price, [], 0⟩ : PriceLevelL3).price :=
      findLevelIdx3_none hfind
    have hget := insertLevelSorted_getq side ⟨o.price, [], 0⟩ ls
    have hlt := insertLevelSorted_idx_lt side ⟨o.price, [], 0⟩ ls
    have hgeteq : (insertLevelSorted side ⟨o.price, [], 0⟩ ls).1.get
        ⟨(insertLevelSorted side ⟨o.price, [], 0⟩ ls).2, hlt⟩ =
        (⟨o.price, [], 0⟩ : PriceLevelL3) := by
      have h2 := List.get?_eq_get hlt
      rw [h2] at hget
      simpa using hget
    have hset := modifyLevelAt_set (fun lvl => lvl.insertOrder o)
      (insertLevelSorted side ⟨o.price, [], 0⟩ ls).2
      (insertLevelSorted side ⟨o.price, [], 0⟩ ls).1 hlt
    rw [hset.1, hgeteq,
      insertLevelSorted_set side ⟨o.price, [], 0⟩
        ((⟨o.price, [], 0⟩ : PriceLevelL3).insertOrder o) rfl ls]
    constructor
    · constructor
      · intro x hx
        rcases mem_insertLevelSorted.1 hx with h1 | h1
        · rw [h1]
          exact insertOrder_levelWF (by simp) (by simp) (by simp) hoside rfl
        · exact hlv x h1
      · exact insertLevelSorted_sorted hpw habs
    · refine (ordersOf_insertLevelSorted side _ ls).trans ?_
      exact List.Perm.refl _

/-- `modifyLevelAt removeOrder` followed by `removeLevelIfEmpty`: the
side stays well formed and loses exactly the removed record. -/
lemma side_remove_surgery {side : Side} {ls : List PriceLevelL3}
    (hs : sideWF side ls) {o : Order} {i : Nat}
    (hnd : ((ordersOf ls).map Order.order_id).Nodup)
    (hfind : findLevelIdx3 o.price ls = some i)
    (hmemo : o ∈ ordersOf ls) :
    sideWF side (removeLevelIfEmptyList o.price
      (modifyLevelAt (fun lvl => lvl.removeOrder o) i ls).1).1 ∧
    List.Perm (ordersOf ls)
      (o :: ordersOf (removeLevelIfEmptyList o.price
        (modifyLevelAt (fun lvl => lvl.removeOrder o) i ls).1).1) := by
  obtain ⟨hlv, hpw⟩ := hs
  rcases findLevelIdx3_getq hfind with ⟨lvl, hget, hprice⟩
  have hlt : i < ls.length := findLevelIdx3_lt hfind
  have hmem : lvl ∈ ls := List.get?_mem hget
  obtain ⟨hne, htot, hsort, hfields⟩ := hlv lvl hmem
  have hmemq : o ∈ lvl.orders := by
    rcases mem_ordersOf.1 hmemo with ⟨lvl2, hlvl2, ho2⟩
    have hp2 : lvl2.price = o.price := ((hlv lvl2 hlvl2).2.2.2 o ho2).2.symm
    have : lvl2 = lvl := price_unique_mem hpw hlvl2 hmem (hp2.trans hprice.symm)
    rw [← this]
    exact ho2
  have hqnd : (lvl.orders.map Order.order_id).Nodup := nodup_ids_of_level hnd hmem
  obtain ⟨hqperm, htot2, hsort2, hfields2, hprice2⟩ :=
    removeOrder_level_props htot hsort hfields hqnd hmemq
  have hgeteq : ls.get ⟨i, hlt⟩ = lvl := by
    have h2 := List.get?_eq_get hlt
    rw [h2] at hget
    simpa using hget
  have hset := modifyLevelAt_set (fun lvl => lvl.removeOrder o) i ls hlt
  have hr1 : (modifyLevelAt (fun lvl => lvl.removeOrder o) i ls).1 =
      ls.set i (lvl.removeOrder o) := by
    rw [hset.1, hgeteq]
  have hpw2 : (ls.set i (lvl.removeOrder o)).Pairwise
      (fun a b => sideBefore side a.price b.price = true) :=
    pairwise_set_price hget hprice2 hpw
  have hnonempty : ∀ x ∈ (removeLevelIfEmptyList o.price
      (ls.set i (lvl.removeOrder o))).1, x.orders ≠ [] := by
    refine removeLevelIfEmptyList_no_empty_at ?_ ?_
    · exact hpw2.imp (fun h => sideBefore_ne h)
    · intro x hx hxp
      rcases List.mem_or_eq_of_mem_set hx with h1 | h1
      · exact (hlv x h1).1
      · exfalso
        rw [h1, hprice2, hprice] at hxp
        exact hxp rfl
  constructor
  · rw [hr1]
    constructor
    · intro x hx
      have hx1 := mem_removeLevelIfEmptyList hx
      rcases List.mem_or_eq_of_mem_set hx1 with h1 | h1
      · exact hlv x h1
      · refine ⟨hnonempty x hx, ?_, ?_, ?_⟩
        · rw [h1]; exact htot2
        · rw [h1]; exact hsort2
        · rw [h1]
          intro y hy
          rcases hfields2 y hy with ⟨hy1, hy2⟩
          exact ⟨hy1, by rw [hprice2]; exact hy2⟩
    · exact List.Pairwise.sublist (removeLevelIfEmptyList_sublist _ _) hpw2
  · rcases ordersOf_modifyLevelAt (fun lvl => lvl.removeOrder o) i ls lvl hget
      with ⟨K, hK1, hK2⟩
    rw [ordersOf_removeLevelIfEmptyList]
    refine hK1.trans ?_
    have h3 : List.Perm (lvl.orders ++ K) ((o :: (lvl.removeOrder o).orders) ++ K) :=
      hqperm.append_right K
    refine h3.trans ?_
    exact List.Perm.cons o hK2.symm

/-- `modifyLevelAt updateOrderQuantity` at the record's existing level:
the side stays well formed and the record's quantity is rewritten in
place. -/
lemma side_update_surgery {side : Side} {ls : List PriceLevelL3}
    (hs : sideWF side ls) {o : Order} {i : Nat} (new_q : Int)
    (hnd : ((ordersOf ls).map Order.order_id).Nodup)
    (hfind : findLevelIdx3 o.price ls = some i)
    (hmemo : o ∈ ordersOf ls) :
    sideWF side (modifyLevelAt
      (fun lvl => lvl.updateOrderQuantity o.order_id o.quantity new_q) i ls).1 ∧
    ∃ K, List.Perm (ordersOf ls) (o :: K) ∧
      List.Perm (ordersOf (modifyLevelAt
        (fun lvl => lvl.updateOrderQuantity o.order_id o.quantity new_q) i ls).1)
        ({ o with quantity := new_q } :: K) := by
  obtain ⟨hlv, hpw⟩ := hs
  rcases findLevelIdx3_getq hfind with ⟨lvl, hget, hprice⟩
  have hlt : i < ls.length := findLevelIdx3_lt hfind
  have hmem : lvl ∈ ls := List.get?_mem hget
  obtain ⟨hne, htot, hsort, hfields⟩ := hlv lvl hmem
  have hmemq : o ∈ lvl.orders := by
    rcases mem_ordersOf.1 hmemo with ⟨lvl2, hlvl2, ho2⟩
    have hp2 : lvl2.price = o.price := ((hlv lvl2 hlvl2).2.2.2 o ho2).2.symm
    have : lvl2 = lvl := price_unique_mem hpw hlvl2 hmem (hp2.trans hprice.symm)
    rw [← this]
    exact ho2
  have hqnd : (lvl.orders.map Order.order_id).Nodup := nodup_ids_of_level hnd hmem
  obtain ⟨hqperm, hmapperm, htot2, hsort2, hfields2, hprice2, hne2⟩ :=
    updateOrderQuantity_level_props htot hsort hfields hqnd hmemq new_q
  have hgeteq : ls.get ⟨i, hlt⟩ = lvl := by
    have h2 := List.get?_eq_get hlt
    rw [h2] at hget
    simpa using hget
  have hset := modifyLevelAt_set
    (fun lvl => lvl.updateOrderQuantity o.order_id o.quantity new_q) i ls hlt
  have hr1 : (modifyLevelAt
      (fun lvl => lvl.updateOrderQuantity o.order_id o.quantity new_q) i ls).1 =
      ls.set i (lvl.updateOrderQuantity o.order_id o.quantity new_q) := by
    rw [hset.1, hgeteq]
  constructor
  · rw [hr1]
    constructor
    · intro x hx
      rcases List.mem_or_eq_of_mem_set hx with h1 | h1
      · exact hlv x h1
      · refine ⟨?_, ?_, ?_, ?_⟩
        · rw [h1]; exact hne2
        · rw [h1]; exact htot2
        · rw [h1]; exact hsort2
        · rw [h1]
          intro y hy
          rcases hfields2 y hy with ⟨hy1, hy2⟩
          exact ⟨hy1, by rw [hprice2]; exact hy2⟩
    · exact pairwise_set_price hget hprice2 hpw
  · rcases ordersOf_modifyLevelAt
      (fun lvl => lvl.updateOrderQuantity o.order_id o.quantity new_q) i ls lvl hget
      with ⟨K, hK1, hK2⟩
    refine ⟨removeOrderById o.order_id lvl.orders ++ K, ?_, ?_⟩
    · refine hK1.trans ?_
      exact hqperm.append_right K
    · refine hK2.trans ?_
      exact hmapperm.append_right K

lemma WF_of_eq_parts {s t : OrderBookL3} (hb : t.bids = s.bids)
    (ha : t.asks = s.asks) (hi : t.order_ids = s.order_ids) (h : s.WF) : t.WF := by
  unfold OrderBookL3.WF OrderBookL3.allOrders at h ⊢
  rw [hb, ha, hi]
  exact h

lemma seqGate_WF {s : OrderBookL3} (h : s.WF) (n : Nat) : (s.seqGate n).WF :=
  WF_of_eq_parts (OrderBookL3.seqGate_bids3 s n) (OrderBookL3.seqGate_asks3 s n)
    (OrderBookL3.seqGate_ids s n) h

lemma notify_WF {s : OrderBookL3} (h : s.WF) (ts flags : Nat) :
    ((s.notifyTopOfBookIfChanged ts flags).1).WF :=
  WF_of_eq_parts (by simp) (by simp) (by simp) h

lemma ordersOf_map_orders (g : Order → Order) (ls : List PriceLevelL3) :
    ordersOf (ls.map (fun lvl => { lvl with orders := lvl.orders.map g })) =
      (ordersOf ls).map g := by
  induction ls with
  | nil => rfl
  | cons l ls ih => simp [ordersOf_cons, ih]

lemma sideWF_map_stamp {side : Side} {ls : List PriceLevelL3} (h : sideWF side ls)
    (id ts : Nat) :
    sideWF side (ls.map (fun lvl =>
      { lvl with orders := lvl.orders.map (fun o =>
          if o.order_id = id then { o with timestamp := ts } else o) })) := by
  obtain ⟨hlv, hpw⟩ := h
  constructor
  · intro x hx
    rcases List.mem_map.1 hx with ⟨lvl, hlvl, rfl⟩
    obtain ⟨hne, htot, hsort, hfields⟩ := hlv lvl hlvl
    refine ⟨?_, ?_, ?_, ?_⟩
    · intro hnil
      simp only [List.map_eq_nil] at hnil
      exact hne hnil
    · show lvl.total_quantity = _
      rw [htot]
      congr 1
      rw [List.map_map]
      refine (List.map_congr_left ?_).symm
      intro x hx2
      by_cases h2 : x.order_id = id <;> simp [Function.comp, h2]
    · rw [List.pairwise_map]
      refine hsort.imp ?_
      intro a b hab
      by_cases h1 : a.order_id = id <;> by_cases h2 : b.order_id = id <;>
        simp [h1, h2] <;> exact hab
    · intro y hy
      rcases List.mem_map.1 hy with ⟨z, hz, rfl⟩
      rcases hfields z hz with ⟨hz1, hz2⟩
      by_cases h2 : z.order_id = id <;> simp [h2] <;> exact ⟨hz1, hz2⟩
  · rw [List.pairwise_map]
    refine hpw.imp ?_
    intro a b hab
    simpa using hab

lemma allOrders_setTs (s : OrderBookL3) (id ts : Nat) :
    (s.setOrderTimestamp id ts).allOrders =
      s.allOrders.map (fun o =>
        if o.order_id = id then { o with timestamp := ts } else o) := by
  show ordersOf (s.bids.map _) ++ ordersOf (s.asks.map _) =
    (ordersOf s.bids ++ ordersOf s.asks).map _
  rw [ordersOf_map_orders, ordersOf_map_orders, List.map_append]

lemma setTs_WF {s : OrderBookL3} (hWF : s.WF) (id ts : Nat) :
    (s.setOrderTimestamp id ts).WF := by
  obtain ⟨hwb, hwa, h3, h4, h5, h6⟩ := hWF
  have hall := allOrders_setTs s id ts
  have hcomp : (Order.order_id ∘ fun o =>
      if o.order_id = id then { o with timestamp := ts } else o) = Order.order_id := by
    funext x
    by_cases h2 : x.order_id = id <;> simp [Function.comp, h2]
  refine ⟨sideWF_map_stamp hwb id ts, sideWF_map_stamp hwa id ts, ?_, h4, ?_, ?_⟩
  · rw [hall, List.map_map, hcomp]
    exact h3
  · intro idx hidx
    rcases h5 idx hidx with ⟨o, ho, hoid⟩
    refine ⟨if o.order_id = id then { o with timestamp := ts } else o, ?_, ?_⟩
    · rw [hall]
      exact List.mem_map.2 ⟨o, ho, rfl⟩
    · by_cases h2 : o.order_id = id
      · simp only [if_pos h2]
        rw [show ({ o with timestamp := ts } : Order).order_id = o.order_id from rfl]
        exact hoid
      · rw [if_neg h2]
        exact hoid
  · intro o' ho'
    rw [hall] at ho'
    rcases List.mem_map.1 ho' with ⟨o, ho, rfl⟩
    have hid : (if o.order_id = id then { o with timestamp := ts } else o).order_id =
        o.order_id := by
      by_cases h2 : o.order_id = id <;> simp [h2]
    rw [hid]
    exact h6 o ho

/-- Book-level bookkeeping for an operation that adds one record on one
side and prepends its id to the order map. -/
lemma WF_insert_book {s t : OrderBookL3} (hWF : s.WF) (side : Side) (o : Order)
    (hside : sideWF side (t.sideLevels side))
    (hother : t.sideLevels (otherSide side) = s.sideLevels (otherSide side))
    (hids : t.order_ids = o.order_id :: s.order_ids)
    (hperm : List.Perm (ordersOf (t.sideLevels side))
      (o :: ordersOf (s.sideLevels side)))
    (hfresh : ∀ x ∈ s.allOrders, x.order_id ≠ o.order_id) :
    t.WF := by
  obtain ⟨hwb, hwa, h3, h4, h5, h6⟩ := hWF
  have hsplit_t := allOrders_split t side
  have hsplit_s := allOrders_split s side
  rw [hother] at hsplit_t
  have hbig : List.Perm t.allOrders (o :: s.allOrders) := by
    refine hsplit_t.trans ?_
    refine (hperm.append_right _).trans ?_
    exact List.Perm.cons o hsplit_s.symm
  have hsides : ∀ sd, sideWF sd (t.sideLevels sd) := by
    intro sd
    rcases side_eq_or_other sd side with h | h
    · rw [h]; exact hside
    · rw [h, hother]
      cases side
      · exact hwa
      · exact hwb
  have hnotmem : o.order_id ∉ s.allOrders.map Order.order_id := by
    intro hmem
    rcases List.mem_map.1 hmem with ⟨x, hx, hxid⟩
    exact hfresh x hx hxid
  refine ⟨hsides .Buy, hsides .Sell, ?_, ?_, ?_, ?_⟩
  · refine ((hbig.map Order.order_id).symm).nodup ?_
    rw [List.map_cons]
    exact List.nodup_cons.2 ⟨hnotmem, h3⟩
  · rw [hids]
    refine List.nodup_cons.2 ⟨?_, h4⟩
    intro hin
    rcases h5 o.order_id hin with ⟨x, hx, hxid⟩
    exact hfresh x hx hxid
  · intro idx hidx
    rw [hids] at hidx
    rcases List.mem_cons.1 hidx with h | h
    · exact ⟨o, hbig.mem_iff.2 (List.mem_cons_self o s.allOrders), h.symm⟩
    · rcases h5 idx h with ⟨x, hx, hxid⟩
      exact ⟨x, hbig.mem_iff.2 (List.mem_cons_of_mem o hx), hxid⟩
  · intro r hr
    rw [hids]
    rcases List.mem_cons.1 (hbig.mem_iff.1 hr) with h | h
    · rw [h]
      exact List.mem_cons_self _ _
    · exact List.mem_cons_of_mem _ (h6 r h)

/-- Book-level bookkeeping for an operation that removes one record from
one side and erases its id from the order map. -/
lemma WF_delete_book {s t : OrderBookL3} (hWF : s.WF) (side : Side) (o : Order)
    (hside : sideWF side (t.sideLevels side))
    (hother : t.sideLevels (otherSide side) = s.sideLevels (otherSide side))
    (hids : t.order_ids = s.order_ids.erase o.order_id)
    (hperm : List.Perm (ordersOf (s.sideLevels side))
      (o :: ordersOf (t.sideLevels side))) :
    t.WF := by
  obtain ⟨hwb, hwa, h3, h4, h5, h6⟩ := hWF
  have hsplit_t := allOrders_split t side
  have hsplit_s := allOrders_split s side
  rw [hother] at hsplit_t
  have hbig : List.Perm s.allOrders (o :: t.allOrders) := by
    refine hsplit_s.trans ?_
    refine (hperm.append_right _).trans ?_
    exact List.Perm.cons o hsplit_t.symm
  have hsides : ∀ sd, sideWF sd (t.sideLevels sd) := by
    intro sd
    rcases side_eq_or_other sd side with h | h
    · rw [h]; exact hside
    · rw [h, hother]
      cases side
      · exact hwa
      · exact hwb
  have hnd2 : ((o :: t.allOrders).map Order.order_id).Nodup :=
    (hbig.map Order.order_id).nodup h3
  rw [List.map_cons] at hnd2
  obtain ⟨hnotmem, hnd3⟩ := List.nodup_cons.1 hnd2
  refine ⟨hsides .Buy, hsides .Sell, hnd3, ?_, ?_, ?_⟩
  · rw [hids]
    exact h4.erase _
  · intro idx hidx
    rw [hids] at hidx
    have hne : idx ≠ o.order_id := ((List.Nodup.mem_erase_iff h4).1 hidx).1
    have hin : idx ∈ s.order_ids := List.mem_of_mem_erase hidx
    rcases h5 idx hin with ⟨x, hx, hxid⟩
    rcases List.mem_cons.1 (hbig.mem_iff.1 hx) with h | h
    · exfalso
      rw [h] at hxid
      exact hne hxid.symm
    · exact ⟨x, h, hxid⟩
  · intro r hr
    rw [hids]
    have hrs : r ∈ s.allOrders := hbig.mem_iff.2 (List.mem_cons_of_mem o hr)
    have hrid : r.order_id ∈ s.order_ids := h6 r hrs
    have hrne : r.order_id ≠ o.order_id := by
      intro he
      exact hnotmem (he ▸ List.mem_map_of_mem Order.order_id hr)
    exact List.mem_erase_of_ne hrne |>.2 hrid

/-- Book-level bookkeeping for an operation that rewrites one record in
place (same order id), keeping the order map unchanged. -/
lemma WF_replace_book {s t : OrderBookL3} (hWF : s.WF) (side : Side) (o o' : Order)
    (K : List Order)
    (hside : sideWF side (t.sideLevels side))
    (hother : t.sideLevels (otherSide side) = s.sideLevels (otherSide side))
    (hids : t.order_ids = s.order_ids)
    (hpermS : List.Perm (ordersOf (s.sideLevels side)) (o :: K))
    (hpermT : List.Perm (ordersOf (t.sideLevels side)) (o' :: K))
    (hid : o'.order_id = o.order_id) :
    t.WF := by
  obtain ⟨hwb, hwa, h3, h4, h5, h6⟩ := hWF
  have hsplit_t := allOrders_split t side
  have hsplit_s := allOrders_split s side
  rw [hother] at hsplit_t
  have hbigS : List.Perm s.allOrders
      (o :: (K ++ ordersOf (s.sideLevels (otherSide side)))) := by
    refine hsplit_s.trans ?_
    exact hpermS.append_right _
  have hbigT : List.Perm t.allOrders
      (o' :: (K ++ ordersOf (s.sideLevels (otherSide side)))) := by
    refine hsplit_t.trans ?_
    exact hpermT.append_right _
  have hsides : ∀ sd, sideWF sd (t.sideLevels sd) := by
    intro sd
    rcases side_eq_or_other sd side with h | h
    · rw [h]; exact hside
    · rw [h, hother]
      cases side
      · exact hwa
      · exact hwb
  have hndS : ((o :: (K ++ ordersOf (s.sideLevels (otherSide side)))).map
      Order.order_id).Nodup := (hbigS.map Order.order_id).nodup h3
  refine ⟨hsides .Buy, hsides .Sell, ?_, ?_, ?_, ?_⟩
  · refine ((hbigT.map Order.order_id).symm).nodup ?_
    rw [List.map_cons, hid]
    rw [List.map_cons] at hndS
    exact hndS
  · rw [hids]
    exact h4
  · intro idx hidx
    rw [hids] at hidx
    rcases h5 idx hidx with ⟨x, hx, hxid⟩
    rcases List.mem_cons.1 (hbigS.mem_iff.1 hx) with h | h
    · refine ⟨o', hbigT.mem_iff.2 (List.mem_cons_self _ _), ?_⟩
      rw [hid, ← h]
      exact hxid
    · exact ⟨x, hbigT.mem_iff.2 (List.mem_cons_of_mem o' h), hxid⟩
  · intro r hr
    rw [hids]
    rcases List.mem_cons.1 (hbigT.mem_iff.1 hr) with h | h
    · rw [h, hid]
      exact h6 o (hbigS.mem_iff.2 (List.mem_cons_self _ _))
    · exact h6 r (hbigS.mem_iff.2 (List.mem_cons_of_mem o h))

@[simp] lemma OrderBookL3.sideLevels_idsUpdate (s : OrderBookL3) (v : List Nat)
    (sd : Side) :
    ({ s with order_ids := v } : OrderBookL3).sideLevels sd = s.sideLevels sd := by
  cases sd <;> rfl

@[simp] lemma OrderBookL3.allOrders_notify (s : OrderBookL3) (ts flags : Nat) :
    ((s.notifyTopOfBookIfChanged ts flags).1).allOrders = s.allOrders := by
  unfold OrderBookL3.allOrders
  rw [OrderBookL3.notify_bids3, OrderBookL3.notify_asks3]

lemma WF_sideWF {s : OrderBookL3} (h : s.WF) (sd : Side) :
    sideWF sd (s.sideLevels sd) := by
  cases sd
  · exact h.1
  · exact h.2.1

lemma WF_side_nodup {s : OrderBookL3} (h : s.WF) (sd : Side) :
    ((ordersOf (s.sideLevels sd)).map Order.order_id).Nodup := by
  have h2 := ((allOrders_split s sd).map Order.order_id).nodup h.2.2.1
  rw [List.map_append] at h2
  exact (List.nodup_append.1 h2).1

/-- Under well-formedness, a record in the book has a level at its price
on its side. -/
lemma find_level_of_record {s : OrderBookL3} (hWF : s.WF) {o : Order}
    (h : o ∈ s.allOrders) :
    ∃ i, findLevelIdx3 o.price (s.sideLevels o.side) = some i := by
  have hom := mem_side_of_allOrders hWF h
  rcases mem_ordersOf.1 hom with ⟨lvl, hlvl, ho⟩
  have hp : lvl.price = o.price :=
    (((WF_sideWF hWF o.side).1 lvl hlvl).2.2.2 o ho).2.symm
  rcases findLevelIdx3_some_of_mem (WF_sideWF hWF o.side).2 hlvl with ⟨i, hi, _⟩
  rw [hp] at hi
  exact ⟨i, hi⟩

lemma deleteOrder_WF {s : OrderBookL3} (hWF : s.WF) (id seq : Nat) (b : Bool) :
    ((s.deleteOrder id seq b).book).WF := by
  unfold OrderBookL3.deleteOrder
  by_cases hst : seqStale s.last_seq_num seq
  · rw [if_pos hst]
    exact hWF
  · rw [if_neg hst]
    dsimp only
    have hWF1 : (s.seqGate seq).WF := seqGate_WF hWF seq
    cases hf : (s.seqGate seq).findOrder id with
    | none => exact hWF1
    | some order =>
      dsimp only
      obtain ⟨hom, hoid⟩ := findOrder_mem hf
      have hom2 : order ∈ ordersOf (s.sideLevels order.side) := by
        have := mem_side_of_allOrders hWF1 hom
        simpa using this
      cases hfl : findLevelIdx3 order.price (s.sideLevels order.side) with
      | none =>
        exfalso
        rcases find_level_of_record hWF1 hom with ⟨i, hi⟩
        rw [OrderBookL3.sideLevels_seqGate3] at hi
        rw [hfl] at hi
        exact Option.noConfusion hi
      | some idx =>
        simp only [OrderBookL3.sideLevels_seqGate3, hfl]
        refine notify_WF ?_ _ _
        have hsurg := side_remove_surgery (WF_sideWF hWF1 order.side)
          (WF_side_nodup hWF1 order.side)
          (by simpa using hfl) (by simpa using hom2)
        refine WF_delete_book hWF1 order.side order ?_ ?_ ?_ ?_
        · simp only [OrderBookL3.sideLevels_setSide3, OrderBookL3.sideLevels_idsUpdate,
            OrderBookL3.sideLevels_seqGate3, if_pos rfl]
          simpa using hsurg.1
        · cases order.side <;> rfl
        · simp only [OrderBookL3.setSide_ids, OrderBookL3.seqGate_ids, hoid]
        · simp only [OrderBookL3.sideLevels_setSide3, OrderBookL3.sideLevels_idsUpdate,
            OrderBookL3.sideLevels_seqGate3, if_pos rfl]
          simpa using hsurg.2

lemma mem_allOrders_of_side {t : OrderBookL3} (sd : Side) {o : Order}
    (h : o ∈ ordersOf (t.sideLevels sd)) : o ∈ t.allOrders :=
  (allOrders_split t sd).mem_iff.2 (List.mem_append_left _ h)

lemma modifyOrder_WF_post {s : OrderBookL3} (hWF : s.WF) (id : Nat) (p q : Int)
    (seq : Nat) (b : Bool) :
    ((s.modifyOrder id p q seq b).book).WF ∧
    ((s.modifyOrder id p q seq b).ok = true → 0 < q →
      ∃ o' ∈ (s.modifyOrder id p q seq b).book.allOrders,
        o'.order_id = id ∧ o'.price = p ∧ o'.quantity = q ∧
        ∀ o0, s.findOrder id = some o0 → o'.side = o0.side) := by
  unfold OrderBookL3.modifyOrder
  by_cases hst : seqStale s.last_seq_num seq
  · rw [if_pos hst]
    exact ⟨hWF, by intro h; simp at h⟩
  · rw [if_neg hst]
    dsimp only
    have hWF1 : (s.seqGate seq).WF := seqGate_WF hWF seq
    cases hf : (s.seqGate seq).findOrder id with
    | none => exact ⟨hWF1, by intro h; simp at h⟩
    | some order =>
      dsimp only
      obtain ⟨hom, hoid⟩ := findOrder_mem hf
      have hfs : s.findOrder id = some order := by
        rw [← OrderBookL3.findOrder_seqGate s seq id]
        exact hf
      by_cases hq1 : q < 0
      · rw [if_pos hq1]
        exact ⟨hWF1, by intro _ hq2; omega⟩
      · rw [if_neg hq1]
        by_cases hq0 : q = 0
        · rw [if_pos hq0]
          exact ⟨deleteOrder_WF hWF1 id seq b, by intro _ hq2; omega⟩
        · rw [if_neg hq0]
          by_cases hno : p = order.price ∧ q = order.quantity
          · rw [if_pos hno]
            refine ⟨hWF1, ?_⟩
            intro _ _
            refine ⟨order, by simpa using hom, hoid, hno.1.symm, hno.2.symm, ?_⟩
            intro o0 h0
            rw [hfs] at h0
            injection h0 with h0
            rw [h0]
          · rw [if_neg hno]
            by_cases hpc : p ≠ order.price
            · rw [if_pos hpc]
              cases hfl : findLevelIdx3 order.price (s.sideLevels order.side) with
              | none =>
                exfalso
                rcases find_level_of_record hWF1 hom with ⟨i, hi⟩
                rw [OrderBookL3.sideLevels_seqGate3, hfl] at hi
                exact Option.noConfusion hi
              | some oidx =>
                simp only [OrderBookL3.sideLevels_seqGate3, hfl]
                have hom2 : order ∈ ordersOf (s.sideLevels order.side) := by
                  have h2 := mem_side_of_allOrders hWF1 hom
                  simpa using h2
                have hsurg1 := side_remove_surgery (WF_sideWF hWF order.side)
                  (WF_side_nodup hWF order.side) hfl hom2
                have hsurg2 := side_insert_surgery hsurg1.1
                  { order with price := p, quantity := q } rfl
                constructor
                · refine notify_WF ?_ _ _
                  refine WF_replace_book hWF1 order.side order
                    { order with price := p, quantity := q }
                    (ordersOf (removeLevelIfEmptyList order.price
                      (modifyLevelAt (fun lvl => lvl.removeOrder order) oidx
                        (s.sideLevels order.side)).1).1)
                    ?_ ?_ ?_ ?_ ?_ rfl
                  · simp only [OrderBookL3.sideLevels_setSide3,
                      OrderBookL3.sideLevels_seqGate3, if_pos rfl]
                    simpa using hsurg2.1
                  · cases order.side <;> rfl
                  · simp only [OrderBookL3.setSide_ids, OrderBookL3.seqGate_ids]
                  · simpa using hsurg1.2
                  · simp only [OrderBookL3.sideLevels_setSide3,
                      OrderBookL3.sideLevels_seqGate3, if_pos rfl]
                    simpa using hsurg2.2
                · intro _ _
                  refine ⟨{ order with price := p, quantity := q }, ?_, ?_, rfl, rfl, ?_⟩
                  · have hmemT : ({ order with price := p, quantity := q } : Order) ∈
                        ordersOf (modifyLevelAt
                          (fun lvl => lvl.insertOrder
                            { order with price := p, quantity := q })
                          (getOrCreateLevel order.side
                            ({ order with price := p, quantity := q } : Order).price
                            (removeLevelIfEmptyList order.price
                              (modifyLevelAt (fun lvl => lvl.removeOrder order) oidx
                                (s.sideLevels order.side)).1).1).2.1
                          (getOrCreateLevel order.side
                            ({ order with price := p, quantity := q } : Order).price
                            (removeLevelIfEmptyList order.price
                              (modifyLevelAt (fun lvl => lvl.removeOrder order) oidx
                                (s.sideLevels order.side)).1).1).1).1 :=
                      hsurg2.2.mem_iff.2 (List.mem_cons_self _ _)
                    rw [OrderBookL3.allOrders_notify]
                    refine mem_allOrders_of_side order.side ?_
                    simp only [OrderBookL3.sideLevels_setSide3,
                      OrderBookL3.sideLevels_seqGate3, if_pos rfl]
                    simpa using hmemT
                  · simpa using hoid
                  · intro o0 h0
                    rw [hfs] at h0
                    injection h0 with h0
                    rw [h0]
            · rw [if_neg hpc]
              have hpe : p = order.price := not_not.1 hpc
              cases hfl : findLevelIdx3 order.price (s.sideLevels order.side) with
              | none =>
                exfalso
                rcases find_level_of_record hWF1 hom with ⟨i, hi⟩
                rw [OrderBookL3.sideLevels_seqGate3, hfl] at hi
                exact Option.noConfusion hi
              | some i =>
                simp only [OrderBookL3.sideLevels_seqGate3, getOrCreateLevel, hfl]
                rw [← hoid]
                have hom2 : order ∈ ordersOf (s.sideLevels order.side) := by
                  have h2 := mem_side_of_allOrders hWF1 hom
                  simpa using h2
                obtain ⟨hsw, K, hK1, hK2⟩ := side_update_surgery
                  (WF_sideWF hWF order.side) q (WF_side_nodup hWF order.side)
                  hfl hom2
                constructor
                · refine notify_WF ?_ _ _
                  refine WF_replace_book hWF1 order.side order
                    { order with quantity := q } K ?_ ?_ ?_ ?_ ?_ rfl
                  · simp only [OrderBookL3.sideLevels_setSide3,
                      OrderBookL3.sideLevels_seqGate3, if_pos rfl]
                    exact hsw
                  · cases order.side <;> rfl
                  · simp only [OrderBookL3.setSide_ids, OrderBookL3.seqGate_ids]
                  · simpa using hK1
                  · simp only [OrderBookL3.sideLevels_setSide3,
                      OrderBookL3.sideLevels_seqGate3, if_pos rfl]
                    exact hK2
                · intro _ _
                  refine ⟨{ order with quantity := q }, ?_, ?_, ?_, rfl, ?_⟩
                  · rw [OrderBookL3.allOrders_notify]
                    refine mem_allOrders_of_side order.side ?_
                    simp only [OrderBookL3.sideLevels_setSide3,
                      OrderBookL3.sideLevels_seqGate3, if_pos rfl]
                    exact hK2.mem_iff.2 (List.mem_cons_self _ _)
                  · simpa using rfl
                  · show order.price = p
                    exact hpe.symm
                  · intro o0 h0
                    rw [show s.findOrder order.order_id = some order from by
                      rw [hoid]; exact hfs] at h0
                    injection h0 with h0
                    rw [h0]

lemma addOrModifyOrder_WF_post {s : OrderBookL3} (hWF : s.WF) (id : Nat)
    (side : Side) (p q : Int) (ts prio seq : Nat) (b : Bool) :
    ((s.addOrModifyOrder id side p q ts prio seq b).book).WF ∧
    ((s.addOrModifyOrder id side p q ts prio seq b).ok = true → 0 < q →
      ∃ o' ∈ (s.addOrModifyOrder id side p q ts prio seq b).book.allOrders,
        o'.order_id = id ∧ o'.price = p ∧ o'.quantity = q ∧ o'.side = side) := by
  unfold OrderBookL3.addOrModifyOrder
  by_cases hst : seqStale s.last_seq_num seq
  · rw [if_pos hst]
    exact ⟨hWF, by intro h; simp at h⟩
  · rw [if_neg hst]
    dsimp only
    have hWF1 : (s.seqGate seq).WF := seqGate_WF hWF seq
    cases hf : (s.seqGate seq).findOrder id with
    | none =>
      dsimp only
      by_cases hq : q ≤ 0
      · rw [if_pos hq]
        exact ⟨hWF1, by intro _ h2; omega⟩
      · rw [if_neg hq]
        have hfresh : ∀ x ∈ (s.seqGate seq).allOrders, x.order_id ≠ id :=
          findOrder_none hWF1 hf
        have hsurg := side_insert_surgery (WF_sideWF hWF side)
          (⟨id, p, q, side, ts, prio⟩ : Order) rfl
        constructor
        · refine notify_WF ?_ _ _
          refine WF_insert_book hWF1 side (⟨id, p, q, side, ts, prio⟩ : Order)
            ?_ ?_ ?_ ?_ hfresh
          · simp only [OrderBookL3.sideLevels_setSide3,
              OrderBookL3.sideLevels_idsUpdate, OrderBookL3.sideLevels_seqGate3,
              if_pos rfl]
            simpa using hsurg.1
          · cases side <;> rfl
          · simp only [OrderBookL3.setSide_ids, OrderBookL3.seqGate_ids]
          · simp only [OrderBookL3.sideLevels_setSide3,
              OrderBookL3.sideLevels_idsUpdate, OrderBookL3.sideLevels_seqGate3,
              if_pos rfl]
            simpa using hsurg.2
        · intro _ _
          refine ⟨⟨id, p, q, side, ts, prio⟩, ?_, rfl, rfl, rfl, rfl⟩
          rw [OrderBookL3.allOrders_notify]
          refine mem_allOrders_of_side side ?_
          simp only [OrderBookL3.sideLevels_setSide3,
            OrderBookL3.sideLevels_idsUpdate, OrderBookL3.sideLevels_seqGate3,
            if_pos rfl]
          have := hsurg.2.mem_iff.2 (List.mem_cons_self _ _)
          simpa using this
    | some order =>
      dsimp only
      obtain ⟨hom, hoid⟩ := findOrder_mem hf
      by_cases hside : order.side ≠ side
      · rw [if_pos hside]
        exact ⟨hWF1, by intro h; simp at h⟩
      · rw [if_neg hside]
        have hsid : order.side = side := not_not.1 hside
        by_cases hq : q ≤ 0
        · rw [if_pos hq]
          by_cases hq0 : q = 0
          · rw [if_pos hq0]
            exact ⟨deleteOrder_WF hWF1 id seq b, by intro _ h2; omega⟩
          · rw [if_neg hq0]
            exact ⟨hWF1, by intro _ h2; omega⟩
        · rw [if_neg hq]
          by_cases hid : order.price = p ∧ order.quantity = q
          · rw [if_pos hid]
            refine ⟨hWF1, ?_⟩
            intro _ _
            exact ⟨order, by simpa using hom, hoid, hid.1, hid.2, hsid⟩
          · rw [if_neg hid]
            have hWF2 : ((s.seqGate seq).setOrderTimestamp id ts).WF :=
              setTs_WF hWF1 id ts
            have hmp := modifyOrder_WF_post hWF2 id p q seq b
            refine ⟨hmp.1, ?_⟩
            intro hok hq2
            rcases hmp.2 hok hq2 with ⟨o', hmem, ho1, ho2, ho3, ho4⟩
            refine ⟨o', hmem, ho1, ho2, ho3, ?_⟩
            have hg : ({ order with timestamp := ts } : Order) ∈
                ((s.seqGate seq).setOrderTimestamp id ts).allOrders := by
              rw [allOrders_setTs]
              refine List.mem_map.2 ⟨order, by simpa using hom, ?_⟩
              rw [if_pos hoid]
            have h2 := findOrder_char hWF2.2.2.1 hWF2.2.2.2.2.2 hg
            rw [show ({ order with timestamp := ts } : Order).order_id =
              order.order_id from rfl, hoid] at h2
            have h3 := ho4 _ h2
            rw [h3]
            exact hsid

lemma addOrder_WF {s : OrderBookL3} (hWF : s.WF) (id : Nat) (side : Side)
    (p q : Int) (ts prio seq : Nat) (b : Bool) :
    ((s.addOrder id side p q ts prio seq b).book).WF := by
  unfold OrderBookL3.addOrder
  by_cases hst : seqStale s.last_seq_num seq
  · rw [if_pos hst]
    exact hWF
  · rw [if_neg hst]
    dsimp only
    have hWF1 : (s.seqGate seq).WF := seqGate_WF hWF seq
    by_cases hc : (s.seqGate seq).order_ids.contains id
    · rw [if_pos hc]
      exact hWF1
    · rw [if_neg hc]
      exact (addOrModifyOrder_WF_post hWF1 id side p q ts
        (if prio = 0 then ts else prio) seq b).1

lemma executeOrder_WF {s : OrderBookL3} (hWF : s.WF) (id : Nat) (q : Int)
    (seq : Nat) (b : Bool) :
    ((s.executeOrder id q seq b).book).WF := by
  unfold OrderBookL3.executeOrder
  by_cases hst : seqStale s.last_seq_num seq
  · rw [if_pos hst]
    exact hWF
  · rw [if_neg hst]
    dsimp only
    have hWF1 : (s.seqGate seq).WF := seqGate_WF hWF seq
    cases hf : (s.seqGate seq).findOrder id with
    | none => exact hWF1
    | some order =>
      dsimp only
      by_cases hr : q ≤ 0 ∨ q > order.quantity
      · rw [if_pos hr]
        exact hWF1
      · rw [if_neg hr]
        by_cases hrem : order.quantity - q = 0
        · rw [if_pos hrem]
          exact deleteOrder_WF hWF1 id seq b
        · rw [if_neg hrem]
          exact (modifyOrder_WF_post hWF1 id order.price (order.quantity - q)
            seq b).1

lemma applyCall_WF {s : OrderBookL3} (hWF : s.WF) (c : L3Call) (b : Bool) :
    ((s.applyCall c b).book).WF := by
  cases c with
  | addOrModify id side p q ts prio seq =>
    exact (addOrModifyOrder_WF_post hWF id side p q ts prio seq b).1
  | add id side p q ts prio seq => exact addOrder_WF hWF id side p q ts prio seq b
  | modify id p q seq => exact (modifyOrder_WF_post hWF id p q seq b).1
  | delete id seq => exact deleteOrder_WF hWF id seq b
  | execute id q seq => exact executeOrder_WF hWF id q seq b

lemma l3WF_init (symbol : Nat) : (OrderBookL3.init symbol).WF := by
  refine ⟨⟨?_, ?_⟩, ⟨?_, ?_⟩, ?_, ?_, ?_, ?_⟩ <;>
    simp [OrderBookL3.init, OrderBookL3.allOrders, ordersOf]

/-- Every L3 book the engine builds from a fresh book is well formed. -/
lemma l3WF_reachable {s : OrderBookL3} (h : ReachableL3 s) : s.WF := by
  induction h with
  | init symbol => exact l3WF_init symbol
  | step s c b _ ih => exact applyCall_WF ih c b

/-- The gate is the identity when the stored sequence number already
equals the incoming one (or the incoming one is zero). -/
lemma seqGate_self {t : OrderBookL3} {n : Nat} (h : 0 < n → t.last_seq_num = n) :
    t.seqGate n = t := by
  unfold OrderBookL3.seqGate
  split
  next hpos => rw [← h hpos]
  next => rfl

/-! ## Claim theorems -/

/-- C1: for every book (L2 or L3) and every mutating operation invoked
with `seq_num > 0`: if `seq_num < last_seq_num` the call is rejected with
no events, unchanged state, and (for L3) a `false` return; otherwise
`last_seq_num` becomes `max(last_seq_num, seq_num)`.  Consequently, after
any sequence of mutations from a fresh book, `last_seq_num` equals the
maximum gate-accepted sequence number, and a sequence number equal to
`last_seq_num` is never rejected as stale. -/
theorem C1_seq_gate :
    (∀ (s : OrderBookL2) (c : L2Call) (b : Bool),
        c.seq_num > 0 → c.seq_num < s.last_seq_num → s.applyCall c b = (s, [])) ∧
    (∀ (s : OrderBookL3) (c : L3Call) (b : Bool),
        c.seq > 0 → c.seq < s.last_seq_num →
        s.applyCall c b = ⟨false, [], s⟩) ∧
    (∀ (s : OrderBookL2) (c : L2Call) (b : Bool),
        c.seq_num > 0 → ¬ c.seq_num < s.last_seq_num →
        ((s.applyCall c b).1).last_seq_num = max s.last_seq_num c.seq_num) ∧
    (∀ (s : OrderBookL3) (c : L3Call) (b : Bool),
        c.seq > 0 → ¬ c.seq < s.last_seq_num →
        ((s.applyCall c b).book).last_seq_num = max s.last_seq_num c.seq) ∧
    (∀ (sym : Nat) (calls : List L2Call),
        (runL2Seq (OrderBookL2.init sym) calls).last_seq_num =
          natMax (l2AcceptedSeqs (OrderBookL2.init sym) calls)) ∧
    (∀ (sym : Nat) (calls : List L3Call),
        (runL3Seq (OrderBookL3.init sym) calls).last_seq_num =
          natMax (l3AcceptedSeqs (OrderBookL3.init sym) calls)) ∧
    (∀ last : Nat, ¬ seqStale last last) := by
  refine ⟨?_, ?_, ?_, ?_, ?_, ?_, ?_⟩
  · intro s c b h1 h2
    exact updateLevel_stale ⟨h1, h2⟩
  · intro s c b h1 h2
    exact applyCall_stale ⟨h1, h2⟩
  · intro s c b h1 h2
    exact l2_applyCall_last_max b (fun hh => h2 hh.2)
  · intro s c b h1 h2
    exact l3_applyCall_last_max b (fun hh => h2 hh.2)
  · intro sym calls
    rw [runL2Seq_last]
    rfl
  · intro sym calls
    rw [runL3Seq_last]
    rfl
  · intro last h
    rcases h with ⟨h1, h2⟩
    omega

/-- Witness for C1 at concrete inputs: a stale L2 call and a stale L3
call against a book with `last_seq_num = 5`, an accepted L3 call, and the
acceptance of `seq_num = last_seq_num`. -/
theorem C1_witness :
    ({ OrderBookL2.init 1 with last_seq_num := 5 } : OrderBookL2).applyCall
        ⟨Side.Buy, 100, 10, 1, 3⟩ true =
      ({ OrderBookL2.init 1 with last_seq_num := 5 }, []) ∧
    ({ OrderBookL3.init 1 with last_seq_num := 5 } : OrderBookL3).applyCall
        (L3Call.delete 7 3) true =
      ⟨false, [], { OrderBookL3.init 1 with last_seq_num := 5 }⟩ ∧
    ((({ OrderBookL3.init 1 with last_seq_num := 5 } : OrderBookL3).applyCall
        (L3Call.delete 7 9) true).book).last_seq_num = max 5 9 ∧
    ¬ seqStale 5 5 :=
  ⟨C1_seq_gate.1 _ _ _ (by decide) (by decide),
   C1_seq_gate.2.1 _ _ _ (by decide) (by decide),
   C1_seq_gate.2.2.2.1 _ _ _ (by decide) (by decide),
   C1_seq_gate.2.2.2.2.2.2 5⟩

/-- C2 as stated is false: `modify_order` on an unknown id with a fresh
positive sequence number returns false and emits nothing, but does change
the book — `last_seq_num` is advanced by the gate before the lookup
fails. -/
theorem C2_counterexample :
    ((OrderBookL3.init 1).modifyOrder 1 100 10 5 true).ok = false ∧
    ((OrderBookL3.init 1).modifyOrder 1 100 10 5 true).events = [] ∧
    ((OrderBookL3.init 1).modifyOrder 1 100 10 5 true).book ≠ OrderBookL3.init 1 ∧
    ((OrderBookL3.init 1).modifyOrder 1 100 10 5 true).book.last_seq_num = 5 ∧
    (OrderBookL3.init 1).last_seq_num = 0 := by decide

/-- C2 (amended): when `modify_order`, `delete_order` or `execute_order`
fails because the id is unknown, or `execute_order` is called with an
out-of-range executed quantity, the call returns false, emits no events,
and leaves the book unchanged except that the sequence gate has already
recorded `seq_num` into `last_seq_num` (the `seqGate` step). -/
theorem C2_failed_l3_ops :
    (∀ (s : OrderBookL3) (id : Nat) (p q : Int) (seq : Nat) (b : Bool),
        ¬ seqStale s.last_seq_num seq →
        s.findOrder id = none →
        s.modifyOrder id p q seq b = ⟨false, [], s.seqGate seq⟩) ∧
    (∀ (s : OrderBookL3) (id seq : Nat) (b : Bool),
        ¬ seqStale s.last_seq_num seq →
        s.findOrder id = none →
        s.deleteOrder id seq b = ⟨false, [], s.seqGate seq⟩) ∧
    (∀ (s : OrderBookL3) (id : Nat) (q : Int) (seq : Nat) (b : Bool),
        ¬ seqStale s.last_seq_num seq →
        s.findOrder id = none →
        s.executeOrder id q seq b = ⟨false, [], s.seqGate seq⟩) ∧
    (∀ (s : OrderBookL3) (id : Nat) (q : Int) (seq : Nat) (b : Bool) (o : Order),
        ¬ seqStale s.last_seq_num seq →
        s.findOrder id = some o →
        q ≤ 0 ∨ q > o.quantity →
        s.executeOrder id q seq b = ⟨false, [], s.seqGate seq⟩) := by
  refine ⟨?_, ?_, ?_, ?_⟩
  · intro s id p q seq b hst hf
    unfold OrderBookL3.modifyOrder
    rw [if_neg hst]
    dsimp only
    rw [OrderBookL3.findOrder_seqGate, hf]
  · intro s id seq b hst hf
    unfold OrderBookL3.deleteOrder
    rw [if_neg hst]
    dsimp only
    rw [OrderBookL3.findOrder_seqGate, hf]
  · intro s id q seq b hst hf
    unfold OrderBookL3.executeOrder
    rw [if_neg hst]
    dsimp only
    rw [OrderBookL3.findOrder_seqGate, hf]
  · intro s id q seq b o hst hf hr
    unfold OrderBookL3.executeOrder
    rw [if_neg hst]
    dsimp only
    rw [OrderBookL3.findOrder_seqGate, hf]
    dsimp only
    rw [if_pos hr]

/-- Witness for C2 (amended) at a concrete input: modifying the unknown
id 1 on a fresh book with `seq_num = 5`. -/
theorem C2_witness :
    (OrderBookL3.init 1).modifyOrder 1 100 10 5 true =
      ⟨false, [], (OrderBookL3.init 1).seqGate 5⟩ :=
  C2_failed_l3_ops.1 (OrderBookL3.init 1) 1 100 10 5 true (by decide) (by decide)

/-- C3 as stated is false: `delete_level` erases from the container
without refreshing the published cache, so `get_top_of_book` afterwards
reports the removed best bid while the containers are empty. -/
theorem C3_counterexample :
    (((((OrderBookL2.init 1).updateLevel Side.Buy 100 10 1 0 true).1).deleteLevel
        Side.Buy 100).1).getTopOfBook.best_bid = 100 ∧
    (((((OrderBookL2.init 1).updateLevel Side.Buy 100 10 1 0 true).1).deleteLevel
        Side.Buy 100).1).bids = [] ∧
    (((((OrderBookL2.init 1).updateLevel Side.Buy 100 10 1 0 true).1).deleteLevel
        Side.Buy 100).1).getTopOfBook.fields4 ≠
      (((((OrderBookL2.init 1).updateLevel Side.Buy 100 10 1 0 true).1).deleteLevel
        Side.Buy 100).1).freshTobFields := by decide

/-- C3 (amended): after any sequence of standalone `update_level` calls
(`is_last_in_batch = true`, any seq_num, any quantity), `get_top_of_book`
agrees in its four value fields with the top-of-book computed fresh from
the level containers. -/
theorem C3_tob_cache :
    ∀ s : OrderBookL2, ReachableL2Full s →
      (s.getTopOfBook).fields4 = s.freshTobFields :=
  fun _ h => (l2Synced_reachable h).2

/-- Witness for C3 (amended) after one concrete `update_level` call. -/
theorem C3_witness :
    ((((OrderBookL2.init 1).updateLevel Side.Buy 100 10 1 0 true).1).getTopOfBook).fields4 =
      (((OrderBookL2.init 1).updateLevel Side.Buy 100 10 1 0 true).1).freshTobFields :=
  C3_tob_cache _ (ReachableL2Full.update _ Side.Buy 100 10 1 0 (ReachableL2Full.init 1))

/-- C6 as stated is false: `update_level` stores a negative quantity
verbatim, so a level with `quantity = -5` rests in the container. -/
theorem C6_counterexample :
    ((((OrderBookL2.init 1).updateLevel Side.Buy 100 (-5) 1 0 true).1).getLevels
      Side.Buy) = [⟨100, -5, 1⟩] ∧
    ¬ ∀ l ∈ (((OrderBookL2.init 1).updateLevel Side.Buy 100 (-5) 1 0 true).1).getLevels
      Side.Buy, 0 < l.quantity := by decide

/-- C6 (amended): for every L2 book reachable by `update_level` and
`delete_level` calls, each side of `get_levels` is strictly ordered
(descending bids, ascending asks, hence duplicate-free) and every stored
quantity is nonzero; when every `update_level` call supplies a
nonnegative quantity, every stored quantity is positive. -/
theorem C6_l2_levels_sorted :
    (∀ s : OrderBookL2, ReachableL2D s → ∀ sd : Side,
        sideSorted sd (s.getLevels sd) ∧ ∀ l ∈ s.getLevels sd, l.quantity ≠ 0) ∧
    (∀ s : OrderBookL2, ReachableL2DPos s → ∀ sd : Side,
        ∀ l ∈ s.getLevels sd, 0 < l.quantity) :=
  ⟨fun _ h sd => (l2ContInv_reachable h) sd,
   fun _ h sd => (l2ContPos_reachable h) sd⟩

/-- Witness for C6 (amended) on a concrete two-call book. -/
theorem C6_witness :
    (∀ l ∈ ((((OrderBookL2.init 1).updateLevel Side.Buy 100 10 1 0 true).1).updateLevel
        Side.Buy 101 20 2 0 true).1.getLevels Side.Buy, l.quantity ≠ 0) ∧
    (∀ l ∈ ((((OrderBookL2.init 1).updateLevel Side.Buy 100 10 1 0 true).1).updateLevel
        Side.Buy 101 20 2 0 true).1.getLevels Side.Buy, 0 < l.quantity) :=
  ⟨fun l hl =>
      ((C6_l2_levels_sorted.1 _
        (ReachableL2D.update _ Side.Buy 101 20 2 0 true
          (ReachableL2D.update _ Side.Buy 100 10 1 0 true
            (ReachableL2D.init 1))) Side.Buy).2) l hl,
   fun l hl =>
      (C6_l2_levels_sorted.2 _
        (ReachableL2DPos.update _ Side.Buy 101 20 2 0 true (by norm_num)
          (ReachableL2DPos.update _ Side.Buy 100 10 1 0 true (by norm_num)
            (ReachableL2DPos.init 1))) Side.Buy) l hl⟩

/-- C4 as stated is false: in the batch below the first call inserts at
level index 0 and changes the candidate top-of-book, but the closing call
is a delete of an absent price, which takes no emit path — so the batch
ends without any `TopOfBookUpdate` although it touched index 0 and the
candidate differs from the published value. -/
theorem C4_counterexample :
    countTob (runL2Batch (OrderBookL2.init 1)
      [⟨Side.Buy, 100, 10, 1, 0⟩, ⟨Side.Buy, 200, 0, 2, 0⟩]).2 = 0 ∧
    l2TouchedIdxs (OrderBookL2.init 1)
      [⟨Side.Buy, 100, 10, 1, 0⟩, ⟨Side.Buy, 200, 0, 2, 0⟩] = [0] ∧
    (OrderBookL2.init 1).cached_tob.fields4 ≠
      ((runL2Batch (OrderBookL2.init 1)
        [⟨Side.Buy, 100, 10, 1, 0⟩, ⟨Side.Buy, 200, 0, 2, 0⟩]).1).freshTobFields := by
  decide

/-- C4 (amended): at most one `TopOfBookUpdate` per batch, always; and
for every batch that starts with the change-tracking index at its
sentinel and in which every call passes the sequence gate and takes an
emit path (quantity ≠ 0, or a delete of a present price), a
`TopOfBookUpdate` is emitted iff some call touched level index 0 (the
index recorded into the tracking minimum and carried by its
`PriceLevelUpdate`) and the candidate top-of-book at the closing call
differs from the previously published cached value. -/
theorem C4_l2_batch_coalescing :
    (∀ (s : OrderBookL2) (calls : List L2Call),
        countTob (runL2Batch s calls).2 ≤ 1) ∧
    (∀ (s : OrderBookL2) (calls : List L2Call),
        s.change_starting_index = INVALID_INDEX →
        calls ≠ [] →
        l2AllEmitting s calls = true →
        (countTob (runL2Batch s calls).2 = 1 ↔
          0 ∈ l2TouchedIdxs s calls ∧
          s.cached_tob.fields4 ≠ ((runL2Batch s calls).1).freshTobFields)) := by
  refine ⟨fun s calls => runL2Batch_tob_le calls s, ?_⟩
  intro s calls hcsi hne hemit
  rw [runL2Batch_tob_char calls s hne hemit]
  have hfold : List.foldl min s.change_starting_index (l2TouchedIdxs s calls) = 0 ↔
      0 ∈ l2TouchedIdxs s calls := by
    rw [foldl_min_eq_zero, hcsi]
    unfold INVALID_INDEX
    simp
  constructor
  · intro h1
    by_cases hcond : List.foldl min s.change_starting_index (l2TouchedIdxs s calls) = 0 ∧
        s.cached_tob.fields4 ≠ ((runL2Batch s calls).1).freshTobFields
    · exact ⟨hfold.1 hcond.1, hcond.2⟩
    · rw [if_neg hcond] at h1
      simp at h1
  · intro ⟨h1, h2⟩
    rw [if_pos ⟨hfold.2 h1, h2⟩]

/-- Witness for C4 (amended) on a one-call batch inserting the best
bid. -/
theorem C4_witness :
    countTob (runL2Batch (OrderBookL2.init 1) [⟨Side.Buy, 100, 10, 1, 0⟩]).2 = 1 ↔
      0 ∈ l2TouchedIdxs (OrderBookL2.init 1) [⟨Side.Buy, 100, 10, 1, 0⟩] ∧
      (OrderBookL2.init 1).cached_tob.fields4 ≠
        ((runL2Batch (OrderBookL2.init 1) [⟨Side.Buy, 100, 10, 1, 0⟩]).1).freshTobFields :=
  C4_l2_batch_coalescing.2 (OrderBookL2.init 1) [⟨Side.Buy, 100, 10, 1, 0⟩]
    rfl (by simp) (by decide)

/-- C9: `clear()`/`clear_side(side)` on both books and `delete_level` on
the L2 book remove the targeted levels and orders while emitting no
observer events (the operations return no events at all) and leaving
`last_seq_num`, the published/cached top-of-book, the tracking index and
the untargeted side unchanged. -/
theorem C9_clear_frame :
    (∀ (s : OrderBookL2) (side : Side) (price : Int),
      ((s.deleteLevel side price).1).cached_tob = s.cached_tob ∧
      ((s.deleteLevel side price).1).cached_best_bid = s.cached_best_bid ∧
      ((s.deleteLevel side price).1).cached_best_ask = s.cached_best_ask ∧
      ((s.deleteLevel side price).1).last_seq_num = s.last_seq_num ∧
      ((s.deleteLevel side price).1).change_starting_index =
        s.change_starting_index ∧
      ((s.deleteLevel side price).1).getTopOfBook = s.getTopOfBook ∧
      ((s.deleteLevel side price).1).getBestBid = s.getBestBid ∧
      ∀ sd, sd ≠ side →
        ((s.deleteLevel side price).1).sideLevels sd = s.sideLevels sd) ∧
    (∀ (s : OrderBookL2) (side : Side) (price : Int), ReachableL2D s →
      ∀ l ∈ ((s.deleteLevel side price).1).sideLevels side, l.price ≠ price) ∧
    (∀ (s : OrderBookL2) (side : Side) (price : Int) (l : PriceLevelL2),
      l ∈ s.sideLevels side → l.price ≠ price →
      l ∈ ((s.deleteLevel side price).1).sideLevels side) ∧
    (∀ (s : OrderBookL2) (side : Side),
      (s.clearSide side).sideLevels side = [] ∧
      (∀ sd, sd ≠ side → (s.clearSide side).sideLevels sd = s.sideLevels sd) ∧
      (s.clearSide side).cached_tob = s.cached_tob ∧
      (s.clearSide side).last_seq_num = s.last_seq_num ∧
      (s.clearSide side).change_starting_index = s.change_starting_index) ∧
    (∀ s : OrderBookL2,
      (s.clear).bids = [] ∧ (s.clear).asks = [] ∧
      (s.clear).cached_tob = s.cached_tob ∧
      (s.clear).last_seq_num = s.last_seq_num ∧
      (s.clear).getTopOfBook = s.getTopOfBook) ∧
    (∀ (s : OrderBookL3) (side : Side),
      (s.clearSide side).sideLevels side = [] ∧
      (∀ sd, sd ≠ side → (s.clearSide side).sideLevels sd = s.sideLevels sd) ∧
      (s.clearSide side).cached_tob = s.cached_tob ∧
      (s.clearSide side).last_seq_num = s.last_seq_num ∧
      (∀ id : Nat, id ∈ (s.clearSide side).order_ids ↔
        id ∈ s.order_ids ∧
          id ∉ (ordersOf (s.sideLevels side)).map Order.order_id)) ∧
    (∀ s : OrderBookL3,
      (s.clear).bids = [] ∧ (s.clear).asks = [] ∧
      (s.clear).cached_tob = s.cached_tob ∧
      (s.clear).last_seq_num = s.last_seq_num ∧
      (∀ id : Nat, id ∈ (s.clear).order_ids ↔
        id ∈ s.order_ids ∧ id ∉ (s.allOrders).map Order.order_id)) := by
  refine ⟨?_, ?_, ?_, ?_, ?_, ?_, ?_⟩
  · intro s side price
    unfold OrderBookL2.deleteLevel
    refine ⟨by simp, by simp, by simp, by simp, by simp,
      by simp [OrderBookL2.getTopOfBook], ?_, ?_⟩
    · unfold OrderBookL2.getBestBid
      simp
    · intro sd hsd
      simp [hsd]
  · intro s side price hr l hl
    have hinv := l2ContInv_reachable hr
    unfold OrderBookL2.deleteLevel eraseLevel at hl
    dsimp only at hl
    cases hfind : findLevelIdx side price (s.sideLevels side) with
    | none =>
      rw [hfind] at hl
      simp only [OrderBookL2.sideLevels_setSide, if_pos rfl] at hl
      exact findLevelIdx_none_not_mem (hinv side).1 hfind l hl
    | some i =>
      rw [hfind] at hl
      simp only [OrderBookL2.sideLevels_setSide, if_pos rfl] at hl
      exact eraseIdx_find_price_gone (hinv side).1 hfind l hl
  · intro s side price l hl hlp
    unfold OrderBookL2.deleteLevel eraseLevel
    dsimp only
    cases hfind : findLevelIdx side price (s.sideLevels side) with
    | none =>
      dsimp only
      simp only [OrderBookL2.sideLevels_setSide, if_pos rfl]
      exact hl
    | some i =>
      dsimp only
      simp only [OrderBookL2.sideLevels_setSide, if_pos rfl]
      exact eraseIdx_find_price_kept hfind l hl hlp
  · intro s side
    unfold OrderBookL2.clearSide
    refine ⟨by simp, ?_, by simp, by simp, by simp⟩
    intro sd hsd
    simp [hsd]
  · intro s
    unfold OrderBookL2.clear OrderBookL2.getTopOfBook
    exact ⟨rfl, rfl, rfl, rfl, rfl⟩
  · intro s side
    unfold OrderBookL3.clearSide
    refine ⟨by simp, ?_, by simp, by simp, ?_⟩
    · intro sd hsd
      cases sd <;> cases side <;>
        simp_all [OrderBookL3.sideLevels, OrderBookL3.setSide]
    · intro id
      simp [List.mem_filter]
  · intro s
    unfold OrderBookL3.clear OrderBookL3.clearSide
    refine ⟨?_, ?_, ?_, ?_, ?_⟩
    · cases hb : s.bids <;> simp [OrderBookL3.setSide, OrderBookL3.sideLevels]
    · simp [OrderBookL3.setSide, OrderBookL3.sideLevels]
    · simp
    · simp
    · intro id
      simp [List.mem_filter, OrderBookL3.setSide, OrderBookL3.sideLevels,
        OrderBookL3.allOrders, ordersOf]
      tauto

/-- Witness for C9 at a concrete input: deleting the only level of a
one-level reachable book. -/
theorem C9_witness :
    (∀ l ∈ (((((OrderBookL2.init 1).updateLevel Side.Buy 100 10 1 0 true).1).deleteLevel
        Side.Buy 100).1).sideLevels Side.Buy, l.price ≠ 100) ∧
    (((((OrderBookL2.init 1).updateLevel Side.Buy 100 10 1 0 true).1).deleteLevel
        Side.Buy 100).1).last_seq_num =
      ((((OrderBookL2.init 1).updateLevel Side.Buy 100 10 1 0 true).1)).last_seq_num :=
  ⟨fun l hl => C9_clear_frame.2.1 _ Side.Buy 100
      (ReachableL2D.update _ Side.Buy 100 10 1 0 true (ReachableL2D.init 1)) l hl,
   (C9_clear_frame.1 _ Side.Buy 100).2.2.2.1⟩

/-- C10 as stated is false in its final clause: a genuine level resting
at price 0 makes `get_best` report the side as empty (the first two
clauses hold), but the published `TopOfBook` still carries the level's
quantity, so it is distinguishable from that of a book with no bid
levels. -/
theorem C10_counterexample :
    ((((OrderBookL2.init 1).updateLevel Side.Buy 0 10 1 0 true).1).bids =
      [⟨0, 10, 1⟩]) ∧
    ((((OrderBookL2.init 1).updateLevel Side.Buy 0 10 1 0 true).1).getBestBid =
      none) ∧
    ((((OrderBookL2.init 1).updateLevel Side.Buy 0 10 1 0 true).1).getTopOfBook.bid_quantity
      = 10) ∧
    (((OrderBookL2.init 1).updateLevel Side.Buy 0 10 1 0 true).1).getTopOfBook ≠
      (OrderBookL2.init 1).getTopOfBook := by decide

/-- C10 (amended): the L2 book encodes an empty side in the published
top-of-book as price 0 / quantity 0, and `get_best` reports "no level"
exactly when the cached best price is 0; hence a book whose genuine best
bid rests at price 0 has `get_best(Bid) = none` and publishes best price
0, its top-of-book differing from an empty book only in the quantity
(and timestamp) fields. -/
theorem C10_zero_price_encoding :
    (∀ (s : OrderBookL2) (ts : Nat), s.bids = [] →
        ((s.notifyTopOfBookIfChanged ts).1).cached_tob.best_bid = 0 ∧
        ((s.notifyTopOfBookIfChanged ts).1).cached_tob.bid_quantity = 0) ∧
    (∀ s : OrderBookL2, s.getBestBid = none ↔ s.cached_tob.best_bid = 0) ∧
    (∀ s : OrderBookL2, s.getBestAsk = none ↔ s.cached_tob.best_ask = 0) ∧
    ((((OrderBookL2.init 1).updateLevel Side.Buy 0 10 1 0 true).1).getBestBid = none ∧
      (((OrderBookL2.init 1).updateLevel Side.Buy 0 10 1 0 true).1).getTopOfBook.best_bid
        = 0 ∧
      (((OrderBookL2.init 1).updateLevel Side.Buy 0 10 1 0 true).1).getTopOfBook.bid_quantity
        = 10) := by
  refine ⟨?_, ?_, ?_, by decide⟩
  · intro s ts hb
    unfold OrderBookL2.notifyTopOfBookIfChanged
    dsimp only
    rw [hb]
    split
    · exact ⟨rfl, rfl⟩
    next hnc =>
      push_neg at hnc
      obtain ⟨⟨e1, e2⟩, _⟩ := hnc
      simpa using ⟨e1, e2⟩
  · intro s
    unfold OrderBookL2.getBestBid
    split
    next h => simp [h]
    next h => simp [h]
  · intro s
    unfold OrderBookL2.getBestAsk
    split
    next h => simp [h]
    next h => simp [h]

/-- Witness for C10 (amended): the empty-side encoding on a fresh book
and the reader predicate at a published state. -/
theorem C10_witness :
    (((OrderBookL2.init 2).notifyTopOfBookIfChanged 5).1).cached_tob.best_bid = 0 ∧
    ((OrderBookL2.init 2).getBestBid = none ↔
      (OrderBookL2.init 2).cached_tob.best_bid = 0) :=
  ⟨(C10_zero_price_encoding.1 (OrderBookL2.init 2) 5 rfl).1,
   C10_zero_price_encoding.2.1 (OrderBookL2.init 2)⟩

/-- C5 counterexample: the batch `[add_order(11, Buy, 100, 10, non-last),
delete_order(999, last)]` changes the top-of-book value (a best bid
appears) but emits no `TopOfBookUpdate`: the closing call fails on an
unknown order id before reaching the publication check. -/
theorem C5_counterexample :
    countTob (runL3Batch (OrderBookL3.init 1)
      [L3Call.add 11 Side.Buy 100 10 1 1 0, L3Call.delete 999 0]).2 = 0 ∧
    ((runL3Batch (OrderBookL3.init 1)
      [L3Call.add 11 Side.Buy 100 10 1 1 0, L3Call.delete 999 0]).1).freshTobFields ≠
      (OrderBookL3.init 1).cached_tob.fields4 := by
  decide

/-- C5 (amended): at most one `TopOfBookUpdate` per L3 batch, always;
and for every batch whose closing call returns true and emits at least
one event (so it reaches the publication check rather than failing or
taking the idempotent no-op path), a `TopOfBookUpdate` is emitted iff
the top-of-book value at the end of the batch differs from the
previously published cached value. -/
theorem C5_l3_batch_coalescing :
    (∀ (s : OrderBookL3) (calls : List L3Call),
        countTob (runL3Batch s calls).2 ≤ 1) ∧
    (∀ (s : OrderBookL3) (cs : List L3Call) (c : L3Call),
        ((runL3Pre s cs).applyCall c true).ok = true →
        ((runL3Pre s cs).applyCall c true).events ≠ [] →
        (countTob (runL3Batch s (cs ++ [c])).2 = 1 ↔
          ((runL3Batch s (cs ++ [c])).1).freshTobFields ≠ s.cached_tob.fields4)) := by
  refine ⟨fun s calls => runL3Batch_tob_le calls s, ?_⟩
  intro s cs c hok hev
  obtain ⟨h1, h2, h3⟩ := runL3Batch_snoc cs c s
  rw [h1, h2, applyCall_tob_last _ _ hok hev, h3]
  constructor
  · intro hcount
    intro heq
    rw [if_pos heq] at hcount
    simp at hcount
  · intro hne
    rw [if_neg hne]

/-- Witness for C5 (amended) on a one-call batch adding the first bid
order: the closing call succeeds and emits, and exactly one
`TopOfBookUpdate` is observed because the value changed. -/
theorem C5_witness :
    ((runL3Pre (OrderBookL3.init 1) []).applyCall
        (L3Call.add 11 Side.Buy 100 10 1 1 0) true).ok = true ∧
    (countTob (runL3Batch (OrderBookL3.init 1)
        ([] ++ [L3Call.add 11 Side.Buy 100 10 1 1 0])).2 = 1 ↔
      ((runL3Batch (OrderBookL3.init 1)
        ([] ++ [L3Call.add 11 Side.Buy 100 10 1 1 0])).1).freshTobFields ≠
        (OrderBookL3.init 1).cached_tob.fields4) :=
  ⟨by decide,
   C5_l3_batch_coalescing.2 (OrderBookL3.init 1) []
     (L3Call.add 11 Side.Buy 100 10 1 1 0) (by decide) (by decide)⟩

/-- C7: for every L3 book reachable by the five mutating operations,
every price level on either side has a non-empty queue whose quantities
sum to the cached `total_quantity` and whose priorities are
non-decreasing head to tail; and `insertOrder`'s walk splices a new
order after all residents of equal or lower priority value and before
the first strictly greater one (stable tail-append among equals). -/
theorem C7_l3_level_invariants :
    (∀ (s : OrderBookL3), ReachableL3 s → ∀ (sd : Side), ∀ lvl ∈ s.sideLevels sd,
      lvl.orders ≠ [] ∧
      lvl.total_quantity = (lvl.orders.map Order.quantity).sum ∧
      lvl.orders.Pairwise (fun a b => a.priority ≤ b.priority)) ∧
    (∀ (o : Order) (l : List Order),
      l.Pairwise (fun a b => a.priority ≤ b.priority) →
      insertByPriority o l =
        l.takeWhile (fun x => decide (x.priority ≤ o.priority)) ++
          o :: l.dropWhile (fun x => decide (x.priority ≤ o.priority))) := by
  constructor
  · intro s hreach sd lvl hlvl
    have hWF := l3WF_reachable hreach
    obtain ⟨hne, htot, hsort, _⟩ := (WF_sideWF hWF sd).1 lvl hlvl
    exact ⟨hne, htot, hsort⟩
  · intro o l hl
    exact insertByPriority_splits hl

/-- Witness for C7: the level invariants at a small engine-built book,
and the stable splice on a one-element queue of equal priority. -/
theorem C7_witness :
    (∀ lvl ∈ (((OrderBookL3.init 1).applyCall
        (L3Call.add 11 Side.Buy 100 10 1 1 0) true).book).sideLevels Side.Buy,
      lvl.orders ≠ [] ∧
      lvl.total_quantity = (lvl.orders.map Order.quantity).sum ∧
      lvl.orders.Pairwise (fun a b => a.priority ≤ b.priority)) ∧
    insertByPriority ⟨2, 0, 0, Side.Buy, 0, 5⟩ [⟨1, 0, 0, Side.Buy, 0, 5⟩] =
      [⟨1, 0, 0, Side.Buy, 0, 5⟩, ⟨2, 0, 0, Side.Buy, 0, 5⟩] := by
  constructor
  · exact C7_l3_level_invariants.1 _
      (ReachableL3.step _ _ _ (ReachableL3.init 1)) Side.Buy
  · rw [C7_l3_level_invariants.2 ⟨2, 0, 0, Side.Buy, 0, 5⟩
      [⟨1, 0, 0, Side.Buy, 0, 5⟩] (by decide)]
    decide

/-- C8: on every engine-built (reachable) L3 book, a successful
`addOrModifyOrder` with positive quantity is idempotent: an immediately
repeated identical call returns true, emits no events, and returns the
book unchanged. -/
theorem C8_add_or_modify_idempotent :
    ∀ (s : OrderBookL3) (id : Nat) (side : Side) (p q : Int)
      (ts prio seq : Nat) (b : Bool),
      ReachableL3 s → 0 < q →
      (s.addOrModifyOrder id side p q ts prio seq b).ok = true →
      (s.addOrModifyOrder id side p q ts prio seq b).book.addOrModifyOrder
          id side p q ts prio seq b =
        ⟨true, [], (s.addOrModifyOrder id side p q ts prio seq b).book⟩ := by
  intro s id side p q ts prio seq b hreach hq hok
  have hWF := l3WF_reachable hreach
  have hpost := addOrModifyOrder_WF_post hWF id side p q ts prio seq b
  have hWFt := hpost.1
  rcases hpost.2 hok hq with ⟨o', hmem, h1, h2, h3, h4⟩
  have hnst0 : ¬ seqStale s.last_seq_num seq := by
    intro hst
    rw [addOrModifyOrder_stale hst] at hok
    simp at hok
  have hlast : (s.addOrModifyOrder id side p q ts prio seq b).book.last_seq_num =
      (s.seqGate seq).last_seq_num :=
    addOrModifyOrder_last s id side p q ts prio seq b hnst0
  have hnst : ¬ seqStale
      (s.addOrModifyOrder id side p q ts prio seq b).book.last_seq_num seq := by
    rw [hlast]
    exact OrderBookL3.not_stale_seqGate s seq
  have hgate : (s.addOrModifyOrder id side p q ts prio seq b).book.seqGate seq =
      (s.addOrModifyOrder id side p q ts prio seq b).book :=
    seqGate_self (fun hpos => by
      rw [hlast, OrderBookL3.seqGate_last3, if_pos hpos])
  have hfind : (s.addOrModifyOrder id side p q ts prio seq b).book.findOrder id =
      some o' := by
    have h5 := findOrder_char hWFt.2.2.1 hWFt.2.2.2.2.2 hmem
    rw [h1] at h5
    exact h5
  conv_lhs => rw [OrderBookL3.addOrModifyOrder]
  rw [if_neg hnst]
  dsimp only
  rw [hgate, hfind]
  dsimp only
  rw [if_neg (fun hne => hne h4)]
  rw [if_neg (by omega : ¬ q ≤ 0)]
  rw [if_pos ⟨h2, h3⟩]

/-- Witness for C8 on a fresh book and a first add of a bid order. -/
theorem C8_witness :
    0 < (10 : Int) ∧
    ((OrderBookL3.init 1).addOrModifyOrder 7 Side.Buy 100 10 5 3 0 true).ok =
      true ∧
    ((OrderBookL3.init 1).addOrModifyOrder 7 Side.Buy 100 10 5 3
        0 true).book.addOrModifyOrder 7 Side.Buy 100 10 5 3 0 true =
      ⟨true, [],
        ((OrderBookL3.init 1).addOrModifyOrder 7 Side.Buy 100 10 5 3 0 true).book⟩ :=
  ⟨by decide, by decide,
   C8_add_or_modify_idempotent (OrderBookL3.init 1) 7 Side.Buy 100 10 5 3 0 true
     (ReachableL3.init 1) (by decide) (by decide)⟩

end Slick
